import Mathlib

/-!
Verification of the drawio-mcp layout engine against its specification.

This file gives a shallow embedding, over exact rational arithmetic, of the
geometry primitives and layout algorithms of the repository
(`models.py`, `layout.py`, `layout_engine.py`) and proves or refutes the
specification claims about them.  Python `float` values are modelled by `ℚ`;
Python's `round` (banker's rounding, round-half-to-even) is modelled exactly
by `pyRound`.  So that every definition evaluates inside the kernel, the
arithmetic inside the embedding is written with the kernel-reducible
operations `qadd`, `qsub`, `qmul`, `qdiv` (proved equal to the field
operations of `ℚ` below); comparisons and theorem statements use the
ordinary order and field structure of `ℚ`.  Loops are modelled either by
structural recursion on their explicit iteration bound (when the source
fixes one) or by a fuel parameter (for searches whose termination is
data-dependent); theorems about fueled functions quantify over the fuel,
so they cover every terminating execution of the source.
-/

namespace DrawioMcp

/-- Kernel-reducible addition on `ℚ` (equal to `+`, see `qadd_eq`). -/
def qadd (a b : ℚ) : ℚ := Rat.divInt (a.num * b.den + b.num * a.den) (a.den * b.den)

/-- Kernel-reducible subtraction on `ℚ` (equal to `-`, see `qsub_eq`). -/
def qsub (a b : ℚ) : ℚ := Rat.divInt (a.num * b.den - b.num * a.den) (a.den * b.den)

/-- Kernel-reducible multiplication on `ℚ` (equal to `*`, see `qmul_eq`). -/
def qmul (a b : ℚ) : ℚ := Rat.divInt (a.num * b.num) (a.den * b.den)

/-- Kernel-reducible division on `ℚ` (equal to `/`, see `qdiv_eq`). -/
def qdiv (a b : ℚ) : ℚ := Rat.divInt (a.num * b.den) (a.den * b.num)

/-- Python's binary `min` on numbers. -/
def pymin (a b : ℚ) : ℚ := if a ≤ b then a else b

/-- Python's binary `max` on numbers. -/
def pymax (a b : ℚ) : ℚ := if b ≤ a then a else b

/-- Python's `abs` on numbers. -/
def pyabs (a : ℚ) : ℚ := if a < 0 then -a else a

/-- Python `round()`: round half to even (banker's rounding), exactly. -/
def pyRound (q : ℚ) : ℤ :=
  let fl := q.floor
  let fr := qsub q (fl : ℚ)
  if fr < Rat.divInt 1 2 then fl
  else if Rat.divInt 1 2 < fr then fl + 1
  else if fl % 2 = 0 then fl else fl + 1

/-- `snap_to_grid` from `models.py`: `round(value / grid_size) * grid_size`. -/
def snap_to_grid (value : ℚ) (grid_size : ℤ) : ℚ :=
  qmul ((pyRound (qdiv value (grid_size : ℚ)) : ℤ) : ℚ) ((grid_size : ℤ) : ℚ)

/-- A coordinate is an exact integer multiple of the grid size. -/
def IsGridMultiple (v : ℚ) (g : ℤ) : Prop := ∃ k : ℤ, v = (k : ℚ) * (g : ℚ)

/-- `Point` from `models.py`. -/
structure Pt where
  x : ℚ
  y : ℚ
deriving DecidableEq, Repr

/-- Snap both coordinates of a point. -/
def snapPt (p : Pt) (g : ℤ) : Pt := ⟨snap_to_grid p.x g, snap_to_grid p.y g⟩

/-- `CellBounds` from `models.py`: axis-aligned bounding box. -/
structure CellBounds where
  x : ℚ
  y : ℚ
  width : ℚ
  height : ℚ
deriving DecidableEq, Repr

namespace CellBounds

/-- `right` accessor from `models.py`. -/
def right (b : CellBounds) : ℚ := qadd b.x b.width

/-- `bottom` accessor from `models.py`. -/
def bottom (b : CellBounds) : ℚ := qadd b.y b.height

/-- `cx` (horizontal center) accessor from `models.py`. -/
def cx (b : CellBounds) : ℚ := qadd b.x (qdiv b.width 2)

/-- `cy` (vertical center) accessor from `models.py`. -/
def cy (b : CellBounds) : ℚ := qadd b.y (qdiv b.height 2)

/-- `CellBounds.intersects` from `models.py` (with optional margin). -/
def intersects (a b : CellBounds) (margin : ℚ) : Bool :=
  !(decide (qadd a.right margin ≤ b.x) || decide (qadd b.right margin ≤ a.x) ||
    decide (qadd a.bottom margin ≤ b.y) || decide (qadd b.bottom margin ≤ a.y))

end CellBounds

/-! ### Overlap removal (`_remove_overlaps`, `_compute_overlap`) -/

/-- `_Node` from `layout_engine.py`: internal node representation used by the
layout algorithms. -/
structure LayoutNode where
  id : String
  label : String
  width : ℚ
  height : ℚ
  rank : ℤ := 0
  order : ℚ := 0
  x : ℚ := 0
  y : ℚ := 0
  is_virtual : Bool := false
deriving DecidableEq, Repr

/-- `_compute_overlap` from `layout_engine.py`: positive on both axes means
the padding-padded boxes overlap. -/
def compute_overlap (a b : LayoutNode) (padding : ℚ) : ℚ × ℚ :=
  let a_right := qadd (qadd a.x a.width) padding
  let b_right := qadd (qadd b.x b.width) padding
  let a_bottom := qadd (qadd a.y a.height) padding
  let b_bottom := qadd (qadd b.y b.height) padding
  (qsub (pymin a_right b_right) (pymax a.x b.x),
   qsub (pymin a_bottom b_bottom) (pymax a.y b.y))

/-- The per-pair push-apart step of `_remove_overlaps` (its loop body):
`none` when the padded boxes do not overlap (no movement), otherwise the
moved pair. -/
def overlapPairUpdate (padding : ℚ) (a b : LayoutNode) :
    Option (LayoutNode × LayoutNode) :=
  let ov := compute_overlap a b padding
  if 0 < ov.1 ∧ 0 < ov.2 then
    some (if ov.1 < ov.2 then
      let push := qadd (qdiv ov.1 2) 1
      if a.x < b.x then ({a with x := qsub a.x push}, {b with x := qadd b.x push})
      else ({a with x := qadd a.x push}, {b with x := qsub b.x push})
    else
      let push := qadd (qdiv ov.2 2) 1
      if a.y < b.y then ({a with y := qsub a.y push}, {b with y := qadd b.y push})
      else ({a with y := qadd a.y push}, {b with y := qsub b.y push}))
  else none

/-- Default node used for list indexing (every access is in range). -/
def dfltNode : LayoutNode := ⟨"", "", 0, 0, 0, 0, 0, 0, false⟩

/-- Inner loop of one `_remove_overlaps` scan: for fixed `i`, walk
`j = i+1, …, n-1`, pushing apart each overlapping pair in place.  The first
argument is structural recursion gas; whenever `n - j ≤ gas` the guard
`j < n` alone decides termination, exactly as in the source loop. -/
def scanInner (padding : ℚ) (n i : Nat) :
    Nat → Nat → List LayoutNode → Bool → List LayoutNode × Bool
  | 0, _, nodes, moved => (nodes, moved)
  | gas + 1, j, nodes, moved =>
    if j < n then
      match overlapPairUpdate padding (nodes.getD i dfltNode) (nodes.getD j dfltNode) with
      | some p => scanInner padding n i gas (j + 1) ((nodes.set i p.1).set j p.2) true
      | none => scanInner padding n i gas (j + 1) nodes moved
    else (nodes, moved)

/-- Outer loop of one `_remove_overlaps` scan over all pairs `i < j` (gas
as in `scanInner`). -/
def scanOuter (padding : ℚ) (n : Nat) :
    Nat → Nat → List LayoutNode → Bool → List LayoutNode × Bool
  | 0, _, nodes, moved => (nodes, moved)
  | gas + 1, i, nodes, moved =>
    if i < n then
      match scanInner padding n i n (i + 1) nodes moved with
      | (ns, mv) => scanOuter padding n gas (i + 1) ns mv
    else (nodes, moved)

/-- One full pass over all unordered pairs (the body of the
`for iteration in range(...)` loop of `_remove_overlaps`). -/
def removeOverlapsScan (padding : ℚ) (nodes : List LayoutNode) :
    List LayoutNode × Bool :=
  scanOuter padding nodes.length nodes.length 0 nodes false

/-- The iteration loop of `_remove_overlaps`; the returned flag is `true`
iff the loop exited early because a full scan moved nothing (`break`).
The `Nat` argument plays the role of `cfg.max_overlap_iterations`. -/
def removeOverlapsIter (padding : ℚ) : Nat → List LayoutNode → List LayoutNode × Bool
  | 0, nodes => (nodes, false)
  | k + 1, nodes =>
    let r := removeOverlapsScan padding nodes
    if r.2 then removeOverlapsIter padding k r.1 else (r.1, true)

/-- `_remove_overlaps` from `layout_engine.py`: iterate push-apart scans up
to the iteration cap, then snap every node position to the grid.  Returns
the final nodes and whether the loop terminated early (no overlap found). -/
def remove_overlaps (nodes : List LayoutNode) (padding : ℚ)
    (max_iterations : Nat) (grid_size : ℤ) : List LayoutNode × Bool :=
  let r := removeOverlapsIter padding max_iterations nodes
  (r.1.map (fun nd =>
    {nd with x := snap_to_grid nd.x grid_size, y := snap_to_grid nd.y grid_size}), r.2)

/-- Horizontal center of a layout node's box. -/
def nodeCx (a : LayoutNode) : ℚ := a.x + a.width / 2

/-- Vertical center of a layout node's box. -/
def nodeCy (a : LayoutNode) : ℚ := a.y + a.height / 2

/-- No pair of distinct nodes in the list has padding-padded overlap on both
axes (the condition under which `_remove_overlaps` moves a pair). -/
def NoOverlapPairs (padding : ℚ) (nodes : List LayoutNode) : Prop :=
  ∀ i j : Nat, i < j → j < nodes.length →
    ¬(0 < (compute_overlap (nodes.getD i dfltNode) (nodes.getD j dfltNode) padding).1 ∧
      0 < (compute_overlap (nodes.getD i dfltNode) (nodes.getD j dfltNode) padding).2)

/-- Claim C5 as stated: overlapping pairs are pushed apart along the axis of
smaller overlap, with ties between the axes broken toward the x-axis, each
node moving half the overlap plus one unit away from the other node's
center. -/
def C5Statement : Prop :=
  ∀ (padding : ℚ) (a b : LayoutNode),
    0 < (compute_overlap a b padding).1 → 0 < (compute_overlap a b padding).2 →
    ∃ p : LayoutNode × LayoutNode, overlapPairUpdate padding a b = some p ∧
      (((compute_overlap a b padding).1 ≤ (compute_overlap a b padding).2 →
        p.1.y = a.y ∧ p.2.y = b.y ∧
        (nodeCx a < nodeCx b →
          p.1.x = a.x - ((compute_overlap a b padding).1 / 2 + 1) ∧
          p.2.x = b.x + ((compute_overlap a b padding).1 / 2 + 1)) ∧
        (nodeCx b < nodeCx a →
          p.1.x = a.x + ((compute_overlap a b padding).1 / 2 + 1) ∧
          p.2.x = b.x - ((compute_overlap a b padding).1 / 2 + 1))) ∧
      ((compute_overlap a b padding).2 < (compute_overlap a b padding).1 →
        p.1.x = a.x ∧ p.2.x = b.x ∧
        (nodeCy a < nodeCy b →
          p.1.y = a.y - ((compute_overlap a b padding).2 / 2 + 1) ∧
          p.2.y = b.y + ((compute_overlap a b padding).2 / 2 + 1)) ∧
        (nodeCy b < nodeCy a →
          p.1.y = a.y + ((compute_overlap a b padding).2 / 2 + 1) ∧
          p.2.y = b.y - ((compute_overlap a b padding).2 / 2 + 1))))

/-- Claim C1 as stated for the in-layout remover: whenever the loop exits
early (a full scan found no overlap), the final node list — after the
closing snap of every position to the grid — has no overlapping padded
pair. -/
def C1Statement : Prop :=
  ∀ (nodes : List LayoutNode) (padding : ℚ) (maxIter : Nat) (grid : ℤ),
    (remove_overlaps nodes padding maxIter grid).2 = true →
    NoOverlapPairs padding (remove_overlaps nodes padding maxIter grid).1

/-- C1 counterexample node `a`: 124 wide at x = 0. -/
def c1A : LayoutNode := { id := "A", label := "A", width := 124, height := 60, x := 0, y := 0 }

/-- C1 counterexample node `b` at x = 144: the padded gap is exactly zero so
the scan moves nothing, but snapping pulls `b` to x = 140. -/
def c1B : LayoutNode := { id := "B", label := "B", width := 100, height := 60, x := 144, y := 0 }

/-- C5 tie counterexample: equal overlap on both axes. -/
def c5A : LayoutNode := { id := "A", label := "A", width := 200, height := 200, x := 0, y := 0 }

/-- Second node of the C5 tie counterexample, nested inside `c5A`. -/
def c5B : LayoutNode := { id := "B", label := "B", width := 20, height := 20, x := 10, y := 10 }

/-- C5 direction counterexample: `c5C.x < c5D.x` but `c5C`'s center is to
the right of `c5D`'s center. -/
def c5C : LayoutNode := { id := "C", label := "C", width := 200, height := 500, x := 0, y := 0 }

/-- Second node of the C5 direction counterexample. -/
def c5D : LayoutNode := { id := "D", label := "D", width := 20, height := 500, x := 10, y := 300 }

/-- Witness nodes for the amended C1: two well-separated boxes, so the very
first scan finds no overlap and the loop exits early. -/
def c1Wnodes : List LayoutNode :=
  [{ id := "A", label := "A", width := 100, height := 60, x := 0, y := 0 },
   { id := "B", label := "B", width := 100, height := 60, x := 400, y := 0 }]

/-! ### Diagram model (`models.py`) and `get_all_vertex_bounds` (`layout.py`) -/

/-- `Geometry` from `models.py` (the fields the layout engine touches). -/
structure Geometry where
  x : ℚ := 0
  y : ℚ := 0
  width : ℚ := 120
  height : ℚ := 60
  relative : Bool := false
  points : List Pt := []
deriving DecidableEq, Repr

/-- `MxCell` from `models.py` (the fields the layout engine touches). -/
structure MxCell where
  id : String
  value : String := ""
  parent : String := "1"
  vertex : Bool := false
  edge : Bool := false
  source : Option String := none
  target : Option String := none
  geometry : Option Geometry := none
deriving DecidableEq, Repr

/-- `Diagram` from `models.py` (cell list and grid size). -/
structure Diagram where
  cells : List MxCell
  grid_size : ℤ := 10
deriving DecidableEq, Repr

/-- Default cell used for (in-range) list indexing. -/
def dfltCell : MxCell := { id := "" }

/-- First pass of `get_all_vertex_bounds`: raw geometry of each
non-relative vertex, in cell order (a Python dict keyed by id). -/
def geomRaw (cells : List MxCell) : List (String × (ℚ × ℚ × ℚ × ℚ × String)) :=
  cells.filterMap (fun c =>
    match c.geometry with
    | some g =>
      if c.vertex ∧ g.relative = false then
        some (c.id, (g.x, g.y, g.width, g.height, if c.parent = "" then "1" else c.parent))
      else none
    | none => none)

/-- Python-dict lookup on an insertion list: the last write wins. -/
def lookupLast {α : Type} (l : List (String × α)) (k : String) : Option α :=
  ((l.filter (fun e => e.1 == k)).getLast?).map (·.2)

/-- Python-dict iteration order on an insertion list: each key at its first
occurrence. -/
def dedupKeysFirst {α : Type} (l : List (String × α)) : List String :=
  l.foldl (fun acc e => if acc.contains e.1 then acc else acc ++ [e.1]) []

/-- The recursive `abs_pos` helper of `get_all_vertex_bounds`: walk the
parent chain adding offsets.  The fuel bounds the recursion depth; with
fuel larger than the chain length (always true for the acyclic parent
structures the source terminates on) it agrees with the source. -/
def absPos (raw : List (String × (ℚ × ℚ × ℚ × ℚ × String))) :
    Nat → String → ℚ × ℚ
  | 0, _ => (0, 0)
  | fuel + 1, cid =>
    match lookupLast raw cid with
    | none => (0, 0)
    | some (x, y, _, _, parent) =>
      if parent = "0" ∨ parent = "1" ∨ parent = "" then (x, y)
      else
        match absPos raw fuel parent with
        | (px, py) => (qadd px x, qadd py y)

/-- `get_all_vertex_bounds` from `layout.py`: absolute bounding boxes of
all non-relative vertices, as an association list in dict order. -/
def get_all_vertex_bounds (cells : List MxCell) : List (String × CellBounds) :=
  let raw := geomRaw cells
  (dedupKeysFirst raw).map (fun cid =>
    match lookupLast raw cid with
    | some (_, _, w, h, _) =>
      match absPos raw (raw.length + 1) cid with
      | (ax, ay) => (cid, CellBounds.mk ax ay w h)
    | none => (cid, CellBounds.mk 0 0 0 0))

/-! ### `resolve_overlaps` from `layout_engine.py` -/

/-- Index of the last cell with the given id (the Python cell-search loop
keeps reassigning, so the last match wins). -/
def lastIdxOf (cells : List MxCell) (cid : String) : Option Nat :=
  (List.range cells.length).foldl
    (fun acc k => if (cells.getD k dfltCell).id == cid then some k else acc) none

/-- Write a new x into a cell's geometry (the Python `a_cell.geometry.x = …`
assignment; only reached when the geometry exists). -/
def setGeoX (c : MxCell) (v : ℚ) : MxCell :=
  match c.geometry with
  | none => c
  | some g => {c with geometry := some {g with x := v}}

/-- Write a new y into a cell's geometry. -/
def setGeoY (c : MxCell) (v : ℚ) : MxCell :=
  match c.geometry with
  | none => c
  | some g => {c with geometry := some {g with y := v}}

/-- The body of the pair loop of `resolve_overlaps` for one pair of ids with
their (stale, start-of-iteration) bounds: returns the updated cell list,
whether the pair overlapped, and the `moved_count` increment. -/
def resolvePairStep (margin : ℚ) (grid : ℤ) (cells : List MxCell)
    (aId bId : String) (aB bB : CellBounds) : List MxCell × Bool × Nat :=
  if aB.intersects bB margin = false then (cells, false, 0)
  else
    match lastIdxOf cells aId, lastIdxOf cells bId with
    | some ai, some bi =>
      match (cells.getD ai dfltCell).geometry, (cells.getD bi dfltCell).geometry with
      | some ag, some bg =>
        let dx := qsub bB.cx aB.cx
        let dy := qsub bB.cy aB.cy
        let overlap_x := qsub (qadd (qadd (qdiv aB.width 2) (qdiv bB.width 2)) margin) (pyabs dx)
        let overlap_y := qsub (qadd (qadd (qdiv aB.height 2) (qdiv bB.height 2)) margin) (pyabs dy)
        if 0 < overlap_x ∧ 0 < overlap_y then
          if overlap_x < overlap_y then
            let push := qadd (qdiv overlap_x 2) 1
            if 0 ≤ dx then
              ((cells.set ai (setGeoX (cells.getD ai dfltCell)
                  (snap_to_grid (qsub ag.x push) grid))).set bi
                (setGeoX (cells.getD bi dfltCell) (snap_to_grid (qadd bg.x push) grid)),
               true, 1)
            else
              ((cells.set ai (setGeoX (cells.getD ai dfltCell)
                  (snap_to_grid (qadd ag.x push) grid))).set bi
                (setGeoX (cells.getD bi dfltCell) (snap_to_grid (qsub bg.x push) grid)),
               true, 1)
          else
            let push := qadd (qdiv overlap_y 2) 1
            if 0 ≤ dy then
              ((cells.set ai (setGeoY (cells.getD ai dfltCell)
                  (snap_to_grid (qsub ag.y push) grid))).set bi
                (setGeoY (cells.getD bi dfltCell) (snap_to_grid (qadd bg.y push) grid)),
               true, 1)
            else
              ((cells.set ai (setGeoY (cells.getD ai dfltCell)
                  (snap_to_grid (qadd ag.y push) grid))).set bi
                (setGeoY (cells.getD bi dfltCell) (snap_to_grid (qsub bg.y push) grid)),
               true, 1)
        else (cells, true, 0)
      | _, _ => (cells, true, 0)
    | _, _ => (cells, true, 0)

/-- Bounds of an id in the stale bounds association list (every looked-up
id is a key by construction). -/
def boundsOf (bounds : List (String × CellBounds)) (cid : String) : CellBounds :=
  match lookupLast bounds cid with
  | some b => b
  | none => CellBounds.mk 0 0 0 0

/-- Inner pair loop of one `resolve_overlaps` iteration (indices `j > i`
into the id list; gas as in `scanInner`). -/
def resolveInner (margin : ℚ) (grid : ℤ) (ids : List String)
    (bounds : List (String × CellBounds)) (i : Nat) :
    Nat → Nat → List MxCell → Bool → Nat → List MxCell × Bool × Nat
  | 0, _, cells, anyOv, moved => (cells, anyOv, moved)
  | gas + 1, j, cells, anyOv, moved =>
    if j < ids.length then
      match resolvePairStep margin grid cells (ids.getD i "") (ids.getD j "")
        (boundsOf bounds (ids.getD i "")) (boundsOf bounds (ids.getD j "")) with
      | (cells', ov, inc) =>
        resolveInner margin grid ids bounds i gas (j + 1) cells' (anyOv || ov) (moved + inc)
    else (cells, anyOv, moved)

/-- Outer pair loop of one `resolve_overlaps` iteration. -/
def resolveOuter (margin : ℚ) (grid : ℤ) (ids : List String)
    (bounds : List (String × CellBounds)) :
    Nat → Nat → List MxCell → Bool → Nat → List MxCell × Bool × Nat
  | 0, _, cells, anyOv, moved => (cells, anyOv, moved)
  | gas + 1, i, cells, anyOv, moved =>
    if i < ids.length then
      match resolveInner margin grid ids bounds i ids.length (i + 1) cells anyOv moved with
      | (cells', ov, mv) => resolveOuter margin grid ids bounds gas (i + 1) cells' ov mv
    else (cells, anyOv, moved)

/-- One full iteration of `resolve_overlaps`: recompute bounds, scan all
pairs.  Returns the updated cells, whether any pair overlapped, and the
accumulated moved count. -/
def resolveScan (margin : ℚ) (grid : ℤ) (cells : List MxCell) (moved : Nat) :
    List MxCell × Bool × Nat :=
  let bounds := get_all_vertex_bounds cells
  let ids := bounds.map (·.1)
  resolveOuter margin grid ids bounds ids.length 0 cells false moved

/-- The iteration loop of `resolve_overlaps`; the flag is `true` iff the
loop exited early because an iteration found no overlapping pair. -/
def resolveIter (margin : ℚ) (grid : ℤ) :
    Nat → List MxCell → Nat → List MxCell × Nat × Bool
  | 0, cells, moved => (cells, moved, false)
  | k + 1, cells, moved =>
    match resolveScan margin grid cells moved with
    | (cells', anyOv, moved') =>
      if anyOv then resolveIter margin grid k cells' moved' else (cells', moved', true)

/-- `resolve_overlaps` from `layout_engine.py`: push apart overlapping
shapes.  Returns the updated diagram, the number of shapes moved, and
whether the loop exited early because no overlap remained. -/
def resolve_overlaps (d : Diagram) (margin : ℚ) (max_iterations : Nat) :
    Diagram × Nat × Bool :=
  match resolveIter margin d.grid_size max_iterations d.cells 0 with
  | (cells', moved, early) => ({d with cells := cells'}, moved, early)

/-- Witness diagram for the amended C1: two well-separated vertices. -/
def c1Wdiagram : Diagram :=
  { cells := [{ id := "0", parent := "" }, { id := "1", parent := "0" },
      { id := "2", vertex := true, geometry := some { x := 0, y := 0, width := 100, height := 60 } },
      { id := "3", vertex := true, geometry := some { x := 400, y := 0, width := 100, height := 60 } }] }

/-- No two distinct vertices of the cell list have margin-padded
intersecting bounding boxes (phrased through the same id list and bounds
lookups the `resolve_overlaps` pair scan performs). -/
def NoIntersectingPairs (margin : ℚ) (cells : List MxCell) : Prop :=
  ∀ i j : Nat, i < j → j < ((get_all_vertex_bounds cells).map (·.1)).length →
    ((boundsOf (get_all_vertex_bounds cells)
        (((get_all_vertex_bounds cells).map (·.1)).getD i "")).intersects
      (boundsOf (get_all_vertex_bounds cells)
        (((get_all_vertex_bounds cells).map (·.1)).getD j "")) margin) = false

/-- Everything of a cell except the x and y of its geometry: id, value,
parent, flags, endpoints, and the geometry's width, height, relative flag
and waypoints.  `resolve_overlaps` preserves the cell list's image under
this map. -/
def cellShape (c : MxCell) :
    String × String × String × Bool × Bool × Option String × Option String ×
      Option (ℚ × ℚ × Bool × List Pt) :=
  (c.id, c.value, c.parent, c.vertex, c.edge, c.source, c.target,
   c.geometry.map (fun g => (g.width, g.height, g.relative, g.points)))

/-- The cell lists at the start of each executed `resolve_overlaps`
iteration: exactly the states whose (stale) bounds feed the pair tests of
that iteration. -/
def resolveTraceStates (margin : ℚ) (grid : ℤ) :
    Nat → List MxCell → Nat → List (List MxCell)
  | 0, _, _ => []
  | k + 1, cells, moved =>
    cells :: (match resolveScan margin grid cells moved with
      | (cells', anyOv, moved') =>
        if anyOv then resolveTraceStates margin grid k cells' moved' else [])

/-! ### `_assign_coordinates` from `layout_engine.py` -/

/-- `LayoutEngineConfig` (the fields `_assign_coordinates` reads), with the
source's defaults. -/
structure LayoutEngineConfig where
  rank_spacing : ℚ := 100
  node_spacing : ℚ := 60
  default_width : ℚ := 120
  default_height : ℚ := 60
  start_x : ℚ := 50
  start_y : ℚ := 80
deriving DecidableEq, Repr

/-- The source's default configuration. -/
def dfltConfig : LayoutEngineConfig := {}

/-- `nodes[label]` on the node dict (total, with a default; the source
only looks up labels present in the dict). -/
def lookupNodeD (nodes : List (String × LayoutNode)) (n : String) : LayoutNode :=
  (lookupLast nodes n).getD dfltNode

/-- The in-place `node.x = …; node.y = …` writes on the dict entry. -/
def updateNodeXY (nodes : List (String × LayoutNode)) (n : String) (x y : ℚ) :
    List (String × LayoutNode) :=
  nodes.map (fun e => if e.1 = n then (e.1, {e.2 with x := x, y := y}) else e)

/-- `[n for n in rank_nodes if not nodes[n].is_virtual]`. -/
def realNodes (nodes : List (String × LayoutNode)) (rankNodes : List String) :
    List String :=
  rankNodes.filter (fun n => (lookupNodeD nodes n).is_virtual = false)

/-- `sum(nodes[n].width for n in real_nodes)`. -/
def sumWidths (nodes : List (String × LayoutNode)) (real : List String) : ℚ :=
  real.foldl (fun acc n => qadd acc (lookupNodeD nodes n).width) 0

/-- `sum(nodes[n].height for n in real_nodes)`. -/
def sumHeights (nodes : List (String × LayoutNode)) (real : List String) : ℚ :=
  real.foldl (fun acc n => qadd acc (lookupNodeD nodes n).height) 0

/-- A rank's `total_w`: widths of its real nodes plus node spacing between
them (0 when the rank has no real node). -/
def rankTotalW (nodes : List (String × LayoutNode)) (rankNodes : List String)
    (spacing : ℚ) : ℚ :=
  if (realNodes nodes rankNodes).isEmpty then 0
  else qadd (sumWidths nodes (realNodes nodes rankNodes))
    (qmul (qsub (((realNodes nodes rankNodes).length : ℤ) : ℚ) 1) spacing)

/-- A rank's `total_h` (the vertical-arrangement analogue of `total_w`). -/
def rankTotalH (nodes : List (String × LayoutNode)) (rankNodes : List String)
    (spacing : ℚ) : ℚ :=
  if (realNodes nodes rankNodes).isEmpty then 0
  else qadd (sumHeights nodes (realNodes nodes rankNodes))
    (qmul (qsub (((realNodes nodes rankNodes).length : ℤ) : ℚ) 1) spacing)

/-- `max_rank_width`: the largest `total_w` over ranks with a real node. -/
def maxRankWidth (by_rank : List (ℤ × List String)) (nodes : List (String × LayoutNode))
    (spacing : ℚ) : ℚ :=
  by_rank.foldl (fun acc rk =>
    if (realNodes nodes rk.2).isEmpty then acc
    else pymax acc (rankTotalW nodes rk.2 spacing)) 0

/-- The vertical analogue of `max_rank_width` (the widest rank's total
extent when the cross axis is vertical); used to state the claimed — but
absent — LR/RL centering. -/
def maxRankTotalH (by_rank : List (ℤ × List String)) (nodes : List (String × LayoutNode))
    (spacing : ℚ) : ℚ :=
  by_rank.foldl (fun acc rk =>
    if (realNodes nodes rk.2).isEmpty then acc
    else pymax acc (rankTotalH nodes rk.2 spacing)) 0

/-- `max((nodes[n].height for n in real_nodes), default=cfg.default_height)`. -/
def maxHeightPerRank (nodes : List (String × LayoutNode)) (rns : List String)
    (dflt : ℚ) : ℚ :=
  match realNodes nodes rns with
  | [] => dflt
  | n :: rest => rest.foldl (fun acc m => pymax acc (lookupNodeD nodes m).height)
      (lookupNodeD nodes n).height

/-- `max((nodes[n].width for n in real_nodes), default=cfg.default_width)`. -/
def maxWidthPerRank (nodes : List (String × LayoutNode)) (rns : List String)
    (dflt : ℚ) : ℚ :=
  match realNodes nodes rns with
  | [] => dflt
  | n :: rest => rest.foldl (fun acc m => pymax acc (lookupNodeD nodes m).width)
      (lookupNodeD nodes n).width

/-- Insert one rank into a key-sorted rank list (ascending). -/
def insertSorted (p : ℤ × List String) : List (ℤ × List String) → List (ℤ × List String)
  | [] => [p]
  | q :: rest => if p.1 ≤ q.1 then p :: q :: rest else q :: insertSorted p rest

/-- `sorted(by_rank.items())`: stable sort by rank key, ascending. -/
def sortByKey : List (ℤ × List String) → List (ℤ × List String)
  | [] => []
  | p :: rest => insertSorted p (sortByKey rest)

/-- Insert one rank into a key-sorted rank list (descending). -/
def insertSortedDesc (p : ℤ × List String) :
    List (ℤ × List String) → List (ℤ × List String)
  | [] => [p]
  | q :: rest => if q.1 ≤ p.1 then p :: q :: rest else q :: insertSortedDesc p rest

/-- `sorted(by_rank.items(), reverse=True)`: stable sort by key, descending. -/
def sortByKeyDesc : List (ℤ × List String) → List (ℤ × List String)
  | [] => []
  | p :: rest => insertSortedDesc p (sortByKeyDesc rest)

/-- Python-dict lookup for the `rank_offsets` dict (integer keys). -/
def lookupLastZ (l : List (ℤ × ℚ)) (k : ℤ) : Option ℚ :=
  ((l.filter (fun e => e.1 == k)).getLast?).map (·.2)

/-- `rank_offsets[rank]` (every looked-up rank is a key by construction). -/
def offsetOf (ro : List (ℤ × ℚ)) (r : ℤ) : ℚ :=
  (lookupLastZ ro r).getD 0

/-- The `rank_offsets` accumulation for TB/BT: cumulative start-of-rank
baselines stepping by the rank's max height plus rank spacing. -/
def rankOffsetsH (nodes : List (String × LayoutNode)) (cfg : LayoutEngineConfig) :
    List (ℤ × List String) → ℚ → List (ℤ × ℚ)
  | [], _ => []
  | rk :: rest, cum =>
    (rk.1, cum) :: rankOffsetsH nodes cfg rest
      (qadd cum (qadd (maxHeightPerRank nodes rk.2 cfg.default_height) cfg.rank_spacing))

/-- The `rank_offsets` accumulation for LR/RL: stepping by max width. -/
def rankOffsetsW (nodes : List (String × LayoutNode)) (cfg : LayoutEngineConfig) :
    List (ℤ × List String) → ℚ → List (ℤ × ℚ)
  | [], _ => []
  | rk :: rest, cum =>
    (rk.1, cum) :: rankOffsetsW nodes cfg rest
      (qadd cum (qadd (maxWidthPerRank nodes rk.2 cfg.default_width) cfg.rank_spacing))

/-- The horizontal within-rank loop of `_assign_coordinates` (TB/BT): walk
the rank's labels, writing the cursor position and advancing the cursor
past real nodes only. -/
def innerTB (cfg : LayoutEngineConfig) :
    List String → List (String × LayoutNode) → ℚ → ℚ → List (String × LayoutNode)
  | [], nodes, _, _ => nodes
  | n :: rest, nodes, xcur, ry =>
    if (lookupNodeD nodes n).is_virtual = true then
      innerTB cfg rest (updateNodeXY nodes n xcur ry) xcur ry
    else
      innerTB cfg rest (updateNodeXY nodes n xcur ry)
        (qadd xcur (qadd (lookupNodeD nodes n).width cfg.node_spacing)) ry

/-- The vertical within-rank loop of `_assign_coordinates` (LR/RL). -/
def innerLR (cfg : LayoutEngineConfig) :
    List String → List (String × LayoutNode) → ℚ → ℚ → List (String × LayoutNode)
  | [], nodes, _, _ => nodes
  | n :: rest, nodes, ycur, rx =>
    if (lookupNodeD nodes n).is_virtual = true then
      innerLR cfg rest (updateNodeXY nodes n rx ycur) ycur rx
    else
      innerLR cfg rest (updateNodeXY nodes n rx ycur)
        (qadd ycur (qadd (lookupNodeD nodes n).height cfg.node_spacing)) rx

/-- The per-rank assignment loop of `_assign_coordinates` over the
ascending-sorted ranks. -/
def assignLoop (cfg : LayoutEngineConfig) (direction : String) (max_rank_width : ℚ)
    (rank_offsets : List (ℤ × ℚ)) :
    List (ℤ × List String) → List (String × LayoutNode) → List (String × LayoutNode)
  | [], nodes => nodes
  | rk :: rest, nodes =>
    if direction = "TB" ∨ direction = "BT" then
      assignLoop cfg direction max_rank_width rank_offsets rest
        (innerTB cfg rk.2 nodes
          (qadd cfg.start_x
            (qdiv (qsub max_rank_width (rankTotalW nodes rk.2 cfg.node_spacing)) 2))
          (offsetOf rank_offsets rk.1))
    else
      assignLoop cfg direction max_rank_width rank_offsets rest
        (innerLR cfg rk.2 nodes cfg.start_y (offsetOf rank_offsets rk.1))

/-- `_assign_coordinates` from `layout_engine.py`: rank baselines from the
cumulative offsets, within-rank cursors from `start_x`/`start_y` (the
TB/BT branch adds the centering offset; the LR/RL branch does not). -/
def assign_coordinates (by_rank : List (ℤ × List String))
    (nodes : List (String × LayoutNode)) (cfg : LayoutEngineConfig)
    (direction : String) : List (String × LayoutNode) :=
  assignLoop cfg direction (maxRankWidth by_rank nodes cfg.node_spacing)
    (if direction = "TB" ∨ direction = "BT" then
      rankOffsetsH nodes cfg
        (if direction = "TB" then sortByKey by_rank else sortByKeyDesc by_rank)
        cfg.start_y
    else
      rankOffsetsW nodes cfg
        (if direction = "LR" then sortByKey by_rank else sortByKeyDesc by_rank)
        cfg.start_x)
    (sortByKey by_rank) nodes

/-- The claim as stated: in every direction each rank's real nodes sit
consecutively along the cross axis separated by the node spacing, and each
rank is centered against the widest rank — its first real node offset from
the cross-axis start by half the difference of total extents. -/
def C8Statement : Prop :=
  ∀ (by_rank : List (ℤ × List String)) (nodes : List (String × LayoutNode))
    (cfg : LayoutEngineConfig) (direction : String) (r : ℤ) (rns : List String),
    (direction = "TB" ∨ direction = "BT" ∨ direction = "LR" ∨ direction = "RL") →
    ((by_rank.map (·.2)).flatten).Nodup →
    (∀ n ∈ rns, n ∈ nodes.map (·.1)) →
    (r, rns) ∈ by_rank →
    (∀ i, i + 1 < (realNodes nodes rns).length →
      (if direction = "TB" ∨ direction = "BT" then
        (lookupNodeD (assign_coordinates by_rank nodes cfg direction)
            ((realNodes nodes rns).getD (i + 1) "")).x =
          (lookupNodeD (assign_coordinates by_rank nodes cfg direction)
              ((realNodes nodes rns).getD i "")).x +
            (lookupNodeD nodes ((realNodes nodes rns).getD i "")).width +
            cfg.node_spacing
      else
        (lookupNodeD (assign_coordinates by_rank nodes cfg direction)
            ((realNodes nodes rns).getD (i + 1) "")).y =
          (lookupNodeD (assign_coordinates by_rank nodes cfg direction)
              ((realNodes nodes rns).getD i "")).y +
            (lookupNodeD nodes ((realNodes nodes rns).getD i "")).height +
            cfg.node_spacing)) ∧
    (realNodes nodes rns ≠ [] →
      (if direction = "TB" ∨ direction = "BT" then
        (lookupNodeD (assign_coordinates by_rank nodes cfg direction)
            ((realNodes nodes rns).getD 0 "")).x =
          cfg.start_x + (maxRankWidth by_rank nodes cfg.node_spacing -
            rankTotalW nodes rns cfg.node_spacing) / 2
      else
        (lookupNodeD (assign_coordinates by_rank nodes cfg direction)
            ((realNodes nodes rns).getD 0 "")).y =
          cfg.start_y + (maxRankTotalH by_rank nodes cfg.node_spacing -
            rankTotalH nodes rns cfg.node_spacing) / 2))

/-- Counterexample fixture for C8: one node in rank 0, two in rank 1. -/
def c8Nodes : List (String × LayoutNode) :=
  [("A", { id := "A", label := "A", width := 120, height := 60 }),
   ("B", { id := "B", label := "B", width := 120, height := 60 }),
   ("C", { id := "C", label := "C", width := 120, height := 60 })]

/-- Counterexample rank structure for C8. -/
def c8ByRank : List (ℤ × List String) := [(0, ["A"]), (1, ["B", "C"])]

/-- Recursive characterization of `lookupLast` (for the proofs below). -/
def lookupLastRec {α : Type} : List (String × α) → String → Option α
  | [], _ => none
  | e :: l, k =>
    match lookupLastRec l k with
    | some v => some v
    | none => if e.1 = k then some e.2 else none

/-- Two node dicts agreeing on every label's width, height and virtual
flag (the fields `_assign_coordinates` never writes). -/
def sameWVH (nodes' nodes : List (String × LayoutNode)) : Prop :=
  ∀ n, (lookupNodeD nodes' n).width = (lookupNodeD nodes n).width ∧
    (lookupNodeD nodes' n).height = (lookupNodeD nodes n).height ∧
    (lookupNodeD nodes' n).is_virtual = (lookupNodeD nodes n).is_virtual

/-- Whether the id belongs to a margin-padded intersecting pair in the
pair scan that `resolve_overlaps` runs on this cell list: some pair
`(ids[p], ids[q])` with `p < q` has the id as one component and passes the
(stale-bounds) intersection test. -/
def inIntersectingPair (margin : ℚ) (cells : List MxCell) (cid : String) : Bool :=
  (List.range ((get_all_vertex_bounds cells).map (·.1)).length).any (fun q =>
    (List.range q).any (fun p =>
      (decide (((get_all_vertex_bounds cells).map (·.1)).getD p "" = cid) ||
        decide (((get_all_vertex_bounds cells).map (·.1)).getD q "" = cid)) &&
        (boundsOf (get_all_vertex_bounds cells)
            (((get_all_vertex_bounds cells).map (·.1)).getD p "")).intersects
          (boundsOf (get_all_vertex_bounds cells)
            (((get_all_vertex_bounds cells).map (·.1)).getD q "")) margin))

/-! ### The obstacle-aware router (`_route_orthogonal_astar` and helpers) -/

/-- The body of the Liang–Barsky clipping loop of `_line_intersects_rect`:
walk the four (p, q) edge pairs narrowing the parameter window; `none`
models the loop's early `return False`. -/
def lbFold : List (ℚ × ℚ) → ℚ → ℚ → Option (ℚ × ℚ)
  | [], t0, t1 => some (t0, t1)
  | e :: rest, t0, t1 =>
    if pyabs e.1 < Rat.divInt 1 1000000000 then
      if e.2 < 0 then none else lbFold rest t0 t1
    else
      if e.1 < 0 then lbFold rest (pymax t0 (qdiv e.2 e.1)) t1
      else lbFold rest t0 (pymin t1 (qdiv e.2 e.1))

/-- `_line_intersects_rect` from `layout_engine.py`: Liang–Barsky
parametric clipping test. -/
def line_intersects_rect (x1 y1 x2 y2 : ℚ) (rect : CellBounds) : Bool :=
  match lbFold [(-(qsub x2 x1), qsub x1 rect.x), (qsub x2 x1, qsub rect.right x1),
      (-(qsub y2 y1), qsub y1 rect.y), (qsub y2 y1, qsub rect.bottom y1)] 0 1 with
  | none => false
  | some t => decide (t.1 ≤ t.2)

/-- `_seg_hits_rect` from `layout_engine.py`: orthogonal segments use
interval tests (0.5 tolerance); anything else falls back to Liang–Barsky. -/
def seg_hits_rect (x1 y1 x2 y2 : ℚ) (rect : CellBounds) : Bool :=
  if pyabs (qsub x1 x2) < Rat.divInt 1 2 then
    decide (rect.x ≤ x1 ∧ x1 ≤ rect.right ∧
      rect.y ≤ pymax y1 y2 ∧ pymin y1 y2 ≤ rect.bottom)
  else if pyabs (qsub y1 y2) < Rat.divInt 1 2 then
    decide (rect.y ≤ y1 ∧ y1 ≤ rect.bottom ∧
      rect.x ≤ pymax x1 x2 ∧ pymin x1 x2 ≤ rect.right)
  else line_intersects_rect x1 y1 x2 y2 rect

/-- An obstacle box expanded by the full margin on every side (the box
`_any_obstacle_on_segment` tests). -/
def expandFull (obs : CellBounds) (margin : ℚ) : CellBounds :=
  CellBounds.mk (qsub obs.x margin) (qsub obs.y margin)
    (qadd obs.width (qmul 2 margin)) (qadd obs.height (qmul 2 margin))

/-- `_any_obstacle_on_segment` from `layout_engine.py`. -/
def any_obstacle_on_segment (x1 y1 x2 y2 : ℚ) (obstacles : List CellBounds)
    (margin : ℚ) : Bool :=
  obstacles.any (fun obs => line_intersects_rect x1 y1 x2 y2 (expandFull obs margin))

/-- An obstacle box expanded by half the margin on every side (the box the
router's `_segment_blocked` tests). -/
def expandHalf (obs : CellBounds) (margin : ℚ) : CellBounds :=
  CellBounds.mk (qsub obs.x (qdiv margin 2)) (qsub obs.y (qdiv margin 2))
    (qadd obs.width margin) (qadd obs.height margin)

/-- The router's `_blocked`: is the point strictly inside some obstacle
expanded by half the margin? -/
def routerBlocked (obstacles : List CellBounds) (margin : ℚ) (px py : ℚ) : Bool :=
  obstacles.any (fun obs =>
    decide (qsub obs.x (qdiv margin 2) < px ∧ px < qadd obs.right (qdiv margin 2) ∧
      qsub obs.y (qdiv margin 2) < py ∧ py < qadd obs.bottom (qdiv margin 2)))

/-- The router's `_segment_blocked`: does the segment pass through some
obstacle expanded by half the margin? -/
def segment_blocked (obstacles : List CellBounds) (margin : ℚ) (x1 y1 x2 y2 : ℚ) :
    Bool :=
  obstacles.any (fun obs => seg_hits_rect x1 y1 x2 y2 (expandHalf obs margin))

/-- Insert a value into a strictly sorted list, skipping duplicates. -/
def insertUnique (v : ℚ) : List ℚ → List ℚ
  | [] => [v]
  | a :: rest =>
    if v < a then v :: a :: rest
    else if v = a then a :: rest
    else a :: insertUnique v rest

/-- `sorted(set(values))`: the distinct values in increasing order. -/
def sortedDedup (l : List ℚ) : List ℚ :=
  l.foldl (fun acc v => insertUnique v acc) []

/-- The router's candidate x coordinates: source and target centers plus
the grid-snapped margin-expanded sides of every obstacle and of the two
endpoints, deduplicated and sorted. -/
def routerXs (src tgt : CellBounds) (obstacles : List CellBounds) (margin : ℚ)
    (grid : ℤ) : List ℚ :=
  sortedDedup ([src.cx, tgt.cx] ++
    obstacles.flatMap (fun o =>
      [snap_to_grid (qsub o.x margin) grid, snap_to_grid (qadd o.right margin) grid]) ++
    [snap_to_grid (qadd src.right margin) grid, snap_to_grid (qsub src.x margin) grid,
     snap_to_grid (qadd tgt.right margin) grid, snap_to_grid (qsub tgt.x margin) grid])

/-- The router's candidate y coordinates. -/
def routerYs (src tgt : CellBounds) (obstacles : List CellBounds) (margin : ℚ)
    (grid : ℤ) : List ℚ :=
  sortedDedup ([src.cy, tgt.cy] ++
    obstacles.flatMap (fun o =>
      [snap_to_grid (qsub o.y margin) grid, snap_to_grid (qadd o.bottom margin) grid]) ++
    [snap_to_grid (qadd src.bottom margin) grid, snap_to_grid (qsub src.y margin) grid,
     snap_to_grid (qadd tgt.bottom margin) grid, snap_to_grid (qsub tgt.y margin) grid])

/-- All grid-node index pairs in the scan order of `_closest_node` (x
outer, y inner, both ascending). -/
def allPairs (nx ny : Nat) : List (Nat × Nat) :=
  (List.range nx).flatMap (fun xi => (List.range ny).map (fun yi => (xi, yi)))

/-- The scan of `_closest_node`: keep the first unblocked node at strictly
smallest Manhattan distance. -/
def closestFold (xs ys : List ℚ) (obstacles : List CellBounds) (margin : ℚ)
    (px py : ℚ) : List (Nat × Nat) → Option ((Nat × Nat) × ℚ) → Option ((Nat × Nat) × ℚ)
  | [], acc => acc
  | pr :: rest, acc =>
    if routerBlocked obstacles margin (xs.getD pr.1 0) (ys.getD pr.2 0) = true then
      closestFold xs ys obstacles margin px py rest acc
    else
      match acc with
      | none =>
        closestFold xs ys obstacles margin px py rest
          (some (pr, qadd (pyabs (qsub (xs.getD pr.1 0) px))
            (pyabs (qsub (ys.getD pr.2 0) py))))
      | some best =>
        if qadd (pyabs (qsub (xs.getD pr.1 0) px))
            (pyabs (qsub (ys.getD pr.2 0) py)) < best.2 then
          closestFold xs ys obstacles margin px py rest
            (some (pr, qadd (pyabs (qsub (xs.getD pr.1 0) px))
              (pyabs (qsub (ys.getD pr.2 0) py))))
        else closestFold xs ys obstacles margin px py rest (some best)

/-- The router's `_closest_node` (`(0, 0)` when every node is blocked). -/
def closest_node (xs ys : List ℚ) (obstacles : List CellBounds) (margin : ℚ)
    (px py : ℚ) : Nat × Nat :=
  match closestFold xs ys obstacles margin px py (allPairs xs.length ys.length) none with
  | some best => best.1
  | none => (0, 0)

/-- First-match lookup on a prepend-on-write association list (the most
recent write of a Python dict entry). -/
def lookupFirstN {α : Type} : List ((Nat × Nat) × α) → (Nat × Nat) → Option α
  | [], _ => none
  | e :: l, k => if e.1 = k then some e.2 else lookupFirstN l k

/-- The heap order of `heapq` on `(f, (xi, yi))` tuples: lexicographic. -/
def heapLe (a b : ℚ × (Nat × Nat)) : Bool :=
  decide (a.1 < b.1) || (decide (a.1 = b.1) &&
    (decide (a.2.1 < b.2.1) || (decide (a.2.1 = b.2.1) && decide (a.2.2 ≤ b.2.2))))

/-- Ordered insert into the open list (`heapq.heappush`; the heap is
modelled as the sorted list of its entries, whose head is the pop). -/
def heapPush (e : ℚ × (Nat × Nat)) : List (ℚ × (Nat × Nat)) → List (ℚ × (Nat × Nat))
  | [] => [e]
  | a :: rest => if heapLe e a then e :: a :: rest else a :: heapPush e rest

/-- The relaxation step of one unblocked neighbor move. -/
def neighborRelax (xs ys : List ℚ) (goalx goaly : ℚ)
    (current : Nat × Nat) (d : ℤ × ℤ) (open_set : List (ℚ × (Nat × Nat)))
    (cf : List ((Nat × Nat) × Option (Nat × Nat))) (g : List ((Nat × Nat) × ℚ)) :
    List (ℚ × (Nat × Nat)) × List ((Nat × Nat) × Option (Nat × Nat)) ×
      List ((Nat × Nat) × ℚ) :=
  let nxv := xs.getD ((current.1 : ℤ) + d.1).toNat 0
  let nyv := ys.getD ((current.2 : ℤ) + d.2).toNat 0
  let dist0 := qadd (pyabs (qsub nxv (xs.getD current.1 0)))
    (pyabs (qsub nyv (ys.getD current.2 0)))
  let dist := match lookupFirstN cf current with
    | some (some parent) =>
      if ((current.1 : ℤ) - (parent.1 : ℤ), (current.2 : ℤ) - (parent.2 : ℤ)) = d then
        dist0
      else qadd dist0 5
    | _ => dist0
  let tent := qadd ((lookupFirstN g current).getD 0) dist
  let neighbor := (((current.1 : ℤ) + d.1).toNat, ((current.2 : ℤ) + d.2).toNat)
  let better := match lookupFirstN g neighbor with
    | none => true
    | some gn => decide (tent < gn)
  if better = true then
    (heapPush (qadd tent (qadd (pyabs (qsub nxv goalx)) (pyabs (qsub nyv goaly))),
       neighbor) open_set,
     (neighbor, some current) :: cf, (neighbor, tent) :: g)
  else (open_set, cf, g)

/-- One popped node's neighbor scan: for each of the four grid directions,
skip out-of-range or blocked moves, otherwise relax the neighbor (with the
bend penalty of 5 when the move turns) and push it. -/
def neighborFold (xs ys : List ℚ) (obstacles : List CellBounds) (margin : ℚ)
    (goalx goaly : ℚ) (current : Nat × Nat) :
    List (ℤ × ℤ) → List (ℚ × (Nat × Nat)) → List ((Nat × Nat) × Option (Nat × Nat)) →
    List ((Nat × Nat) × ℚ) →
    List (ℚ × (Nat × Nat)) × List ((Nat × Nat) × Option (Nat × Nat)) ×
      List ((Nat × Nat) × ℚ)
  | [], open_set, cf, g => (open_set, cf, g)
  | d :: rest, open_set, cf, g =>
    if (current.1 : ℤ) + d.1 < 0 ∨ (xs.length : ℤ) ≤ (current.1 : ℤ) + d.1 ∨
        (current.2 : ℤ) + d.2 < 0 ∨ (ys.length : ℤ) ≤ (current.2 : ℤ) + d.2 then
      neighborFold xs ys obstacles margin goalx goaly current rest open_set cf g
    else
      if segment_blocked obstacles margin (xs.getD current.1 0) (ys.getD current.2 0)
          (xs.getD ((current.1 : ℤ) + d.1).toNat 0)
          (ys.getD ((current.2 : ℤ) + d.2).toNat 0) = true then
        neighborFold xs ys obstacles margin goalx goaly current rest open_set cf g
      else
        match neighborRelax xs ys goalx goaly current d open_set cf g with
        | (open', cf', g') =>
          neighborFold xs ys obstacles margin goalx goaly current rest open' cf' g'

/-- The A* main loop: pop the smallest open entry, stop at the goal,
otherwise scan the four neighbors.  Fuel bounds the number of pops; the
returned flag is the source's `found`. -/
def astarLoop (xs ys : List ℚ) (obstacles : List CellBounds) (margin : ℚ)
    (goal : Nat × Nat) (goalx goaly : ℚ) :
    Nat → List (ℚ × (Nat × Nat)) → List ((Nat × Nat) × Option (Nat × Nat)) →
    List ((Nat × Nat) × ℚ) → Bool × List ((Nat × Nat) × Option (Nat × Nat))
  | 0, _, cf, _ => (false, cf)
  | fuel + 1, open_set, cf, g =>
    match open_set with
    | [] => (false, cf)
    | e :: rest =>
      if e.2 = goal then (true, cf)
      else
        match neighborFold xs ys obstacles margin goalx goaly e.2
          [(1, 0), (-1, 0), (0, 1), (0, -1)] rest cf g with
        | (open', cf', g') =>
          astarLoop xs ys obstacles margin goal goalx goaly fuel open' cf' g'

/-- Path reconstruction: walk the `came_from` parents from the goal.  The
fuel (always instantiated as one more than the map's size) covers every
walk on the acyclic parent maps the search builds, where each step visits
a new key. -/
def reconstructPath (xs ys : List ℚ) (cf : List ((Nat × Nat) × Option (Nat × Nat))) :
    Nat → Option (Nat × Nat) → List (ℚ × ℚ)
  | 0, _ => []
  | _, none => []
  | fuel + 1, some node =>
    (xs.getD node.1 0, ys.getD node.2 0) ::
      reconstructPath xs ys cf fuel
        (match lookupFirstN cf node with
          | some po => po
          | none => none)

/-- The bend test of `_simplify_path`: a point is kept when the incoming
and outgoing deltas are large on different axes. -/
def keepBend (prev c n : ℚ × ℚ) : Bool :=
  (decide (Rat.divInt 1 2 < pyabs (qsub c.1 prev.1)) &&
    decide (Rat.divInt 1 2 < pyabs (qsub n.2 c.2))) ||
  (decide (Rat.divInt 1 2 < pyabs (qsub c.2 prev.2)) &&
    decide (Rat.divInt 1 2 < pyabs (qsub n.1 c.1)))

/-- The kept interior points of `_simplify_path`'s scan. -/
def keptPoints : (ℚ × ℚ) → List (ℚ × ℚ) → List (ℚ × ℚ)
  | prev, c :: n :: rest =>
    if keepBend prev c n = true then c :: keptPoints c (n :: rest)
    else keptPoints c (n :: rest)
  | _, _ => []

/-- `_simplify_path` from `layout_engine.py`: drop collinear interior
points, then strip the first and last entries (the endpoint centers) —
what remains is exactly the kept bends. -/
def simplify_path (path : List (ℚ × ℚ)) : List (ℚ × ℚ) :=
  match path with
  | [] => []
  | p0 :: rest => if path.length ≤ 2 then [] else keptPoints p0 rest

/-- The `route_y` of `_fallback_route`. -/
def fallbackY (src tgt : CellBounds) (obstacles : List CellBounds) (margin : ℚ) : ℚ :=
  let route_above := match obstacles with
    | [] => src.cy
    | o :: rest => qsub (rest.foldl (fun acc ob => pymin acc ob.y) o.y) (qmul margin 2)
  let route_below := match obstacles with
    | [] => src.cy
    | o :: rest => qadd (rest.foldl (fun acc ob => pymax acc ob.bottom) o.bottom)
        (qmul margin 2)
  let mid_y := qdiv (qadd src.cy tgt.cy) 2
  if pyabs (qsub route_above mid_y) < pyabs (qsub route_below mid_y) then route_above
  else route_below

/-- `_fallback_route` from `layout_engine.py`: a wide horizontal detour
above or below all obstacles, whichever is nearer the midline. -/
def fallback_route (src tgt : CellBounds) (obstacles : List CellBounds)
    (margin : ℚ) (grid : ℤ) : List Pt :=
  [⟨snap_to_grid src.cx grid, snap_to_grid (fallbackY src tgt obstacles margin) grid⟩,
   ⟨snap_to_grid tgt.cx grid, snap_to_grid (fallbackY src tgt obstacles margin) grid⟩]

/-- The unsnapped route the router produces before the final grid snap:
the simplified reconstructed A* path, or the unsnapped fallback pair. -/
def routerUnsnapped (fuel : Nat) (src tgt : CellBounds) (obstacles : List CellBounds)
    (margin : ℚ) (grid : ℤ) : List (ℚ × ℚ) :=
  if any_obstacle_on_segment src.cx src.cy tgt.cx tgt.cy obstacles margin = false then []
  else
    if closest_node (routerXs src tgt obstacles margin grid)
        (routerYs src tgt obstacles margin grid) obstacles margin src.cx src.cy =
      closest_node (routerXs src tgt obstacles margin grid)
        (routerYs src tgt obstacles margin grid) obstacles margin tgt.cx tgt.cy then []
    else
      match astarLoop (routerXs src tgt obstacles margin grid)
        (routerYs src tgt obstacles margin grid) obstacles margin
        (closest_node (routerXs src tgt obstacles margin grid)
          (routerYs src tgt obstacles margin grid) obstacles margin tgt.cx tgt.cy)
        ((routerXs src tgt obstacles margin grid).getD
          (closest_node (routerXs src tgt obstacles margin grid)
            (routerYs src tgt obstacles margin grid) obstacles margin tgt.cx tgt.cy).1 0)
        ((routerYs src tgt obstacles margin grid).getD
          (closest_node (routerXs src tgt obstacles margin grid)
            (routerYs src tgt obstacles margin grid) obstacles margin tgt.cx tgt.cy).2 0)
        fuel
        [(0, closest_node (routerXs src tgt obstacles margin grid)
          (routerYs src tgt obstacles margin grid) obstacles margin src.cx src.cy)]
        [(closest_node (routerXs src tgt obstacles margin grid)
          (routerYs src tgt obstacles margin grid) obstacles margin src.cx src.cy, none)]
        [(closest_node (routerXs src tgt obstacles margin grid)
          (routerYs src tgt obstacles margin grid) obstacles margin src.cx src.cy, 0)] with
      | (true, cf) =>
        simplify_path ((reconstructPath (routerXs src tgt obstacles margin grid)
          (routerYs src tgt obstacles margin grid) cf (cf.length + 1)
          (some (closest_node (routerXs src tgt obstacles margin grid)
            (routerYs src tgt obstacles margin grid) obstacles margin
            tgt.cx tgt.cy))).reverse)
      | (false, _) =>
        [(src.cx, fallbackY src tgt obstacles margin),
         (tgt.cx, fallbackY src tgt obstacles margin)]

/-- Counterexample fixture for C2/C6: the source box. -/
def c2Src : CellBounds := CellBounds.mk (Rat.divInt 24 5) 0 120 60

/-- Counterexample fixture for C2/C6: the target box. -/
def c2Tgt : CellBounds := CellBounds.mk (Rat.divInt 26 5) 470 120 60

/-- Counterexample fixture for C2/C6: six obstacles between them. -/
def c2Obstacles : List CellBounds :=
  [CellBounds.mk 60 80 100 40, CellBounds.mk (Rat.divInt 145 2) 150 10 40,
   CellBounds.mk (-80) 200 135 60, CellBounds.mk 75 200 120 60,
   CellBounds.mk (Rat.divInt 75 2) 320 20 40, CellBounds.mk 60 400 2 40]

/-- `_route_orthogonal_astar` from `layout_engine.py`: the fast straight
exit, the start-equals-goal exit, then either the snapped simplified A*
path or the fallback route. -/
def route_orthogonal_astar (fuel : Nat) (src tgt : CellBounds)
    (obstacles : List CellBounds) (margin : ℚ) (grid_snap : ℤ) : List Pt :=
  if any_obstacle_on_segment src.cx src.cy tgt.cx tgt.cy obstacles margin = false then []
  else
    if closest_node (routerXs src tgt obstacles margin grid_snap)
        (routerYs src tgt obstacles margin grid_snap) obstacles margin src.cx src.cy =
      closest_node (routerXs src tgt obstacles margin grid_snap)
        (routerYs src tgt obstacles margin grid_snap) obstacles margin tgt.cx tgt.cy then []
    else
      match astarLoop (routerXs src tgt obstacles margin grid_snap)
        (routerYs src tgt obstacles margin grid_snap) obstacles margin
        (closest_node (routerXs src tgt obstacles margin grid_snap)
          (routerYs src tgt obstacles margin grid_snap) obstacles margin tgt.cx tgt.cy)
        ((routerXs src tgt obstacles margin grid_snap).getD
          (closest_node (routerXs src tgt obstacles margin grid_snap)
            (routerYs src tgt obstacles margin grid_snap) obstacles margin tgt.cx tgt.cy).1 0)
        ((routerYs src tgt obstacles margin grid_snap).getD
          (closest_node (routerXs src tgt obstacles margin grid_snap)
            (routerYs src tgt obstacles margin grid_snap) obstacles margin tgt.cx tgt.cy).2 0)
        fuel
        [(0, closest_node (routerXs src tgt obstacles margin grid_snap)
          (routerYs src tgt obstacles margin grid_snap) obstacles margin src.cx src.cy)]
        [(closest_node (routerXs src tgt obstacles margin grid_snap)
          (routerYs src tgt obstacles margin grid_snap) obstacles margin src.cx src.cy, none)]
        [(closest_node (routerXs src tgt obstacles margin grid_snap)
          (routerYs src tgt obstacles margin grid_snap) obstacles margin src.cx src.cy, 0)] with
      | (true, cf) =>
        (simplify_path ((reconstructPath (routerXs src tgt obstacles margin grid_snap)
          (routerYs src tgt obstacles margin grid_snap) cf (cf.length + 1)
          (some (closest_node (routerXs src tgt obstacles margin grid_snap)
            (routerYs src tgt obstacles margin grid_snap) obstacles margin
            tgt.cx tgt.cy))).reverse)).map
          (fun p => (⟨snap_to_grid p.1 grid_snap, snap_to_grid p.2 grid_snap⟩ : Pt))
      | (false, _) => fallback_route src tgt obstacles margin grid_snap

/-! ### Cycle removal and rank assignment (`_find_back_edges`,
`_assign_ranks_longest_path`) -/

/-- First-match lookup on a prepend-on-write association list with string
keys (the most recent write of a Python dict entry). -/
def lookupFirstS {α : Type} : List (String × α) → String → Option α
  | [], _ => none
  | e :: l, k => if e.1 = k then some e.2 else lookupFirstS l k

/-- Distinct strings in first-appearance order. -/
def dedupStr (l : List String) : List String :=
  l.foldl (fun acc v => if acc.contains v then acc else acc ++ [v]) []

/-- The node labels of an edge list (the Python `set` of endpoints,
enumerated canonically in first-appearance order). -/
def allLabels (edges : List (String × String)) : List String :=
  dedupStr (edges.flatMap (fun e => [e.1, e.2]))

/-- The adjacency lists built by appending each edge's target under its
source, in edge order. -/
def adjOf (edges : List (String × String)) (u : String) : List String :=
  (edges.filter (fun e => e.1 = u)).map (·.2)

/-- The inner `while stack` loop of `_find_back_edges`: colors are
`0`/`1`/`2` for white/gray/black, the stack holds `(node, next index)`
frames, and an edge into a gray node is recorded as a back-edge.  Gas
bounds the iteration count. -/
def dfsWhile (adj : String → List String) :
    Nat → List (String × Nat) → List (String × Nat) → List (String × String) →
    List (String × Nat) × List (String × String)
  | 0, color, _, back => (color, back)
  | _ + 1, color, [], back => (color, back)
  | gas + 1, color, (u, idx) :: stackRest, back =>
    if idx < (adj u).length then
      match lookupFirstS color ((adj u).getD idx "") with
      | none => dfsWhile adj gas color ((u, idx + 1) :: stackRest) back
      | some cv =>
        if cv = 1 then
          dfsWhile adj gas color ((u, idx + 1) :: stackRest)
            ((u, (adj u).getD idx "") :: back)
        else if cv = 0 then
          dfsWhile adj gas (((adj u).getD idx "", 1) :: color)
            (((adj u).getD idx "", 0) :: (u, idx + 1) :: stackRest) back
        else dfsWhile adj gas color ((u, idx + 1) :: stackRest) back
    else
      dfsWhile adj gas ((u, 2) :: color) stackRest back

/-- The outer `for start in all_nodes` loop of `_find_back_edges`. -/
def dfsOuter (adj : String → List String) (gas : Nat) :
    List String → List (String × Nat) → List (String × String) →
    List (String × Nat) × List (String × String)
  | [], color, back => (color, back)
  | s :: rest, color, back =>
    match lookupFirstS color s with
    | some 0 =>
      dfsOuter adj gas rest
        (dfsWhile adj gas ((s, 1) :: color) [(s, 0)] back).1
        (dfsWhile adj gas ((s, 1) :: color) [(s, 0)] back).2
    | _ => dfsOuter adj gas rest color back

/-- `_find_back_edges` from `layout_engine.py` (as the list of recorded
back-edges; only membership is consumed downstream). -/
def find_back_edges (edges : List (String × String)) (gas : Nat) :
    List (String × String) :=
  (dfsOuter (adjOf edges) gas (allLabels edges)
    ((allLabels edges).map (fun n => (n, 0))) []).2

/-- The distinct edge sources in adjacency-dict insertion order. -/
def srcKeys (edges : List (String × String)) : List String :=
  dedupStr (edges.map (·.1))

/-- The cycle-removal step: every edge instance is kept, back-edges are
reversed. -/
def effective_edges (edges : List (String × String))
    (back : List (String × String)) : List (String × String) :=
  (srcKeys edges).flatMap (fun s =>
    (adjOf edges s).map (fun t => if (s, t) ∈ back then (t, s) else (s, t)))

/-- Adjacency of the effective graph. -/
def effAdj (eff : List (String × String)) (u : String) : List String :=
  (eff.filter (fun e => e.1 = u)).map (·.2)

/-- Reverse adjacency of the effective graph. -/
def effRev (eff : List (String × String)) (u : String) : List String :=
  (eff.filter (fun e => e.2 = u)).map (·.1)

/-- The sources of `_assign_ranks_longest_path`: nodes with no incoming
effective edge. -/
def sourcesOf (edges : List (String × String)) (eff : List (String × String)) :
    List String :=
  (allLabels edges).filter (fun n => effRev eff n = [])

/-- The starting queue: the sources, or an arbitrary first node when every
node has an incoming edge. -/
def assign_ranks_start (edges : List (String × String))
    (eff : List (String × String)) : List String :=
  if sourcesOf edges eff = [] then [(allLabels edges).getD 0 ""]
  else sourcesOf edges eff

/-- The `for child in adj.get(node, [])` relaxation of one popped node
(`new_rank` re-reads the node's current rank on every child, as the
source does). -/
def relaxFold (adj : String → List String) (node : String) :
    List String → List String → List (String × Nat) →
    List String × List (String × Nat)
  | [], queue, ranks => (queue, ranks)
  | c :: cs, queue, ranks =>
    match lookupFirstS ranks c with
    | none =>
      relaxFold adj node cs (queue ++ [c])
        ((c, (lookupFirstS ranks node).getD 0 + 1) :: ranks)
    | some rc =>
      if rc < (lookupFirstS ranks node).getD 0 + 1 then
        relaxFold adj node cs (queue ++ [c])
          ((c, (lookupFirstS ranks node).getD 0 + 1) :: ranks)
      else relaxFold adj node cs queue ranks

/-- The BFS loop of `_assign_ranks_longest_path`; `none` models fuel
exhaustion (the source loops forever on rank-increasing cycles). -/
def bfsLoop (adj : String → List String) :
    Nat → List String → List (String × Nat) → Option (List (String × Nat))
  | _, [], ranks => some ranks
  | 0, _ :: _, _ => none
  | fuel + 1, node :: rest, ranks =>
    bfsLoop adj fuel (relaxFold adj node (adj node) rest ranks).1
      (relaxFold adj node (adj node) rest ranks).2

/-- The final `rank 0 for unranked nodes` fallback. -/
def rank_fill (edges : List (String × String)) (ranks : List (String × Nat)) :
    List (String × Nat) :=
  (allLabels edges).foldl
    (fun acc n => if lookupFirstS acc n = none then (n, 0) :: acc else acc) ranks

/-- The C3 claim as stated: for every edge list the effective graph is
acyclic (no chain of effective edges returns to its start), and whenever
the rank BFS terminates, ranks grow by at least one along every effective
edge. -/
def C3Statement : Prop :=
  ∀ (edges : List (String × String)) (gas fuel : Nat),
    (∀ l : List String, 1 < l.length →
      (∀ i, i + 1 < l.length →
        (l.getD i "", l.getD (i + 1) "") ∈
          effective_edges edges (find_back_edges edges gas)) →
      l.getD 0 "" ≠ l.getD (l.length - 1) "") ∧
    (∀ ranksB : List (String × Nat),
      bfsLoop (effAdj (effective_edges edges (find_back_edges edges gas))) fuel
        (assign_ranks_start edges (effective_edges edges (find_back_edges edges gas)))
        ((assign_ranks_start edges
          (effective_edges edges (find_back_edges edges gas))).map (fun s => (s, 0))) =
        some ranksB →
      ∀ e ∈ effective_edges edges (find_back_edges edges gas),
        (lookupFirstS (rank_fill edges ranksB) e.1).getD 0 + 1 ≤
          (lookupFirstS (rank_fill edges ranksB) e.2).getD 0)

/-- Invariant of the rank BFS: every ranked node is either still queued or
all its children are already ranked at least one above it. -/
def BfsInv (adj : String → List String) (queue : List String)
    (ranks : List (String × Nat)) : Prop :=
  ∀ u ru, lookupFirstS ranks u = some ru →
    u ∈ queue ∨ ∀ v ∈ adj u, ∃ rv, lookupFirstS ranks v = some rv ∧ ru + 1 ≤ rv

/-- Mid-relaxation invariant while the popped node's children are being
processed: the already-processed children of the popped node are ranked
above it, the rest are still pending in `cs`. -/
def MidInv (adj : String → List String) (node : String) (cs : List String)
    (queue : List String) (ranks : List (String × Nat)) : Prop :=
  ∀ u ru, lookupFirstS ranks u = some ru →
    u ∈ queue ∨
    (u = node ∧ ∀ v ∈ adj node, v ∈ cs ∨
      ∃ rv, lookupFirstS ranks v = some rv ∧ ru + 1 ≤ rv) ∨
    (u ≠ node ∧ ∀ v ∈ adj u, ∃ rv, lookupFirstS ranks v = some rv ∧ ru + 1 ≤ rv)

/-- Every queued node already has a rank (the source indexes `ranks[node]`
without a default when popping). -/
def QueueRanked (queue : List String) (ranks : List (String × Nat)) : Prop :=
  ∀ u ∈ queue, lookupFirstS ranks u ≠ none

/-- The edge list of the C3 witness. -/
def c3WEdges : List (String × String) := [("a", "b"), ("b", "c")]

/-- The rank dictionary the BFS computes on the witness edges. -/
def c3WRanks : List (String × Nat) := [("c", 2), ("b", 1), ("a", 0)]

/-! ### The diagram-level routing pass (`route_edges_around_obstacles`) -/

/-- Python truthiness of an optional string (`None` and `""` are falsy). -/
def strTruthy : Option String → Bool
  | none => false
  | some s => !(decide (s = ""))

/-- The edge-cell filter of the routing and optimization passes:
`c.edge and c.source and c.target`. -/
def isEdgeCell (c : MxCell) : Bool :=
  c.edge && strTruthy c.source && strTruthy c.target

/-- `bounds.get(key)` for the optional source/target ids. -/
def getBound (bounds : List (String × CellBounds)) : Option String → Option CellBounds
  | none => none
  | some s => lookupLast bounds s

/-- A cell's waypoint list (empty when it has no geometry). -/
def ptsOf (cell : MxCell) : List Pt :=
  match cell.geometry with
  | some g => g.points
  | none => []

/-- Replace a cell's waypoint list (the in-place `pts[...]` mutations). -/
def setPts (cell : MxCell) (pts : List Pt) : MxCell :=
  { cell with geometry := match cell.geometry with
      | some g => some { g with points := pts }
      | none => none }

/-- The obstacle list of the routing and optimization passes: every bound
whose id is neither the edge's source nor target. -/
def routeObstacles (bounds : List (String × CellBounds)) (cell : MxCell) :
    List CellBounds :=
  (bounds.filter (fun pr => ¬(pr.1 = (cell.source).getD "") ∧
    ¬(pr.1 = (cell.target).getD ""))).map (·.2)

/-- The per-cell body of `route_edges_around_obstacles`: skip non-edges,
falsy endpoints, and missing bounds; otherwise write the A* route into the
geometry (created `relative` when absent) and count the edge. -/
def routeCell (bounds : List (String × CellBounds)) (margin : ℚ) (grid : ℤ)
    (fuel : Nat) (cell : MxCell) : MxCell × Nat :=
  if isEdgeCell cell = false then (cell, 0)
  else
    match getBound bounds cell.source, getBound bounds cell.target with
    | some sb, some tb =>
      let wps := route_orthogonal_astar fuel sb tb (routeObstacles bounds cell)
        margin grid
      ({ cell with geometry := some (match cell.geometry with
          | some g => { g with points := wps }
          | none => { relative := true, points := wps }) }, 1)
    | _, _ => (cell, 0)

/-- The cell loop of `route_edges_around_obstacles`. -/
def routeFold (bounds : List (String × CellBounds)) (margin : ℚ) (grid : ℤ)
    (fuel : Nat) : List MxCell → List MxCell × Nat
  | [] => ([], 0)
  | c :: rest =>
    match routeCell bounds margin grid fuel c, routeFold bounds margin grid fuel rest with
    | (c2, m), (rest2, mr) => (c2 :: rest2, m + mr)

/-- `route_edges_around_obstacles` from `layout_engine.py`. -/
def route_edges_around_obstacles (d : Diagram) (margin : ℚ) (fuel : Nat) :
    Diagram × Nat :=
  if get_all_vertex_bounds d.cells = [] then (d, 0)
  else
    match routeFold (get_all_vertex_bounds d.cells) margin d.grid_size fuel d.cells with
    | (cells2, n) => ({ d with cells := cells2 }, n)

/-! ### The edge-path optimizer (`optimize_edge_paths` and helpers) -/

/-- The middle-point scan of `_opt_remove_collinear` (prev from the
original path, as the source indexes `path[i-1]`). -/
def orcAux : (ℚ × ℚ) → List (ℚ × ℚ) → List (ℚ × ℚ)
  | p, c :: n :: rest =>
    (if (pyabs (qsub p.1 c.1) < 1 ∧ pyabs (qsub c.1 n.1) < 1) ∨
        (pyabs (qsub p.2 c.2) < 1 ∧ pyabs (qsub c.2 n.2) < 1) then []
     else [c]) ++ orcAux c (n :: rest)
  | _, _ => []

/-- `_opt_remove_collinear` from `layout_engine.py`. -/
def opt_remove_collinear (path : List (ℚ × ℚ)) : List (ℚ × ℚ) :=
  if path.length ≤ 2 then path
  else
    match path with
    | [] => path
    | p0 :: rest => p0 :: (orcAux p0 rest ++ [path.getLastD (0, 0)])

/-- The scan of `_opt_straighten` (prev is the already-straightened
`result[-1]`). -/
def ostAux (threshold : ℚ) : (ℚ × ℚ) → List (ℚ × ℚ) → List (ℚ × ℚ)
  | _, [] => []
  | prev, c :: rest =>
    let c2 := if pyabs (qsub c.1 prev.1) < threshold ∧
        threshold ≤ pyabs (qsub c.2 prev.2) then (prev.1, c.2)
      else if pyabs (qsub c.2 prev.2) < threshold ∧
        threshold ≤ pyabs (qsub c.1 prev.1) then (c.1, prev.2)
      else c
    c2 :: ostAux threshold c2 rest

/-- `_opt_straighten` from `layout_engine.py`. -/
def opt_straighten (path : List (ℚ × ℚ)) (threshold : ℚ) : List (ℚ × ℚ) :=
  if path.length ≤ 1 then path
  else
    match path with
    | [] => path
    | p0 :: rest => p0 :: ostAux threshold p0 rest

/-- One inner sweep of `_opt_shorten`: drop the current point when the
segment joining its neighbors is clear. -/
def oshPass (obstacles : List CellBounds) (margin : ℚ) :
    (ℚ × ℚ) → List (ℚ × ℚ) → List (ℚ × ℚ)
  | prev, c :: n :: rest =>
    if any_obstacle_on_segment prev.1 prev.2 n.1 n.2 obstacles margin = false then
      oshPass obstacles margin prev (n :: rest)
    else c :: oshPass obstacles margin c (n :: rest)
  | _, l => l

/-- The `while changed` loop of `_opt_shorten` (each changing sweep
strictly shortens the path, so `path.length` sweeps always suffice). -/
def oshLoop (obstacles : List CellBounds) (margin : ℚ) :
    Nat → List (ℚ × ℚ) → List (ℚ × ℚ)
  | 0, path => path
  | fuel + 1, path =>
    match path with
    | [] => path
    | p0 :: rest =>
      if p0 :: oshPass obstacles margin p0 rest = path then path
      else oshLoop obstacles margin fuel (p0 :: oshPass obstacles margin p0 rest)

/-- `_opt_shorten` from `layout_engine.py`. -/
def opt_shorten (path : List (ℚ × ℚ)) (obstacles : List CellBounds) (margin : ℚ) :
    List (ℚ × ℚ) :=
  if path.length ≤ 3 then path else oshLoop obstacles margin path.length path

/-- The obstacle fold of `_opt_center_channels` for a vertical segment:
narrow the (left, right) channel bounds. -/
def occBoundsV (margin seg_x seg_min_y seg_max_y : ℚ) :
    List CellBounds → ℚ × ℚ → ℚ × ℚ
  | [], lr => lr
  | obs :: rest, lr =>
    occBoundsV margin seg_x seg_min_y seg_max_y rest
      (if qadd obs.bottom margin < seg_min_y ∨ seg_max_y < qsub obs.y margin then lr
       else if qadd obs.right margin ≤ seg_x then
         (pymax lr.1 (qadd obs.right margin), lr.2)
       else if seg_x ≤ qsub obs.x margin then
         (lr.1, pymin lr.2 (qsub obs.x margin))
       else lr)

/-- The obstacle fold for a horizontal segment: narrow (top, bottom). -/
def occBoundsH (margin seg_y seg_min_x seg_max_x : ℚ) :
    List CellBounds → ℚ × ℚ → ℚ × ℚ
  | [], tb => tb
  | obs :: rest, tb =>
    occBoundsH margin seg_y seg_min_x seg_max_x rest
      (if qadd obs.right margin < seg_min_x ∨ seg_max_x < qsub obs.x margin then tb
       else if qadd obs.bottom margin ≤ seg_y then
         (pymax tb.1 (qadd obs.bottom margin), tb.2)
       else if seg_y ≤ qsub obs.y margin then
         (tb.1, pymin tb.2 (qsub obs.y margin))
       else tb)

/-- The sentinel `1e9` of `_opt_center_channels`. -/
def occBig : ℚ := 1000000000

/-- One index step of `_opt_center_channels` (the segment `i`, `i + 1` of
the mutated result list). -/
def occStep (obstacles : List CellBounds) (margin : ℚ) (res : List (ℚ × ℚ))
    (i : Nat) : List (ℚ × ℚ) :=
  let a := res.getD i (0, 0)
  let b := res.getD (i + 1) (0, 0)
  if pyabs (qsub a.1 b.1) < 1 then
    let lr := occBoundsV margin a.1 (pymin a.2 b.2) (pymax a.2 b.2) obstacles
      (-occBig, occBig)
    if -occBig < lr.1 ∧ lr.2 < occBig then
      if qmul margin 2 ≤ qsub lr.2 lr.1 ∧
          pyabs (qsub (qdiv (qadd lr.1 lr.2) 2) a.1) <
            qmul (qsub lr.2 lr.1) (Rat.divInt 2 5) then
        (res.set i (qdiv (qadd lr.1 lr.2) 2, a.2)).set (i + 1)
          (qdiv (qadd lr.1 lr.2) 2, b.2)
      else res
    else res
  else if pyabs (qsub a.2 b.2) < 1 then
    let tb := occBoundsH margin a.2 (pymin a.1 b.1) (pymax a.1 b.1) obstacles
      (-occBig, occBig)
    if -occBig < tb.1 ∧ tb.2 < occBig then
      if qmul margin 2 ≤ qsub tb.2 tb.1 ∧
          pyabs (qsub (qdiv (qadd tb.1 tb.2) 2) a.2) <
            qmul (qsub tb.2 tb.1) (Rat.divInt 2 5) then
        (res.set i (a.1, qdiv (qadd tb.1 tb.2) 2)).set (i + 1)
          (b.1, qdiv (qadd tb.1 tb.2) 2)
      else res
    else res
  else res

/-- The `for i in range(len(result) - 1)` loop of `_opt_center_channels`. -/
def occLoop (obstacles : List CellBounds) (margin : ℚ) :
    Nat → Nat → List (ℚ × ℚ) → List (ℚ × ℚ)
  | 0, _, res => res
  | k + 1, i, res => occLoop obstacles margin k (i + 1) (occStep obstacles margin res i)

/-- `_opt_center_channels` from `layout_engine.py` (`0.4` modelled exactly
as `2/5`, `1e9` as `10^9`). -/
def opt_center_channels (path : List (ℚ × ℚ)) (obstacles : List CellBounds)
    (margin : ℚ) : List (ℚ × ℚ) :=
  if path.length < 2 then path
  else occLoop obstacles margin (path.length - 1) 0 path

/-- The phase 1–4 body of `optimize_edge_paths` for one edge cell. -/
def optCellPass (bounds : List (String × CellBounds)) (margin threshold : ℚ)
    (grid : ℤ) (cell : MxCell) : MxCell × Nat :=
  match getBound bounds cell.source, getBound bounds cell.target with
  | some sb, some tb =>
    if ptsOf cell = [] then (cell, 0)
    else
      match ((opt_center_channels
          (opt_shorten
            (opt_straighten
              (opt_remove_collinear
                ((sb.cx, sb.cy) :: ((ptsOf cell).map (fun p => (p.x, p.y)) ++
                  [(tb.cx, tb.cy)])))
              threshold)
            ((bounds.filter (fun pr => ¬(pr.1 = (cell.source).getD "") ∧
              ¬(pr.1 = (cell.target).getD ""))).map (·.2)) margin)
          ((bounds.filter (fun pr => ¬(pr.1 = (cell.source).getD "") ∧
            ¬(pr.1 = (cell.target).getD ""))).map (·.2)) margin).drop 1).dropLast.map
        (fun q => (snap_to_grid q.1 grid, snap_to_grid q.2 grid)) with
      | nw =>
        if nw = (ptsOf cell).map (fun p => (p.x, p.y)) then (cell, 0)
        else (setPts cell (nw.map (fun q => ⟨q.1, q.2⟩)), 1)
  | _, _ => (cell, 0)

/-- The phase 1–4 loop over the edge cells. -/
def optPass14 (bounds : List (String × CellBounds)) (margin threshold : ℚ)
    (grid : ℤ) : List MxCell → List MxCell × Nat
  | [] => ([], 0)
  | c :: rest =>
    match optCellPass bounds margin threshold grid c,
        optPass14 bounds margin threshold grid rest with
    | (c2, m), (rest2, mr) => (c2 :: rest2, m + mr)

/-- The `_Segment` records of `_opt_separate_parallel_edges`. -/
structure OptSegment where
  edge_idx : Nat
  point_idx : Nat
  horiz : Bool
  fixed_coord : ℚ
  range_start : ℚ
  range_end : ℚ
deriving DecidableEq, Repr

/-- Segment extraction over one full path. -/
def segsOfPairs (ei : Nat) : Nat → List (ℚ × ℚ) → List OptSegment
  | si, a :: b :: rest =>
    (if pyabs (qsub a.2 b.2) < 1 then
       [⟨ei, si, true, a.2, pymin a.1 b.1, pymax a.1 b.1⟩]
     else if pyabs (qsub a.1 b.1) < 1 then
       [⟨ei, si, false, a.1, pymin a.2 b.2, pymax a.2 b.2⟩]
     else []) ++ segsOfPairs ei (si + 1) (b :: rest)
  | _, _ => []

/-- Segment extraction over all edge cells (skipping empty waypoint lists
and missing bounds, as the source does). -/
def collectSegs (bounds : List (String × CellBounds)) : Nat → List MxCell →
    List OptSegment
  | _, [] => []
  | ei, cell :: rest =>
    (if ptsOf cell = [] then []
     else
       match getBound bounds cell.source, getBound bounds cell.target with
       | some sb, some tb =>
         segsOfPairs ei 0
           ((sb.cx, sb.cy) :: ((ptsOf cell).map (fun p => (p.x, p.y)) ++
             [(tb.cx, tb.cy)]))
       | _, _ => []) ++ collectSegs bounds (ei + 1) rest

/-- The pair test of the cluster scan: same orientation, different edges,
close fixed coordinates, overlapping ranges. -/
def segOverlapOK (s1 s2 : OptSegment) (spacing : ℚ) : Bool :=
  (decide (s1.horiz = s2.horiz)) && (!decide (s1.edge_idx = s2.edge_idx)) &&
  (!decide (qmul spacing 2 < pyabs (qsub s1.fixed_coord s2.fixed_coord))) &&
  (!(decide (s1.range_end < s2.range_start) || decide (s2.range_end < s1.range_start)))

/-- Placeholder segment for (in-range) index lookups. -/
def dfltSeg : OptSegment := ⟨0, 0, true, 0, 0, 0⟩

/-- The inner `for j in range(i + 1, ...)` cluster scan, returning the
extra cluster members and the updated processed set. -/
def clusterCollect (segments : List OptSegment) (si_seg : OptSegment)
    (spacing : ℚ) : Nat → Nat → List Nat → List Nat × List Nat
  | _, 0, processed => ([], processed)
  | j, k + 1, processed =>
    if processed.contains j then
      clusterCollect segments si_seg spacing (j + 1) k processed
    else if segOverlapOK si_seg (segments.getD j dfltSeg) spacing then
      ((j :: (clusterCollect segments si_seg spacing (j + 1) k (processed ++ [j])).1),
       (clusterCollect segments si_seg spacing (j + 1) k (processed ++ [j])).2)
    else clusterCollect segments si_seg spacing (j + 1) k processed

/-- The two flanking-waypoint writes of one cluster member. -/
def sepWrite (pts : List Pt) (seg : OptSegment) (nc : ℚ) : List Pt :=
  let pts1 := if 0 ≤ (seg.point_idx : ℤ) - 1 ∧
      (seg.point_idx : ℤ) - 1 < (pts.length : ℤ) then
    pts.set ((seg.point_idx : ℤ) - 1).toNat
      (if seg.horiz then ⟨(pts.getD ((seg.point_idx : ℤ) - 1).toNat ⟨0, 0⟩).x, nc⟩
       else ⟨nc, (pts.getD ((seg.point_idx : ℤ) - 1).toNat ⟨0, 0⟩).y⟩)
    else pts
  if (seg.point_idx : ℤ) < (pts.length : ℤ) then
    pts1.set seg.point_idx
      (if seg.horiz then ⟨(pts1.getD seg.point_idx ⟨0, 0⟩).x, nc⟩
       else ⟨nc, (pts1.getD seg.point_idx ⟨0, 0⟩).y⟩)
  else pts1

/-- The spread loop over one cluster: snap each member to its slot and
rewrite the two waypoints flanking the segment. -/
def sepSpread (spacing : ℚ) (grid : ℤ) (start_offset : ℚ) :
    Nat → List OptSegment → List MxCell → Nat → List MxCell × Nat
  | _, [], cells, modified => (cells, modified)
  | idx, seg :: rest, cells, modified =>
    if pyabs (qsub (snap_to_grid (qadd start_offset (qmul ((idx : ℤ) : ℚ) spacing)) grid)
        seg.fixed_coord) < 1 then
      sepSpread spacing grid start_offset (idx + 1) rest cells modified
    else
      match ptsOf (cells.getD seg.edge_idx dfltCell) with
      | [] => sepSpread spacing grid start_offset (idx + 1) rest cells modified
      | p0 :: prest =>
        sepSpread spacing grid start_offset (idx + 1) rest
          (cells.set seg.edge_idx (setPts (cells.getD seg.edge_idx dfltCell)
            (sepWrite (p0 :: prest) seg
              (snap_to_grid (qadd start_offset (qmul ((idx : ℤ) : ℚ) spacing)) grid))))
          (if (0 ≤ (seg.point_idx : ℤ) - 1 ∧
                (seg.point_idx : ℤ) - 1 < ((p0 :: prest).length : ℤ)) ∨
              (seg.point_idx : ℤ) < ((p0 :: prest).length : ℤ) then modified + 1
           else modified)

/-- The outer cluster loop of `_opt_separate_parallel_edges`. -/
def sepOuter (segments : List OptSegment) (spacing : ℚ) (grid : ℤ) :
    Nat → Nat → List Nat → List MxCell → Nat → List MxCell × Nat
  | 0, _, _, cells, modified => (cells, modified)
  | k + 1, i, processed, cells, modified =>
    if processed.contains i then
      sepOuter segments spacing grid k (i + 1) processed cells modified
    else
      let pr := clusterCollect segments (segments.getD i dfltSeg) spacing (i + 1)
        (segments.length - (i + 1)) processed
      if (i :: pr.1).length < 2 then
        sepOuter segments spacing grid k (i + 1) pr.2 cells modified
      else
        let sres := sepSpread spacing grid
          (qsub (qdiv (((i :: pr.1).map (fun k2 => segments.getD k2 dfltSeg)).foldl
              (fun acc s => qadd acc s.fixed_coord) 0)
            ((((i :: pr.1).length : ℤ) : ℚ)))
            (qdiv (qmul ((((i :: pr.1).length - 1 : Nat) : ℤ) : ℚ) spacing) 2))
          0 ((i :: pr.1).map (fun k2 => segments.getD k2 dfltSeg)) cells modified
        sepOuter segments spacing grid k (i + 1) (pr.2 ++ [i]) sres.1 sres.2

/-- `_opt_separate_parallel_edges` from `layout_engine.py`. -/
def opt_separate_parallel_edges (edge_cells : List MxCell)
    (bounds : List (String × CellBounds)) (spacing : ℚ) (grid : ℤ) :
    List MxCell × Nat :=
  if edge_cells.length < 2 then (edge_cells, 0)
  else
    sepOuter (collectSegs bounds 0 edge_cells) spacing grid
      (collectSegs bounds 0 edge_cells).length 0 [] edge_cells 0

/-- Splice the updated edge cells back over the original cell list (the
source mutates the shared cell objects in place). -/
def mergeEdges : List MxCell → List MxCell → List MxCell
  | [], _ => []
  | c :: rest, upd =>
    if isEdgeCell c then
      match upd with
      | u :: urest => u :: mergeEdges rest urest
      | [] => c :: mergeEdges rest []
    else c :: mergeEdges rest upd

/-- `optimize_edge_paths` from `layout_engine.py` (returns the optimized
diagram and the reported modified count). -/
def optimize_edge_paths (d : Diagram) (margin threshold spacing : ℚ) :
    Diagram × Nat :=
  if get_all_vertex_bounds d.cells = [] then (d, 0)
  else
    match optPass14 (get_all_vertex_bounds d.cells) margin threshold
        (if d.grid_size = 0 then 10 else d.grid_size) (d.cells.filter isEdgeCell) with
    | (ec2, m14) =>
      match opt_separate_parallel_edges ec2 (get_all_vertex_bounds d.cells) spacing
          (if d.grid_size = 0 then 10 else d.grid_size) with
      | (ec3, m5) => ({ d with cells := mergeEdges d.cells ec3 }, m14 + m5)

/-- Geometry x of a cell (0 when the geometry is absent), for stating
which coordinates a pass rewrote. -/
def geoX (c : MxCell) : ℚ :=
  match c.geometry with
  | some g => g.x
  | none => 0

/-- Geometry y of a cell (0 when the geometry is absent). -/
def geoY (c : MxCell) : ℚ :=
  match c.geometry with
  | some g => g.y
  | none => 0

/-- A pass step leaves every cell's position coordinate either untouched
or equal to a grid multiple. -/
def SnapRel (grid : ℤ) (cin cout : List MxCell) : Prop :=
  ∀ k : Nat,
    (geoX (cout.getD k dfltCell) = geoX (cin.getD k dfltCell) ∨
      IsGridMultiple (geoX (cout.getD k dfltCell)) grid) ∧
    (geoY (cout.getD k dfltCell) = geoY (cin.getD k dfltCell) ∨
      IsGridMultiple (geoY (cout.getD k dfltCell)) grid)

/-- The node-position writes of the layout driver (step 7) and of the
auto-improve pass: every persisted position is the snap of the node's
computed coordinates. -/
def persistedPositions (nodes : List (ℚ × ℚ)) (grid : ℤ) : List (ℚ × ℚ) :=
  nodes.map (fun p => (snap_to_grid p.1 grid, snap_to_grid p.2 grid))

/-- An index the separation phase may write: in range, nonempty waypoints
and both endpoint bounds present (the guards under which the phase
collected the cell's segments). -/
def ProcIdx (bounds : List (String × CellBounds)) (ec : List MxCell)
    (j : Nat) : Prop :=
  j < ec.length ∧ ¬ptsOf (ec.getD j dfltCell) = [] ∧
    ¬getBound bounds (ec.getD j dfltCell).source = none ∧
    ¬getBound bounds (ec.getD j dfltCell).target = none

/-- All waypoints of a cell are exact grid multiples. -/
def AllSnapped (c : MxCell) (grid : ℤ) : Prop :=
  ∀ p ∈ ptsOf c, IsGridMultiple p.x grid ∧ IsGridMultiple p.y grid

/-- Invariant of the separation phase relative to the phase 1–4 output
`ec`: lengths agree, writable cells have fully snapped waypoints, and
every other cell is untouched. -/
def SepInv (bounds : List (String × CellBounds)) (grid : ℤ)
    (ec cells : List MxCell) : Prop :=
  cells.length = ec.length ∧
  (∀ j, ProcIdx bounds ec j → AllSnapped (cells.getD j dfltCell) grid) ∧
  (∀ j, ¬ProcIdx bounds ec j → cells.getD j dfltCell = ec.getD j dfltCell)

/-- The C4 claim as stated: a second optimizer run is the identity and
reports zero modified edges, for every diagram. -/
def C4Statement : Prop :=
  ∀ (d : Diagram) (margin threshold spacing : ℚ),
    (optimize_edge_paths (optimize_edge_paths d margin threshold spacing).1
        margin threshold spacing).2 = 0 ∧
    (optimize_edge_paths (optimize_edge_paths d margin threshold spacing).1
        margin threshold spacing).1 =
      (optimize_edge_paths d margin threshold spacing).1

/-- Counterexample fixture for C4: three vertices and one edge whose
waypoints the optimizer rewrites on both the first and the second run. -/
def c4Diagram : Diagram :=
  { cells :=
      [{ id := "v0", vertex := true,
         geometry := some { x := 170, y := 150, width := 80, height := 40 } },
       { id := "v1", vertex := true,
         geometry := some { x := 330, y := 150, width := 60, height := 40 } },
       { id := "v2", vertex := true,
         geometry := some { x := 250, y := 120, width := 60, height := 40 } },
       { id := "e0", edge := true, source := some "v0", target := some "v1",
         geometry :=
           some { relative := true, points := [⟨-80, 160⟩, ⟨40, 130⟩, ⟨-50, 170⟩] } }] }

/-- Witness fixture for the amended C4 claim: one vertex and one edge
without waypoints. -/
def c4WDiagram : Diagram :=
  { cells :=
      [{ id := "v0", vertex := true,
         geometry := some { x := 40, y := 80, width := 120, height := 60 } },
       { id := "e0", edge := true, source := some "v0", target := some "v0" }] }

/-- Witness fixture for C9: two vertices, one edge whose target id has no
bounds ("zz"), and one fully-bound edge. -/
def c9Diagram : Diagram :=
  { cells :=
      [{ id := "v0", vertex := true,
         geometry := some { x := 40, y := 80, width := 120, height := 60 } },
       { id := "v1", vertex := true,
         geometry := some { x := 300, y := 80, width := 120, height := 60 } },
       { id := "e0", edge := true, source := some "v0", target := some "zz",
         geometry := some { relative := true, points := [⟨10, 20⟩] } },
       { id := "e1", edge := true, source := some "v0", target := some "v1" }] }

/-- A grid-node index pair within the candidate lists. -/
def NodeInBounds (xs ys : List ℚ) (n : Nat × Nat) : Prop :=
  n.1 < xs.length ∧ n.2 < ys.length

/-- Two grid nodes adjacent along one axis (indices differing by one). -/
def AdjacentIdx (n p : Nat × Nat) : Prop :=
  (n.1 = p.1 ∧ (n.2 = p.2 + 1 ∨ p.2 = n.2 + 1)) ∨
  (n.2 = p.2 ∧ (n.1 = p.1 + 1 ∨ p.1 = n.1 + 1))

/-- The coordinates of a grid node. -/
def valOf (xs ys : List ℚ) (n : Nat × Nat) : ℚ × ℚ :=
  (xs.getD n.1 0, ys.getD n.2 0)

/-- The invariant of the A* parent map: every parent edge joins two
in-bounds adjacent grid nodes by a segment that passed the
`_segment_blocked` check (parent first, as the search tested it). -/
def CfInvariant (xs ys : List ℚ) (obstacles : List CellBounds) (margin : ℚ)
    (cf : List ((Nat × Nat) × Option (Nat × Nat))) : Prop :=
  ∀ pr ∈ cf, ∀ p, pr.2 = some p →
    NodeInBounds xs ys pr.1 ∧ NodeInBounds xs ys p ∧ AdjacentIdx pr.1 p ∧
    segment_blocked obstacles margin (valOf xs ys p).1 (valOf xs ys p).2
      (valOf xs ys pr.1).1 (valOf xs ys pr.1).2 = false

/-- All nodes of the open list are in bounds. -/
def OpenInBounds (xs ys : List ℚ) (open_set : List (ℚ × (Nat × Nat))) : Prop :=
  ∀ e ∈ open_set, NodeInBounds xs ys e.2

/-- A horizontal run: consecutive points share their y exactly, move more
than half a unit in x, and each directed step passed the blocked check. -/
def HRun (obstacles : List CellBounds) (margin : ℚ) (l : List (ℚ × ℚ)) : Prop :=
  ∀ i, i + 1 < l.length →
    (l.getD i (0, 0)).2 = (l.getD (i + 1) (0, 0)).2 ∧
    Rat.divInt 1 2 < pyabs (qsub (l.getD (i + 1) (0, 0)).1 (l.getD i (0, 0)).1) ∧
    segment_blocked obstacles margin (l.getD i (0, 0)).1 (l.getD i (0, 0)).2
      (l.getD (i + 1) (0, 0)).1 (l.getD (i + 1) (0, 0)).2 = false

/-- A vertical run. -/
def VRun (obstacles : List CellBounds) (margin : ℚ) (l : List (ℚ × ℚ)) : Prop :=
  ∀ i, i + 1 < l.length →
    (l.getD i (0, 0)).1 = (l.getD (i + 1) (0, 0)).1 ∧
    Rat.divInt 1 2 < pyabs (qsub (l.getD (i + 1) (0, 0)).2 (l.getD i (0, 0)).2) ∧
    segment_blocked obstacles margin (l.getD i (0, 0)).1 (l.getD i (0, 0)).2
      (l.getD (i + 1) (0, 0)).1 (l.getD (i + 1) (0, 0)).2 = false

/-- Every step of the list is a directed orthogonal step: one coordinate
equal, the other moving by more than half a unit, and the step's segment
passed the blocked check. -/
def OrthoChain (obstacles : List CellBounds) (margin : ℚ) (l : List (ℚ × ℚ)) : Prop :=
  ∀ i, i + 1 < l.length →
    ((l.getD i (0, 0)).1 = (l.getD (i + 1) (0, 0)).1 ∧
      Rat.divInt 1 2 < pyabs (qsub (l.getD (i + 1) (0, 0)).2 (l.getD i (0, 0)).2) ∨
     (l.getD i (0, 0)).2 = (l.getD (i + 1) (0, 0)).2 ∧
      Rat.divInt 1 2 < pyabs (qsub (l.getD (i + 1) (0, 0)).1 (l.getD i (0, 0)).1)) ∧
    segment_blocked obstacles margin (l.getD i (0, 0)).1 (l.getD i (0, 0)).2
      (l.getD (i + 1) (0, 0)).1 (l.getD (i + 1) (0, 0)).2 = false

/-- Consecutive candidate coordinates separated by more than half a unit:
the slack the half-unit tolerance tests of `_seg_hits_rect` and
`_simplify_path` implicitly rely on. -/
def SepGaps (l : List ℚ) : Prop :=
  ∀ i, i < l.length - 1 → qadd (l.getD i 0) (Rat.divInt 1 2) < l.getD (i + 1) 0

instance sepGapsDecidable (l : List ℚ) : Decidable (SepGaps l) :=
  inferInstanceAs (Decidable (∀ i, i < l.length - 1 →
    qadd (l.getD i 0) (Rat.divInt 1 2) < l.getD (i + 1) 0))

/-- Witness fixture for the amended router claims: the source box. -/
def wSrc : CellBounds := CellBounds.mk 0 0 60 40

/-- Witness fixture for the amended router claims: the target box. -/
def wTgt : CellBounds := CellBounds.mk 300 0 60 40

/-- Witness fixture for the amended router claims: one obstacle between
the two boxes. -/
def wObs : List CellBounds := [CellBounds.mk 120 (-20) 60 80]

/-- The C6 claim as stated: consecutive returned waypoints always share an
axis, for every router input. -/
def C6Statement : Prop :=
  ∀ (fuel : Nat) (src tgt : CellBounds) (obstacles : List CellBounds)
    (margin : ℚ) (grid : ℤ) (i : Nat),
    i + 1 < (route_orthogonal_astar fuel src tgt obstacles margin grid).length →
    ((route_orthogonal_astar fuel src tgt obstacles margin grid).getD (i + 1) ⟨0, 0⟩).x =
      ((route_orthogonal_astar fuel src tgt obstacles margin grid).getD i ⟨0, 0⟩).x ∨
    ((route_orthogonal_astar fuel src tgt obstacles margin grid).getD (i + 1) ⟨0, 0⟩).y =
      ((route_orthogonal_astar fuel src tgt obstacles margin grid).getD i ⟨0, 0⟩).y

/-- The C2 claim as stated: no segment between consecutive returned
waypoints crosses any obstacle's full-margin-expanded box (in the
codebase's own Liang–Barsky sense), for every router input. -/
def C2Statement : Prop :=
  ∀ (fuel : Nat) (src tgt : CellBounds) (obstacles : List CellBounds)
    (margin : ℚ) (grid : ℤ) (i : Nat),
    i + 1 < (route_orthogonal_astar fuel src tgt obstacles margin grid).length →
    any_obstacle_on_segment
      ((route_orthogonal_astar fuel src tgt obstacles margin grid).getD i ⟨0, 0⟩).x
      ((route_orthogonal_astar fuel src tgt obstacles margin grid).getD i ⟨0, 0⟩).y
      ((route_orthogonal_astar fuel src tgt obstacles margin grid).getD (i + 1) ⟨0, 0⟩).x
      ((route_orthogonal_astar fuel src tgt obstacles margin grid).getD (i + 1) ⟨0, 0⟩).y
      obstacles margin = false

end DrawioMcp


namespace DrawioMcp

/-! ### Bridge lemmas: the kernel-reducible arithmetic agrees with `ℚ` -/

theorem den_ne (a : ℚ) : ((a.den : ℚ)) ≠ 0 := (Nat.cast_ne_zero (R := ℚ)).mpr a.den_nz

theorem num_eq_mul_den (a : ℚ) : (a.num : ℚ) = a * a.den := by
  rw [eq_comm, ← eq_div_iff (den_ne a)]
  exact (Rat.num_div_den a).symm

@[simp] theorem qadd_eq (a b : ℚ) : qadd a b = a + b := by
  rw [qadd, Rat.divInt_eq_div]
  push_cast
  rw [div_eq_iff (mul_ne_zero (den_ne a) (den_ne b)), num_eq_mul_den a, num_eq_mul_den b]
  ring

@[simp] theorem qsub_eq (a b : ℚ) : qsub a b = a - b := by
  rw [qsub, Rat.divInt_eq_div]
  push_cast
  rw [div_eq_iff (mul_ne_zero (den_ne a) (den_ne b)), num_eq_mul_den a, num_eq_mul_den b]
  ring

@[simp] theorem qmul_eq (a b : ℚ) : qmul a b = a * b := by
  rw [qmul, Rat.divInt_eq_div]
  push_cast
  rw [div_eq_iff (mul_ne_zero (den_ne a) (den_ne b)), num_eq_mul_den a, num_eq_mul_den b]
  ring

@[simp] theorem qdiv_eq (a b : ℚ) : qdiv a b = a / b := by
  rcases eq_or_ne b 0 with rfl | hb0
  · simp [qdiv, Rat.divInt_eq_div]
  · have hbn : (b.num : ℚ) ≠ 0 := by
      simp only [ne_eq, Int.cast_eq_zero]
      exact fun h => hb0 (Rat.zero_iff_num_zero.mpr h)
    rw [qdiv, Rat.divInt_eq_div]
    push_cast
    have hda := den_ne a
    have hdb := den_ne b
    field_simp
    rw [num_eq_mul_den a, num_eq_mul_den b]
    ring

@[simp] theorem divInt_one_two_eq : Rat.divInt 1 2 = (1 / 2 : ℚ) := Rat.divInt_eq_div 1 2

/-! ### Lemmas about the overlap-removal scan -/

theorem overlapPairUpdate_eq_none_iff (padding : ℚ) (a b : LayoutNode) :
    overlapPairUpdate padding a b = none ↔
      ¬(0 < (compute_overlap a b padding).1 ∧ 0 < (compute_overlap a b padding).2) := by
  unfold overlapPairUpdate
  split
  · simp_all
  · simp_all

theorem scanInner_moved_true (padding : ℚ) (n i : Nat) :
    ∀ (gas j : Nat) (nodes : List LayoutNode),
      (scanInner padding n i gas j nodes true).2 = true := by
  intro gas
  induction gas with
  | zero => intro j nodes; rfl
  | succ gas ih =>
    intro j nodes
    unfold scanInner
    by_cases hj : j < n
    · simp only [hj, if_true]
      rcases hup : overlapPairUpdate padding (nodes.getD i dfltNode) (nodes.getD j dfltNode)
        with _ | p
      · exact ih (j + 1) nodes
      · exact ih (j + 1) _
    · simp [hj]

theorem scanInner_false (padding : ℚ) (n i : Nat) :
    ∀ (gas j : Nat) (nodes nodes' : List LayoutNode), n - j ≤ gas →
      scanInner padding n i gas j nodes false = (nodes', false) →
      nodes' = nodes ∧ ∀ k, j ≤ k → k < n →
        overlapPairUpdate padding (nodes.getD i dfltNode) (nodes.getD k dfltNode) = none := by
  intro gas
  induction gas with
  | zero =>
    intro j nodes nodes' hm h
    cases h
    exact ⟨rfl, fun k hk1 hk2 => absurd (by omega : ¬ k < n) (by omega)⟩
  | succ gas ih =>
    intro j nodes nodes' hm h
    by_cases hj : j < n
    · unfold scanInner at h
      simp only [hj, if_true] at h
      rcases hup : overlapPairUpdate padding (nodes.getD i dfltNode) (nodes.getD j dfltNode)
        with _ | p
      · rw [hup] at h
        obtain ⟨he, hall⟩ := ih (j + 1) nodes nodes' (by omega) h
        refine ⟨he, fun k hk1 hk2 => ?_⟩
        rcases Nat.eq_or_lt_of_le hk1 with rfl | hlt
        · exact hup
        · exact hall k hlt hk2
      · rw [hup] at h
        have htrue := scanInner_moved_true padding n i gas (j + 1)
          ((nodes.set i p.1).set j p.2)
        have h' : scanInner padding n i gas (j + 1) ((nodes.set i p.1).set j p.2) true =
            (nodes', false) := h
        rw [h'] at htrue
        simp at htrue
    · unfold scanInner at h
      simp only [hj, if_false] at h
      cases h
      exact ⟨rfl, fun k hk1 hk2 => absurd (by omega : j < n) hj⟩

theorem scanOuter_moved_true (padding : ℚ) (n : Nat) :
    ∀ (gas i : Nat) (nodes : List LayoutNode),
      (scanOuter padding n gas i nodes true).2 = true := by
  intro gas
  induction gas with
  | zero => intro i nodes; rfl
  | succ gas ih =>
    intro i nodes
    unfold scanOuter
    by_cases hi : i < n
    · simp only [hi, if_true]
      have h2 := scanInner_moved_true padding n i n (i + 1) nodes
      rcases hscan : scanInner padding n i n (i + 1) nodes true with ⟨ns, mv⟩
      rw [hscan] at h2
      simp only at h2
      subst h2
      simp only [hscan]
      exact ih (i + 1) ns
    · simp [hi]

theorem scanOuter_false (padding : ℚ) (n : Nat) :
    ∀ (gas i : Nat) (nodes nodes' : List LayoutNode), n - i ≤ gas →
      scanOuter padding n gas i nodes false = (nodes', false) →
      nodes' = nodes ∧ ∀ i' j', i ≤ i' → i' < j' → j' < n →
        overlapPairUpdate padding (nodes.getD i' dfltNode) (nodes.getD j' dfltNode) = none := by
  intro gas
  induction gas with
  | zero =>
    intro i nodes nodes' hm h
    cases h
    exact ⟨rfl, fun i' j' h1 h2 h3 => absurd (by omega : ¬ j' < n) (by omega)⟩
  | succ gas ih =>
    intro i nodes nodes' hm h
    by_cases hi : i < n
    · unfold scanOuter at h
      simp only [hi, if_true] at h
      rcases hscan : scanInner padding n i n (i + 1) nodes false with ⟨ns, mv⟩
      simp only [hscan] at h
      rcases mv with _ | _
      · obtain ⟨hns, hrow⟩ := scanInner_false padding n i n (i + 1) nodes ns (by omega) hscan
        obtain ⟨he, hrest⟩ := ih (i + 1) ns nodes' (by omega) h
        rw [hns] at hrest
        refine ⟨he.trans hns, fun i' j' h1 h2 h3 => ?_⟩
        rcases Nat.eq_or_lt_of_le h1 with rfl | hlt
        · exact hrow j' (by omega) h3
        · exact hrest i' j' hlt h2 h3
      · have htrue := scanOuter_moved_true padding n gas (i + 1) ns
        rw [h] at htrue
        simp at htrue
    · unfold scanOuter at h
      simp only [hi, if_false] at h
      cases h
      exact ⟨rfl, fun i' j' h1 h2 h3 => absurd (by omega : i < n) hi⟩

theorem removeOverlapsScan_false (padding : ℚ) (nodes nodes' : List LayoutNode)
    (h : removeOverlapsScan padding nodes = (nodes', false)) :
    nodes' = nodes ∧ NoOverlapPairs padding nodes := by
  obtain ⟨he, hall⟩ := scanOuter_false padding nodes.length nodes.length 0 nodes nodes'
    (by omega) h
  refine ⟨he, fun i j hij hj => ?_⟩
  have := hall i j (Nat.zero_le i) hij hj
  rw [overlapPairUpdate_eq_none_iff] at this
  exact this

theorem removeOverlapsIter_early (padding : ℚ) :
    ∀ (fuel : Nat) (nodes ns : List LayoutNode),
      removeOverlapsIter padding fuel nodes = (ns, true) →
      NoOverlapPairs padding ns := by
  intro fuel
  induction fuel with
  | zero => intro nodes ns h; simp [removeOverlapsIter] at h
  | succ k ih =>
    intro nodes ns h
    unfold removeOverlapsIter at h
    rcases hscan : removeOverlapsScan padding nodes with ⟨ns0, mv⟩
    rw [hscan] at h
    rcases mv with _ | _
    · simp only [Bool.false_eq_true, if_false, Prod.mk.injEq] at h
      obtain ⟨h1, -⟩ := h
      obtain ⟨heq, hno⟩ := removeOverlapsScan_false padding nodes ns0 hscan
      rw [← h1, heq]
      exact hno
    · simp only [if_true] at h
      exact ih ns0 ns h

/-! ### Lemmas about the `resolve_overlaps` pair scan -/

theorem resolvePairStep_ov (margin : ℚ) (grid : ℤ) (cells : List MxCell)
    (aId bId : String) (aB bB : CellBounds) :
    (resolvePairStep margin grid cells aId bId aB bB).2.1 = aB.intersects bB margin := by
  unfold resolvePairStep
  by_cases h : aB.intersects bB margin = false
  · simp [h]
  · have h' : aB.intersects bB margin = true := by
      cases hx : aB.intersects bB margin
      · exact absurd hx h
      · rfl
    rw [h']
    simp only [Bool.true_eq_false, if_false]
    split
    · split
      · split
        · split
          · split <;> rfl
          · split <;> rfl
        · rfl
      · rfl
    · rfl

theorem resolvePairStep_no_overlap (margin : ℚ) (grid : ℤ) (cells : List MxCell)
    (aId bId : String) (aB bB : CellBounds) (h : aB.intersects bB margin = false) :
    resolvePairStep margin grid cells aId bId aB bB = (cells, false, 0) := by
  unfold resolvePairStep
  simp [h]

theorem resolveInner_true (margin : ℚ) (grid : ℤ) (ids : List String)
    (bounds : List (String × CellBounds)) (i : Nat) :
    ∀ (gas j : Nat) (cells : List MxCell) (moved : Nat),
      (resolveInner margin grid ids bounds i gas j cells true moved).2.1 = true := by
  intro gas
  induction gas with
  | zero => intro j cells moved; rfl
  | succ gas ih =>
    intro j cells moved
    unfold resolveInner
    by_cases hj : j < ids.length
    · simp only [hj, if_true]
      rcases hstep : resolvePairStep margin grid cells (ids.getD i "") (ids.getD j "")
        (boundsOf bounds (ids.getD i "")) (boundsOf bounds (ids.getD j ""))
        with ⟨cells', ov, inc⟩
      simp only [hstep, Bool.true_or]
      exact ih (j + 1) cells' (moved + inc)
    · simp [hj]

theorem resolveInner_false (margin : ℚ) (grid : ℤ) (ids : List String)
    (bounds : List (String × CellBounds)) (i : Nat) :
    ∀ (gas j : Nat) (cells cells' : List MxCell) (moved moved' : Nat),
      ids.length - j ≤ gas →
      resolveInner margin grid ids bounds i gas j cells false moved =
        (cells', false, moved') →
      cells' = cells ∧ moved' = moved ∧ ∀ k, j ≤ k → k < ids.length →
        (boundsOf bounds (ids.getD i "")).intersects
          (boundsOf bounds (ids.getD k "")) margin = false := by
  intro gas
  induction gas with
  | zero =>
    intro j cells cells' moved moved' hm h
    cases h
    exact ⟨rfl, rfl, fun k hk1 hk2 => absurd (by omega : ¬ k < ids.length) (by omega)⟩
  | succ gas ih =>
    intro j cells cells' moved moved' hm h
    by_cases hj : j < ids.length
    · unfold resolveInner at h
      simp only [hj, if_true] at h
      rcases hstep : resolvePairStep margin grid cells (ids.getD i "") (ids.getD j "")
        (boundsOf bounds (ids.getD i "")) (boundsOf bounds (ids.getD j ""))
        with ⟨cellsn, ov, inc⟩
      simp only [hstep] at h
      have hov := resolvePairStep_ov margin grid cells (ids.getD i "") (ids.getD j "")
        (boundsOf bounds (ids.getD i "")) (boundsOf bounds (ids.getD j ""))
      rw [hstep] at hov
      simp only at hov
      rcases ov with _ | _
      · simp only [Bool.or_false] at h
        have hnone := resolvePairStep_no_overlap margin grid cells (ids.getD i "")
          (ids.getD j "") (boundsOf bounds (ids.getD i ""))
          (boundsOf bounds (ids.getD j "")) hov.symm
        rw [hstep] at hnone
        have hinc' : inc = 0 := by
          have := congrArg (fun p => p.2.2) hnone
          simpa using this
        have hc' : cellsn = cells := by
          have := congrArg (fun p => p.1) hnone
          simpa using this
        rw [hc', hinc', Nat.add_zero] at h
        obtain ⟨he, hmv, hall⟩ := ih (j + 1) cells cells' moved moved' (by omega) h
        refine ⟨he, by omega, fun k hk1 hk2 => ?_⟩
        rcases Nat.eq_or_lt_of_le hk1 with rfl | hlt
        · exact hov.symm
        · exact hall k hlt hk2
      · simp only [Bool.or_true] at h
        have htrue := resolveInner_true margin grid ids bounds i gas (j + 1) cellsn (moved + inc)
        rw [h] at htrue
        simp at htrue
    · unfold resolveInner at h
      simp only [hj, if_false] at h
      cases h
      exact ⟨rfl, rfl, fun k hk1 hk2 => absurd (by omega : j < ids.length) hj⟩

theorem resolveOuter_true (margin : ℚ) (grid : ℤ) (ids : List String)
    (bounds : List (String × CellBounds)) :
    ∀ (gas i : Nat) (cells : List MxCell) (moved : Nat),
      (resolveOuter margin grid ids bounds gas i cells true moved).2.1 = true := by
  intro gas
  induction gas with
  | zero => intro i cells moved; rfl
  | succ gas ih =>
    intro i cells moved
    unfold resolveOuter
    by_cases hi : i < ids.length
    · simp only [hi, if_true]
      have h2 := resolveInner_true margin grid ids bounds i ids.length (i + 1) cells moved
      rcases hscan : resolveInner margin grid ids bounds i ids.length (i + 1) cells true moved
        with ⟨ns, ov, mv⟩
      rw [hscan] at h2
      simp only at h2
      subst h2
      simp only [hscan]
      exact ih (i + 1) ns mv
    · simp [hi]

theorem resolveOuter_false (margin : ℚ) (grid : ℤ) (ids : List String)
    (bounds : List (String × CellBounds)) :
    ∀ (gas i : Nat) (cells cells' : List MxCell) (moved moved' : Nat),
      ids.length - i ≤ gas →
      resolveOuter margin grid ids bounds gas i cells false moved =
        (cells', false, moved') →
      cells' = cells ∧ moved' = moved ∧ ∀ i' j', i ≤ i' → i' < j' → j' < ids.length →
        (boundsOf bounds (ids.getD i' "")).intersects
          (boundsOf bounds (ids.getD j' "")) margin = false := by
  intro gas
  induction gas with
  | zero =>
    intro i cells cells' moved moved' hm h
    cases h
    exact ⟨rfl, rfl, fun i' j' h1 h2 h3 => absurd (by omega : ¬ j' < ids.length) (by omega)⟩
  | succ gas ih =>
    intro i cells cells' moved moved' hm h
    by_cases hi : i < ids.length
    · unfold resolveOuter at h
      simp only [hi, if_true] at h
      rcases hscan : resolveInner margin grid ids bounds i ids.length (i + 1) cells false moved
        with ⟨ns, ov, mv⟩
      simp only [hscan] at h
      rcases ov with _ | _
      · obtain ⟨hns, hmv, hrow⟩ := resolveInner_false margin grid ids bounds i ids.length
          (i + 1) cells ns moved mv (by omega) hscan
        obtain ⟨he, hmv', hrest⟩ := ih (i + 1) ns cells' mv moved' (by omega) h
        rw [hns] at he
        refine ⟨he, by omega, fun i' j' h1 h2 h3 => ?_⟩
        rcases Nat.eq_or_lt_of_le h1 with rfl | hlt
        · exact hrow j' (by omega) h3
        · exact hrest i' j' hlt h2 h3
      · have htrue := resolveOuter_true margin grid ids bounds gas (i + 1) ns mv
        rw [h] at htrue
        simp at htrue
    · unfold resolveOuter at h
      simp only [hi, if_false] at h
      cases h
      exact ⟨rfl, rfl, fun i' j' h1 h2 h3 => absurd (by omega : i < ids.length) hi⟩

theorem resolveScan_false (margin : ℚ) (grid : ℤ) (cells cells' : List MxCell)
    (moved moved' : Nat)
    (h : resolveScan margin grid cells moved = (cells', false, moved')) :
    cells' = cells ∧ NoIntersectingPairs margin cells := by
  unfold resolveScan at h
  obtain ⟨he, -, hall⟩ := resolveOuter_false margin grid
    ((get_all_vertex_bounds cells).map (·.1)) (get_all_vertex_bounds cells)
    ((get_all_vertex_bounds cells).map (·.1)).length 0 cells cells' moved moved'
    (by omega) h
  exact ⟨he, fun i j hij hj => hall i j (Nat.zero_le i) hij hj⟩

theorem resolveIter_early (margin : ℚ) (grid : ℤ) :
    ∀ (fuel : Nat) (cells cells' : List MxCell) (moved moved' : Nat),
      resolveIter margin grid fuel cells moved = (cells', moved', true) →
      NoIntersectingPairs margin cells' := by
  intro fuel
  induction fuel with
  | zero => intro cells cells' moved moved' h; cases h
  | succ k ih =>
    intro cells cells' moved moved' h
    unfold resolveIter at h
    rcases hscan : resolveScan margin grid cells moved with ⟨ns, ov, mv⟩
    simp only [hscan] at h
    rcases ov with _ | _
    · simp only [Bool.false_eq_true, if_false, Prod.mk.injEq] at h
      obtain ⟨h1, -, -⟩ := h
      obtain ⟨heq, hno⟩ := resolveScan_false margin grid cells ns moved mv hscan
      rw [← h1, heq]
      exact hno
    · simp only [if_true] at h
      exact ih ns cells' mv moved' h

/-- C5: the claim as stated is false — at a tie between the overlap extents
on the two axes the pair `c5A`, `c5B` is pushed apart along the y-axis, not
the x-axis as claimed; and for `c5C`, `c5D` the push direction follows the
comparison of top-left coordinates, moving `c5C` toward its partner's
center rather than away from it. -/
theorem C5_counterexample :
    (compute_overlap c5A c5B 20).1 = (compute_overlap c5A c5B 20).2 ∧
    overlapPairUpdate 20 c5A c5B =
      some ({c5A with y := -21}, {c5B with y := 31}) ∧
    (compute_overlap c5C c5D 20).1 < (compute_overlap c5C c5D 20).2 ∧
    nodeCx c5D < nodeCx c5C ∧
    overlapPairUpdate 20 c5C c5D =
      some ({c5C with x := -21}, {c5D with x := 31}) ∧
    ¬ C5Statement := by
  have hupd : overlapPairUpdate 20 c5A c5B =
      some ({c5A with y := -21}, {c5B with y := 31}) := by decide
  refine ⟨by decide, hupd, by decide, ?_, by decide, fun hcl => ?_⟩
  · show c5D.x + c5D.width / 2 < c5C.x + c5C.width / 2
    norm_num [c5C, c5D]
  · obtain ⟨p, hp, hx, -⟩ := hcl 20 c5A c5B (by decide) (by decide)
    rw [hupd] at hp
    obtain rfl := Option.some_inj.mp hp
    obtain ⟨hy1, -, -⟩ := hx (by decide)
    exact absurd hy1 (by decide)

/-- C5 amended: in every push-apart step of the in-layout overlap remover,
a pair whose padding-padded boxes intersect is pushed along the axis with
the smaller overlap extent, with ties between the axes broken toward the
y-axis; each node moves exactly half the overlap plus one unit, the node
with the strictly smaller top-left coordinate on the push axis moving
toward negative and the other toward positive. -/
theorem C5_amended (padding : ℚ) (a b : LayoutNode)
    (h1 : 0 < (compute_overlap a b padding).1)
    (h2 : 0 < (compute_overlap a b padding).2) :
    ∃ p : LayoutNode × LayoutNode, overlapPairUpdate padding a b = some p ∧
      (((compute_overlap a b padding).1 < (compute_overlap a b padding).2 →
        p.1.y = a.y ∧ p.2.y = b.y ∧
        (a.x < b.x →
          p.1.x = a.x - ((compute_overlap a b padding).1 / 2 + 1) ∧
          p.2.x = b.x + ((compute_overlap a b padding).1 / 2 + 1)) ∧
        (¬ a.x < b.x →
          p.1.x = a.x + ((compute_overlap a b padding).1 / 2 + 1) ∧
          p.2.x = b.x - ((compute_overlap a b padding).1 / 2 + 1))) ∧
      ((compute_overlap a b padding).2 ≤ (compute_overlap a b padding).1 →
        p.1.x = a.x ∧ p.2.x = b.x ∧
        (a.y < b.y →
          p.1.y = a.y - ((compute_overlap a b padding).2 / 2 + 1) ∧
          p.2.y = b.y + ((compute_overlap a b padding).2 / 2 + 1)) ∧
        (¬ a.y < b.y →
          p.1.y = a.y + ((compute_overlap a b padding).2 / 2 + 1) ∧
          p.2.y = b.y - ((compute_overlap a b padding).2 / 2 + 1)))) := by
  unfold overlapPairUpdate
  rw [if_pos ⟨h1, h2⟩]
  by_cases hxy : (compute_overlap a b padding).1 < (compute_overlap a b padding).2
  · rw [if_pos hxy]
    by_cases hab : a.x < b.x
    · rw [if_pos hab]
      refine ⟨_, rfl, fun _ => ⟨rfl, rfl, fun _ => ⟨?_, ?_⟩, fun hn => absurd hab hn⟩,
        fun hle => absurd hle (not_le.mpr hxy)⟩ <;> simp
    · rw [if_neg hab]
      refine ⟨_, rfl, fun _ => ⟨rfl, rfl, fun hlt => absurd hlt hab, fun _ => ⟨?_, ?_⟩⟩,
        fun hle => absurd hle (not_le.mpr hxy)⟩ <;> simp
  · rw [if_neg hxy]
    by_cases hab : a.y < b.y
    · rw [if_pos hab]
      refine ⟨_, rfl, fun hlt => absurd hlt hxy,
        fun _ => ⟨rfl, rfl, fun _ => ⟨?_, ?_⟩, fun hn => absurd hab hn⟩⟩ <;> simp
    · rw [if_neg hab]
      refine ⟨_, rfl, fun hlt => absurd hlt hxy,
        fun _ => ⟨rfl, rfl, fun hlt => absurd hlt hab, fun _ => ⟨?_, ?_⟩⟩⟩ <;> simp

/-- C5 amended, applied at the concrete tie input `c5A`, `c5B`. -/
theorem C5_amended_witness :
    (0 < (compute_overlap c5A c5B 20).1 ∧ 0 < (compute_overlap c5A c5B 20).2) ∧
    ∃ p : LayoutNode × LayoutNode, overlapPairUpdate 20 c5A c5B = some p ∧
      (((compute_overlap c5A c5B 20).1 < (compute_overlap c5A c5B 20).2 →
        p.1.y = c5A.y ∧ p.2.y = c5B.y ∧
        (c5A.x < c5B.x →
          p.1.x = c5A.x - ((compute_overlap c5A c5B 20).1 / 2 + 1) ∧
          p.2.x = c5B.x + ((compute_overlap c5A c5B 20).1 / 2 + 1)) ∧
        (¬ c5A.x < c5B.x →
          p.1.x = c5A.x + ((compute_overlap c5A c5B 20).1 / 2 + 1) ∧
          p.2.x = c5B.x - ((compute_overlap c5A c5B 20).1 / 2 + 1))) ∧
      ((compute_overlap c5A c5B 20).2 ≤ (compute_overlap c5A c5B 20).1 →
        p.1.x = c5A.x ∧ p.2.x = c5B.x ∧
        (c5A.y < c5B.y →
          p.1.y = c5A.y - ((compute_overlap c5A c5B 20).2 / 2 + 1) ∧
          p.2.y = c5B.y + ((compute_overlap c5A c5B 20).2 / 2 + 1)) ∧
        (¬ c5A.y < c5B.y →
          p.1.y = c5A.y + ((compute_overlap c5A c5B 20).2 / 2 + 1) ∧
          p.2.y = c5B.y - ((compute_overlap c5A c5B 20).2 / 2 + 1)))) :=
  ⟨⟨by decide, by decide⟩, C5_amended 20 c5A c5B (by decide) (by decide)⟩

/-- C1: the claim as stated is false — on the nodes `c1A`, `c1B` the
`_remove_overlaps` loop exits early at its very first scan (no padded
overlap), but the closing snap to the grid moves `c1B` from x = 144 to
x = 140, and afterwards the padding-padded boxes do overlap. -/
theorem C1_counterexample :
    (remove_overlaps [c1A, c1B] 20 50 10).2 = true ∧
    0 < (compute_overlap ((remove_overlaps [c1A, c1B] 20 50 10).1.getD 0 dfltNode)
      ((remove_overlaps [c1A, c1B] 20 50 10).1.getD 1 dfltNode) 20).1 ∧
    0 < (compute_overlap ((remove_overlaps [c1A, c1B] 20 50 10).1.getD 0 dfltNode)
      ((remove_overlaps [c1A, c1B] 20 50 10).1.getD 1 dfltNode) 20).2 ∧
    ¬ C1Statement := by
  refine ⟨by decide, by decide, by decide, fun hcl => ?_⟩
  have h := hcl [c1A, c1B] 20 50 10 (by decide)
  exact (h 0 1 (by omega) (by decide)) ⟨by decide, by decide⟩

/-- C1 amended: when the overlap-resolution loop terminates before the
iteration cap because a full scan found no overlap, no two margin-padded
nodes intersect at that moment — for the in-layout remover this holds for
the positions just before the final grid snap (which can reintroduce
overlap, as the counterexample shows), and for the standalone diagram
resolver (which snaps inside the loop) it holds for the final diagram. -/
theorem C1_amended :
    (∀ (nodes : List LayoutNode) (padding : ℚ) (maxIter : Nat) (grid : ℤ),
      (remove_overlaps nodes padding maxIter grid).2 = true →
      NoOverlapPairs padding (removeOverlapsIter padding maxIter nodes).1) ∧
    (∀ (d : Diagram) (margin : ℚ) (maxIter : Nat),
      (resolve_overlaps d margin maxIter).2.2 = true →
      NoIntersectingPairs margin (resolve_overlaps d margin maxIter).1.cells) := by
  constructor
  · intro nodes padding maxIter grid h
    have h2 : (removeOverlapsIter padding maxIter nodes).2 = true := h
    rcases hit : removeOverlapsIter padding maxIter nodes with ⟨ns, fl⟩
    rw [hit] at h2
    simp only at h2
    subst h2
    exact removeOverlapsIter_early padding maxIter nodes ns hit
  · intro d margin maxIter h
    unfold resolve_overlaps at h ⊢
    rcases hit : resolveIter margin d.grid_size maxIter d.cells 0 with ⟨cs, mv, fl⟩
    rw [hit] at h
    simp only at h
    subst h
    exact resolveIter_early margin d.grid_size maxIter d.cells cs 0 mv hit

/-- C1 amended, applied to concrete early-terminating inputs: separated
nodes for the in-layout remover, a separated diagram for the resolver. -/
theorem C1_amended_witness :
    ((remove_overlaps c1Wnodes 20 50 10).2 = true ∧
      NoOverlapPairs 20 (removeOverlapsIter 20 50 c1Wnodes).1) ∧
    ((resolve_overlaps c1Wdiagram 20 50).2.2 = true ∧
      NoIntersectingPairs 20 (resolve_overlaps c1Wdiagram 20 50).1.cells) :=
  ⟨⟨by decide, C1_amended.1 c1Wnodes 20 50 10 (by decide)⟩,
   ⟨by decide, C1_amended.2 c1Wdiagram 20 50 (by decide)⟩⟩

/-! ### Frame and shape lemmas for `resolve_overlaps` -/

theorem set_getD_self {α : Type} : ∀ (l : List α) (n : Nat) (d : α), n < l.length →
    l.set n (l.getD n d) = l
  | [], _, _, h => by simp at h
  | a :: l, 0, d, _ => by simp [List.getD]
  | a :: l, n + 1, d, h => by
    simp only [List.set, List.getD_cons_succ]
    rw [set_getD_self l n d (by simpa using h)]

theorem getD_set_ne {α : Type} (l : List α) (i k : Nat) (a d : α) (h : i ≠ k) :
    (l.set i a).getD k d = l.getD k d := by
  rw [List.getD_eq_getElem?_getD, List.getD_eq_getElem?_getD, List.getElem?_set_ne h]

theorem cellShape_setGeoX (c : MxCell) (v : ℚ) : cellShape (setGeoX c v) = cellShape c := by
  cases hg : c.geometry <;> simp [setGeoX, cellShape, hg]

theorem cellShape_setGeoY (c : MxCell) (v : ℚ) : cellShape (setGeoY c v) = cellShape c := by
  cases hg : c.geometry <;> simp [setGeoY, cellShape, hg]

theorem shape_getD {cells' cells : List MxCell}
    (h : cells'.map cellShape = cells.map cellShape) (k : Nat) :
    cellShape (cells'.getD k dfltCell) = cellShape (cells.getD k dfltCell) := by
  have h2 : (cells'[k]?).map cellShape = (cells[k]?).map cellShape := by
    rw [← List.getElem?_map, ← List.getElem?_map, h]
  rw [List.getD_eq_getElem?_getD, List.getD_eq_getElem?_getD]
  cases h1 : cells'[k]? with
  | none =>
    rw [h1] at h2
    cases h3 : cells[k]? with
    | none => simp
    | some c => rw [h3] at h2; simp at h2
  | some c' =>
    rw [h1] at h2
    cases h3 : cells[k]? with
    | none => rw [h3] at h2; simp at h2
    | some c => rw [h3] at h2; simpa using h2

theorem shape_getD_id {cells' cells : List MxCell}
    (h : cells'.map cellShape = cells.map cellShape) (k : Nat) :
    (cells'.getD k dfltCell).id = (cells.getD k dfltCell).id :=
  congrArg (fun s => s.1) (shape_getD h k)

theorem shape_length {cells' cells : List MxCell}
    (h : cells'.map cellShape = cells.map cellShape) : cells'.length = cells.length := by
  have h2 := congrArg List.length h
  simpa using h2

theorem getD_map_cellShape (l : List MxCell) (n : Nat) :
    (l.map cellShape).getD n (cellShape dfltCell) = cellShape (l.getD n dfltCell) := by
  rw [List.getD_eq_getElem?_getD, List.getD_eq_getElem?_getD, List.getElem?_map]
  cases l[n]? <;> simp

theorem map_set_shape (cells : List MxCell) (n : Nat) (c' : MxCell)
    (hsh : cellShape c' = cellShape (cells.getD n dfltCell)) (hn : n < cells.length) :
    (cells.set n c').map cellShape = cells.map cellShape := by
  rw [List.map_set, hsh, ← getD_map_cellShape]
  exact set_getD_self (cells.map cellShape) n (cellShape dfltCell) (by simpa using hn)

theorem lastIdxOf_spec (cells : List MxCell) (cid : String) (k : Nat)
    (h : lastIdxOf cells cid = some k) :
    k < cells.length ∧ (cells.getD k dfltCell).id = cid := by
  have main : ∀ (l : List Nat) (acc : Option Nat),
      (∀ m, acc = some m → m < cells.length ∧ (cells.getD m dfltCell).id = cid) →
      (∀ x ∈ l, x < cells.length) →
      ∀ m, l.foldl (fun a x => if (cells.getD x dfltCell).id == cid then some x else a)
          acc = some m →
        m < cells.length ∧ (cells.getD m dfltCell).id = cid := by
    intro l
    induction l with
    | nil => intro acc hacc _ m hm; exact hacc m hm
    | cons x l ih =>
      intro acc hacc hmem m hm
      refine ih _ ?_ (fun y hy => hmem y (List.mem_cons_of_mem x hy)) m hm
      intro m' hm'
      have hm2 : (if ((cells.getD x dfltCell).id == cid) = true then some x else acc) =
          some m' := hm'
      by_cases hx : ((cells.getD x dfltCell).id == cid) = true
      · rw [if_pos hx] at hm2
        cases hm2
        exact ⟨hmem x (List.mem_cons_self x l), by simpa using hx⟩
      · rw [if_neg hx] at hm2
        exact hacc m' hm2
  exact main (List.range cells.length) none (fun m hm => by cases hm)
    (fun x hx => List.mem_range.mp hx) k h

theorem resolvePairStep_cases (margin : ℚ) (grid : ℤ) (cells : List MxCell)
    (aId bId : String) (aB bB : CellBounds) (res : List MxCell × Bool × Nat)
    (hres : resolvePairStep margin grid cells aId bId aB bB = res) :
    res.1 = cells ∨
    (aB.intersects bB margin = true ∧
      ∃ ai bi v w, lastIdxOf cells aId = some ai ∧ lastIdxOf cells bId = some bi ∧
        (res.1 = (cells.set ai (setGeoX (cells.getD ai dfltCell) v)).set bi
            (setGeoX (cells.getD bi dfltCell) w) ∨
         res.1 = (cells.set ai (setGeoY (cells.getD ai dfltCell) v)).set bi
            (setGeoY (cells.getD bi dfltCell) w))) := by
  unfold resolvePairStep at hres
  split at hres
  · rw [← hres]; exact Or.inl rfl
  · rename_i hint
    have hint' : aB.intersects bB margin = true := by
      cases hx : aB.intersects bB margin
      · exact absurd hx hint
      · rfl
    split at hres
    · rename_i ai bi ha hb
      split at hres
      · rename_i ag bg hag hbg
        simp only [] at hres
        split at hres
        · split at hres
          · split at hres
            · exact Or.inr ⟨hint', ai, bi, _, _, ha, hb,
                Or.inl (congrArg Prod.fst hres).symm⟩
            · exact Or.inr ⟨hint', ai, bi, _, _, ha, hb,
                Or.inl (congrArg Prod.fst hres).symm⟩
          · split at hres
            · exact Or.inr ⟨hint', ai, bi, _, _, ha, hb,
                Or.inr (congrArg Prod.fst hres).symm⟩
            · exact Or.inr ⟨hint', ai, bi, _, _, ha, hb,
                Or.inr (congrArg Prod.fst hres).symm⟩
        · rw [← hres]; exact Or.inl rfl
      · rw [← hres]; exact Or.inl rfl
    · rw [← hres]; exact Or.inl rfl

theorem resolvePairStep_shape (margin : ℚ) (grid : ℤ) (cells : List MxCell)
    (aId bId : String) (aB bB : CellBounds) :
    ((resolvePairStep margin grid cells aId bId aB bB).1).map cellShape =
      cells.map cellShape := by
  rcases resolvePairStep_cases margin grid cells aId bId aB bB _ rfl with
    h | ⟨-, ai, bi, v, w, ha, hb, h | h⟩
  · rw [h]
  · rw [h]
    have hai := (lastIdxOf_spec cells aId ai ha).1
    have hbi := (lastIdxOf_spec cells bId bi hb).1
    have h1 : (cells.set ai (setGeoX (cells.getD ai dfltCell) v)).map cellShape =
        cells.map cellShape :=
      map_set_shape cells ai _ (cellShape_setGeoX _ _) hai
    have hbi' : bi < (cells.set ai (setGeoX (cells.getD ai dfltCell) v)).length := by
      rw [List.length_set]; exact hbi
    have h2 : cellShape (setGeoX (cells.getD bi dfltCell) w) =
        cellShape ((cells.set ai (setGeoX (cells.getD ai dfltCell) v)).getD bi dfltCell) :=
      (cellShape_setGeoX _ _).trans (shape_getD h1 bi).symm
    exact (map_set_shape _ bi _ h2 hbi').trans h1
  · rw [h]
    have hai := (lastIdxOf_spec cells aId ai ha).1
    have hbi := (lastIdxOf_spec cells bId bi hb).1
    have h1 : (cells.set ai (setGeoY (cells.getD ai dfltCell) v)).map cellShape =
        cells.map cellShape :=
      map_set_shape cells ai _ (cellShape_setGeoY _ _) hai
    have hbi' : bi < (cells.set ai (setGeoY (cells.getD ai dfltCell) v)).length := by
      rw [List.length_set]; exact hbi
    have h2 : cellShape (setGeoY (cells.getD bi dfltCell) w) =
        cellShape ((cells.set ai (setGeoY (cells.getD ai dfltCell) v)).getD bi dfltCell) :=
      (cellShape_setGeoY _ _).trans (shape_getD h1 bi).symm
    exact (map_set_shape _ bi _ h2 hbi').trans h1

theorem resolvePairStep_frame (margin : ℚ) (grid : ℤ) (cells : List MxCell)
    (aId bId : String) (aB bB : CellBounds) (k : Nat)
    (hA : aId = (cells.getD k dfltCell).id → aB.intersects bB margin = false)
    (hB : bId = (cells.getD k dfltCell).id → aB.intersects bB margin = false) :
    ((resolvePairStep margin grid cells aId bId aB bB).1).getD k dfltCell =
      cells.getD k dfltCell := by
  rcases resolvePairStep_cases margin grid cells aId bId aB bB _ rfl with
    h | ⟨hint, ai, bi, v, w, ha, hb, h | h⟩
  · rw [h]
  · have haid : aId ≠ (cells.getD k dfltCell).id := fun he => by
      rw [hA he] at hint; exact Bool.noConfusion hint
    have hbid : bId ≠ (cells.getD k dfltCell).id := fun he => by
      rw [hB he] at hint; exact Bool.noConfusion hint
    have hak : ai ≠ k := fun he => haid (by rw [← (lastIdxOf_spec cells aId ai ha).2, he])
    have hbk : bi ≠ k := fun he => hbid (by rw [← (lastIdxOf_spec cells bId bi hb).2, he])
    rw [h, getD_set_ne _ _ _ _ _ hbk, getD_set_ne _ _ _ _ _ hak]
  · have haid : aId ≠ (cells.getD k dfltCell).id := fun he => by
      rw [hA he] at hint; exact Bool.noConfusion hint
    have hbid : bId ≠ (cells.getD k dfltCell).id := fun he => by
      rw [hB he] at hint; exact Bool.noConfusion hint
    have hak : ai ≠ k := fun he => haid (by rw [← (lastIdxOf_spec cells aId ai ha).2, he])
    have hbk : bi ≠ k := fun he => hbid (by rw [← (lastIdxOf_spec cells bId bi hb).2, he])
    rw [h, getD_set_ne _ _ _ _ _ hbk, getD_set_ne _ _ _ _ _ hak]

theorem resolveInner_shape (margin : ℚ) (grid : ℤ) (ids : List String)
    (bounds : List (String × CellBounds)) (i : Nat) :
    ∀ (gas j : Nat) (cells : List MxCell) (anyOv : Bool) (moved : Nat),
      ((resolveInner margin grid ids bounds i gas j cells anyOv moved).1).map cellShape =
        cells.map cellShape := by
  intro gas
  induction gas with
  | zero => intro j cells anyOv moved; rfl
  | succ gas ih =>
    intro j cells anyOv moved
    unfold resolveInner
    by_cases hj : j < ids.length
    · simp only [hj, if_true]
      rcases hstep : resolvePairStep margin grid cells (ids.getD i "") (ids.getD j "")
        (boundsOf bounds (ids.getD i "")) (boundsOf bounds (ids.getD j ""))
        with ⟨cells', ov, inc⟩
      simp only [hstep]
      have h1 : cells'.map cellShape = cells.map cellShape := by
        have h2 := resolvePairStep_shape margin grid cells (ids.getD i "") (ids.getD j "")
          (boundsOf bounds (ids.getD i "")) (boundsOf bounds (ids.getD j ""))
        rw [hstep] at h2
        exact h2
      rw [ih (j + 1) cells' (anyOv || ov) (moved + inc), h1]
    · simp [hj]

theorem resolveOuter_shape (margin : ℚ) (grid : ℤ) (ids : List String)
    (bounds : List (String × CellBounds)) :
    ∀ (gas i : Nat) (cells : List MxCell) (anyOv : Bool) (moved : Nat),
      ((resolveOuter margin grid ids bounds gas i cells anyOv moved).1).map cellShape =
        cells.map cellShape := by
  intro gas
  induction gas with
  | zero => intro i cells anyOv moved; rfl
  | succ gas ih =>
    intro i cells anyOv moved
    unfold resolveOuter
    by_cases hi : i < ids.length
    · simp only [hi, if_true]
      rcases hin : resolveInner margin grid ids bounds i ids.length (i + 1) cells anyOv moved
        with ⟨cells', ov, mv⟩
      simp only [hin]
      have h1 : cells'.map cellShape = cells.map cellShape := by
        have h2 := resolveInner_shape margin grid ids bounds i ids.length (i + 1)
          cells anyOv moved
        rw [hin] at h2
        exact h2
      rw [ih (i + 1) cells' ov mv, h1]
    · simp [hi]

theorem resolveScan_shape (margin : ℚ) (grid : ℤ) (cells : List MxCell) (moved : Nat) :
    ((resolveScan margin grid cells moved).1).map cellShape = cells.map cellShape := by
  unfold resolveScan
  exact resolveOuter_shape margin grid _ _ _ 0 cells false moved

theorem resolveIter_shape (margin : ℚ) (grid : ℤ) :
    ∀ (fuel : Nat) (cells : List MxCell) (moved : Nat),
      ((resolveIter margin grid fuel cells moved).1).map cellShape = cells.map cellShape := by
  intro fuel
  induction fuel with
  | zero => intro cells moved; rfl
  | succ f ih =>
    intro cells moved
    unfold resolveIter
    rcases hscan : resolveScan margin grid cells moved with ⟨cells', anyOv, moved'⟩
    simp only [hscan]
    have h1 : cells'.map cellShape = cells.map cellShape := by
      have h2 := resolveScan_shape margin grid cells moved
      rw [hscan] at h2
      exact h2
    rcases anyOv with _ | _
    · simp only [Bool.false_eq_true, if_false]
      exact h1
    · simp only [if_true]
      exact (ih cells' moved').trans h1

theorem resolveTraceStates_shape (margin : ℚ) (grid : ℤ) :
    ∀ (fuel : Nat) (cells : List MxCell) (moved : Nat),
      ∀ cs ∈ resolveTraceStates margin grid fuel cells moved,
        cs.map cellShape = cells.map cellShape := by
  intro fuel
  induction fuel with
  | zero => intro cells moved cs hcs; simp [resolveTraceStates] at hcs
  | succ f ih =>
    intro cells moved cs hcs
    unfold resolveTraceStates at hcs
    rcases hscan : resolveScan margin grid cells moved with ⟨cells', anyOv, moved'⟩
    simp only [hscan] at hcs
    rcases List.mem_cons.mp hcs with h | h
    · rw [h]
    · rcases anyOv with _ | _
      · simp only [Bool.false_eq_true, if_false] at h
        exact absurd h (List.not_mem_nil cs)
      · simp only [if_true] at h
        have h1 : cells'.map cellShape = cells.map cellShape := by
          have h2 := resolveScan_shape margin grid cells moved
          rw [hscan] at h2
          exact h2
        exact (ih cells' moved' cs h).trans h1

theorem resolveInner_frame (margin : ℚ) (grid : ℤ) (ids : List String)
    (bounds : List (String × CellBounds)) (cid : String)
    (hsafe : ∀ p q : Nat, p < q → q < ids.length →
      (ids.getD p "" = cid ∨ ids.getD q "" = cid) →
      (boundsOf bounds (ids.getD p "")).intersects
        (boundsOf bounds (ids.getD q "")) margin = false)
    (i : Nat) :
    ∀ (gas j : Nat) (cells : List MxCell) (anyOv : Bool) (moved : Nat) (k : Nat),
      i < j → (cells.getD k dfltCell).id = cid →
      ((resolveInner margin grid ids bounds i gas j cells anyOv moved).1).getD k dfltCell =
        cells.getD k dfltCell := by
  intro gas
  induction gas with
  | zero => intro j cells anyOv moved k hij hid; rfl
  | succ gas ih =>
    intro j cells anyOv moved k hij hid
    unfold resolveInner
    by_cases hj : j < ids.length
    · simp only [hj, if_true]
      rcases hstep : resolvePairStep margin grid cells (ids.getD i "") (ids.getD j "")
        (boundsOf bounds (ids.getD i "")) (boundsOf bounds (ids.getD j ""))
        with ⟨cells', ov, inc⟩
      simp only [hstep]
      have hstepf : cells'.getD k dfltCell = cells.getD k dfltCell := by
        have h2 := resolvePairStep_frame margin grid cells (ids.getD i "") (ids.getD j "")
          (boundsOf bounds (ids.getD i "")) (boundsOf bounds (ids.getD j "")) k
          (fun he => hsafe i j hij hj (Or.inl (he.trans hid)))
          (fun he => hsafe i j hij hj (Or.inr (he.trans hid)))
        rw [hstep] at h2
        exact h2
      have hid' : (cells'.getD k dfltCell).id = cid := by rw [hstepf]; exact hid
      rw [ih (j + 1) cells' (anyOv || ov) (moved + inc) k (by omega) hid', hstepf]
    · simp [hj]

theorem resolveOuter_frame (margin : ℚ) (grid : ℤ) (ids : List String)
    (bounds : List (String × CellBounds)) (cid : String)
    (hsafe : ∀ p q : Nat, p < q → q < ids.length →
      (ids.getD p "" = cid ∨ ids.getD q "" = cid) →
      (boundsOf bounds (ids.getD p "")).intersects
        (boundsOf bounds (ids.getD q "")) margin = false) :
    ∀ (gas i : Nat) (cells : List MxCell) (anyOv : Bool) (moved : Nat) (k : Nat),
      (cells.getD k dfltCell).id = cid →
      ((resolveOuter margin grid ids bounds gas i cells anyOv moved).1).getD k dfltCell =
        cells.getD k dfltCell := by
  intro gas
  induction gas with
  | zero => intro i cells anyOv moved k hid; rfl
  | succ gas ih =>
    intro i cells anyOv moved k hid
    unfold resolveOuter
    by_cases hi : i < ids.length
    · simp only [hi, if_true]
      rcases hin : resolveInner margin grid ids bounds i ids.length (i + 1) cells anyOv moved
        with ⟨cells', ov, mv⟩
      simp only [hin]
      have hinf : cells'.getD k dfltCell = cells.getD k dfltCell := by
        have h2 := resolveInner_frame margin grid ids bounds cid hsafe i ids.length (i + 1)
          cells anyOv moved k (by omega) hid
        rw [hin] at h2
        exact h2
      have hid' : (cells'.getD k dfltCell).id = cid := by rw [hinf]; exact hid
      rw [ih (i + 1) cells' ov mv k hid', hinf]
    · simp [hi]

theorem getD_mem_of_lt {α : Type} (l : List α) (n : Nat) (d : α) (h : n < l.length) :
    l.getD n d ∈ l := by
  rw [List.getD_eq_getElem l d h]
  exact List.getElem_mem h

theorem mem_of_inIntersectingPair (margin : ℚ) (cells : List MxCell) (cid : String)
    (h : inIntersectingPair margin cells cid = true) :
    cid ∈ (get_all_vertex_bounds cells).map (·.1) := by
  unfold inIntersectingPair at h
  rw [List.any_eq_true] at h
  rcases h with ⟨q, hq, h2⟩
  rw [List.any_eq_true] at h2
  rcases h2 with ⟨p, hp, h3⟩
  rw [Bool.and_eq_true, Bool.or_eq_true, decide_eq_true_eq, decide_eq_true_eq] at h3
  have hqlen := List.mem_range.mp hq
  have hplen : p < ((get_all_vertex_bounds cells).map (·.1)).length :=
    lt_trans (List.mem_range.mp hp) hqlen
  rcases h3.1 with h4 | h4
  · exact h4 ▸ getD_mem_of_lt _ p "" hplen
  · exact h4 ▸ getD_mem_of_lt _ q "" hqlen

theorem resolveScan_frame (margin : ℚ) (grid : ℤ) (cells : List MxCell) (moved : Nat)
    (k : Nat)
    (hsafe : inIntersectingPair margin cells ((cells.getD k dfltCell).id) = false) :
    ((resolveScan margin grid cells moved).1).getD k dfltCell = cells.getD k dfltCell := by
  have hsafe' : ∀ p q : Nat, p < q →
      q < ((get_all_vertex_bounds cells).map (·.1)).length →
      (((get_all_vertex_bounds cells).map (·.1)).getD p "" = (cells.getD k dfltCell).id ∨
        ((get_all_vertex_bounds cells).map (·.1)).getD q "" = (cells.getD k dfltCell).id) →
      (boundsOf (get_all_vertex_bounds cells)
          (((get_all_vertex_bounds cells).map (·.1)).getD p "")).intersects
        (boundsOf (get_all_vertex_bounds cells)
          (((get_all_vertex_bounds cells).map (·.1)).getD q "")) margin = false := by
    intro p q hpq hq hone
    cases hx : (boundsOf (get_all_vertex_bounds cells)
        (((get_all_vertex_bounds cells).map (·.1)).getD p "")).intersects
        (boundsOf (get_all_vertex_bounds cells)
          (((get_all_vertex_bounds cells).map (·.1)).getD q "")) margin with
    | false => rfl
    | true =>
      exfalso
      have htrue : inIntersectingPair margin cells ((cells.getD k dfltCell).id) = true :=
        List.any_eq_true.mpr ⟨q, List.mem_range.mpr hq,
          List.any_eq_true.mpr ⟨p, List.mem_range.mpr hpq, by
            rw [Bool.and_eq_true, Bool.or_eq_true, decide_eq_true_eq, decide_eq_true_eq]
            exact ⟨hone, hx⟩⟩⟩
      rw [htrue] at hsafe
      exact Bool.noConfusion hsafe
  unfold resolveScan
  exact resolveOuter_frame margin grid ((get_all_vertex_bounds cells).map (·.1))
    (get_all_vertex_bounds cells) ((cells.getD k dfltCell).id) hsafe'
    ((get_all_vertex_bounds cells).map (·.1)).length 0 cells false moved k rfl

theorem resolveIter_frame (margin : ℚ) (grid : ℤ) :
    ∀ (fuel : Nat) (cells : List MxCell) (moved : Nat) (k : Nat),
      (∀ cs ∈ resolveTraceStates margin grid fuel cells moved,
        inIntersectingPair margin cs ((cells.getD k dfltCell).id) = false) →
      ((resolveIter margin grid fuel cells moved).1).getD k dfltCell =
        cells.getD k dfltCell := by
  intro fuel
  induction fuel with
  | zero => intro cells moved k hsafe; rfl
  | succ f ih =>
    intro cells moved k hsafe
    unfold resolveIter
    rcases hscan : resolveScan margin grid cells moved with ⟨cells', anyOv, moved'⟩
    simp only [hscan]
    have hmem0 : cells ∈ resolveTraceStates margin grid (f + 1) cells moved := by
      unfold resolveTraceStates
      exact List.mem_cons_self _ _
    have hframe : cells'.getD k dfltCell = cells.getD k dfltCell := by
      have h2 := resolveScan_frame margin grid cells moved k (hsafe cells hmem0)
      rw [hscan] at h2
      exact h2
    rcases anyOv with _ | _
    · simp only [Bool.false_eq_true, if_false]
      exact hframe
    · simp only [if_true]
      have hsafe' : ∀ cs ∈ resolveTraceStates margin grid f cells' moved',
          inIntersectingPair margin cs ((cells'.getD k dfltCell).id) = false := by
        intro cs hcs
        rw [hframe]
        apply hsafe
        unfold resolveTraceStates
        simp only [hscan, if_true]
        exact List.mem_cons_of_mem _ hcs
      exact (ih cells' moved' k hsafe').trans hframe

theorem dedupKeysFirst_subset {α : Type} :
    ∀ (l : List (String × α)) (acc : List String) (x : String),
      x ∈ l.foldl (fun a e => if a.contains e.1 then a else a ++ [e.1]) acc →
      x ∈ acc ∨ ∃ e ∈ l, e.1 = x := by
  intro l
  induction l with
  | nil => intro acc x hx; exact Or.inl hx
  | cons e l ih =>
    intro acc x hx
    rcases ih _ x hx with h | ⟨e', he', hx'⟩
    · have h2 : x ∈ (if acc.contains e.1 = true then acc else acc ++ [e.1]) := h
      by_cases hc : acc.contains e.1 = true
      · rw [if_pos hc] at h2
        exact Or.inl h2
      · rw [if_neg hc] at h2
        rcases List.mem_append.mp h2 with h1 | h1
        · exact Or.inl h1
        · exact Or.inr ⟨e, List.mem_cons_self e l, (List.mem_singleton.mp h1).symm⟩
    · exact Or.inr ⟨e', List.mem_cons_of_mem e he', hx'⟩

theorem geomRaw_key_vertex (cells : List MxCell) (cid : String)
    (h : ∃ e ∈ geomRaw cells, e.1 = cid) :
    ∃ m, m < cells.length ∧ (cells.getD m dfltCell).id = cid ∧
      (cells.getD m dfltCell).vertex = true := by
  rcases h with ⟨e, he, hkey⟩
  unfold geomRaw at he
  rcases List.mem_filterMap.mp he with ⟨c, hc, hfc⟩
  have hprops : c.id = cid ∧ c.vertex = true := by
    cases hg : c.geometry with
    | none => rw [hg] at hfc; exact Option.noConfusion hfc
    | some g =>
      rw [hg] at hfc
      simp only [] at hfc
      by_cases hcond : c.vertex = true ∧ g.relative = false
      · rw [if_pos hcond] at hfc
        cases hfc
        exact ⟨hkey, hcond.1⟩
      · rw [if_neg hcond] at hfc
        exact Option.noConfusion hfc
  rcases List.mem_iff_getElem.mp hc with ⟨m, hm, hcm⟩
  refine ⟨m, hm, ?_, ?_⟩
  · rw [List.getD_eq_getElem cells dfltCell hm, hcm]; exact hprops.1
  · rw [List.getD_eq_getElem cells dfltCell hm, hcm]; exact hprops.2

theorem mem_ids_vertex (cells : List MxCell) (cid : String)
    (h : cid ∈ (get_all_vertex_bounds cells).map (·.1)) :
    ∃ m, m < cells.length ∧ (cells.getD m dfltCell).id = cid ∧
      (cells.getD m dfltCell).vertex = true := by
  rcases List.mem_map.mp h with ⟨pr, hprmem, hpr1⟩
  unfold get_all_vertex_bounds at hprmem
  rcases List.mem_map.mp hprmem with ⟨x, hx, hfx⟩
  have hx1 : pr.1 = x := by
    rw [← hfx]
    cases hl : lookupLast (geomRaw cells) x with
    | none => rfl
    | some v =>
      obtain ⟨a, b, w2, h2, p2⟩ := v
      rcases habs : absPos (geomRaw cells) ((geomRaw cells).length + 1) x with ⟨ax, ay⟩
      simp only [habs]
  have hcid : cid = x := by rw [← hpr1, hx1]
  subst hcid
  rcases dedupKeysFirst_subset (geomRaw cells) [] cid hx with h0 | hex
  · exact absurd h0 (List.not_mem_nil cid)
  · exact geomRaw_key_vertex cells cid hex

theorem shape_getD_vertex {cells' cells : List MxCell}
    (h : cells'.map cellShape = cells.map cellShape) (k : Nat) :
    (cells'.getD k dfltCell).vertex = (cells.getD k dfltCell).vertex :=
  congrArg (fun s => s.2.2.2.1) (shape_getD h k)

/-- C10: standalone overlap resolution only ever moves cells.  The image of
the cell list under `cellShape` — everything except the geometry's x and y —
and the grid size are unchanged (so no cell is added or removed and no width
or height changes); with unique cell ids every non-vertex cell is returned
exactly as given; and a cell that at no executed iteration belongs to a
margin-padded intersecting pair of the stale-bounds pair scan keeps its
position exactly. -/
theorem C10_frame (d : Diagram) (margin : ℚ) (maxIter : Nat) :
    (((resolve_overlaps d margin maxIter).1).cells.map cellShape =
        d.cells.map cellShape ∧
      ((resolve_overlaps d margin maxIter).1).grid_size = d.grid_size) ∧
    ((d.cells.map (fun c => c.id)).Nodup →
      ∀ k, k < d.cells.length → (d.cells.getD k dfltCell).vertex = false →
        ((resolve_overlaps d margin maxIter).1).cells.getD k dfltCell =
          d.cells.getD k dfltCell) ∧
    (∀ k, (∀ cs ∈ resolveTraceStates margin d.grid_size maxIter d.cells 0,
        inIntersectingPair margin cs ((d.cells.getD k dfltCell).id) = false) →
      ((resolve_overlaps d margin maxIter).1).cells.getD k dfltCell =
        d.cells.getD k dfltCell) := by
  have hcells : ((resolve_overlaps d margin maxIter).1).cells =
      (resolveIter margin d.grid_size maxIter d.cells 0).1 := by
    unfold resolve_overlaps
    rcases hit : resolveIter margin d.grid_size maxIter d.cells 0 with ⟨cs, mv, er⟩
    rfl
  have hgrid : ((resolve_overlaps d margin maxIter).1).grid_size = d.grid_size := by
    unfold resolve_overlaps
    rcases hit : resolveIter margin d.grid_size maxIter d.cells 0 with ⟨cs, mv, er⟩
    rfl
  refine ⟨⟨?_, hgrid⟩, ?_, ?_⟩
  · rw [hcells]
    exact resolveIter_shape margin d.grid_size maxIter d.cells 0
  · intro hnodup k hk hv
    rw [hcells]
    apply resolveIter_frame margin d.grid_size maxIter d.cells 0 k
    intro cs hcs
    cases hx : inIntersectingPair margin cs ((d.cells.getD k dfltCell).id) with
    | false => rfl
    | true =>
      exfalso
      have hmem := mem_of_inIntersectingPair margin cs _ hx
      rcases mem_ids_vertex cs _ hmem with ⟨m, hm, hmid, hmv⟩
      have hshape := resolveTraceStates_shape margin d.grid_size maxIter d.cells 0 cs hcs
      have hmid' : (d.cells.getD m dfltCell).id = (d.cells.getD k dfltCell).id := by
        rw [← shape_getD_id hshape m]; exact hmid
      have hmv' : (d.cells.getD m dfltCell).vertex = true := by
        rw [← shape_getD_vertex hshape m]; exact hmv
      have hmlen : m < d.cells.length := by rw [← shape_length hshape]; exact hm
      have hmk : m = k := by
        have hm2 : m < (d.cells.map (fun c => c.id)).length := by simpa using hmlen
        have hk2 : k < (d.cells.map (fun c => c.id)).length := by simpa using hk
        have hmapm : (d.cells.map (fun c => c.id)).get ⟨m, hm2⟩ =
            (d.cells.getD k dfltCell).id := by
          rw [List.get_eq_getElem, List.getElem_map,
            ← List.getD_eq_getElem d.cells dfltCell hmlen]
          exact hmid'
        have hmapk : (d.cells.map (fun c => c.id)).get ⟨k, hk2⟩ =
            (d.cells.getD k dfltCell).id := by
          rw [List.get_eq_getElem, List.getElem_map,
            ← List.getD_eq_getElem d.cells dfltCell hk]
        have heq := hmapm.trans hmapk.symm
        rw [List.get_eq_getElem, List.get_eq_getElem] at heq
        exact (List.Nodup.getElem_inj_iff hnodup).mp heq
      rw [hmk] at hmv'
      rw [hmv'] at hv
      exact Bool.noConfusion hv
  · intro k hsafe
    rw [hcells]
    exact resolveIter_frame margin d.grid_size maxIter d.cells 0 k hsafe

/-! ### Lemmas for `_assign_coordinates` -/

theorem lookupLast_eq_rec {α : Type} :
    ∀ (l : List (String × α)) (k : String), lookupLast l k = lookupLastRec l k := by
  intro l
  induction l with
  | nil => intro k; rfl
  | cons e l ih =>
    intro k
    rw [lookupLastRec, ← ih k]
    unfold lookupLast
    rw [List.filter_cons]
    by_cases hk : e.1 = k
    · rw [if_pos (show (e.1 == k) = true by simpa using hk)]
      cases hfl : List.filter (fun x => x.1 == k) l with
      | nil => simp [hfl, hk]
      | cons x xs =>
        rw [List.getLast?_cons_cons]
        cases hgl : (x :: xs).getLast? with
        | none => simp at hgl
        | some v => simp [hgl]
    · rw [if_neg (show ¬ (e.1 == k) = true by simpa using hk)]
      cases ho : ((List.filter (fun x => x.1 == k) l).getLast?).map (·.2) with
      | none => simp [ho, hk]
      | some v => simp [ho]

theorem mem_keys_lookup {α : Type} :
    ∀ (l : List (String × α)) (n : String), n ∈ l.map (·.1) →
      ∃ v, lookupLast l n = some v := by
  intro l
  induction l with
  | nil => intro n hn; simp at hn
  | cons e l ih =>
    intro n hn
    rw [lookupLast_eq_rec, lookupLastRec]
    cases ho : lookupLastRec l n with
    | some v => exact ⟨v, rfl⟩
    | none =>
      rw [List.map_cons] at hn
      rcases List.mem_cons.mp hn with h | h
      · exact ⟨e.2, by rw [if_pos h.symm]⟩
      · rcases ih n h with ⟨v, hv⟩
        rw [lookupLast_eq_rec, ho] at hv
        exact Option.noConfusion hv

theorem updateNodeXY_keys (nodes : List (String × LayoutNode)) (m : String) (x y : ℚ) :
    (updateNodeXY nodes m x y).map (·.1) = nodes.map (·.1) := by
  unfold updateNodeXY
  rw [List.map_map]
  refine List.map_congr_left ?_
  intro e he
  by_cases h : e.1 = m <;> simp [h]

theorem lookupLastRec_updateNodeXY (m : String) (x y : ℚ) :
    ∀ (nodes : List (String × LayoutNode)) (n : String),
      lookupLastRec (updateNodeXY nodes m x y) n =
        if n = m then
          (lookupLastRec nodes n).map (fun v => {v with x := x, y := y})
        else lookupLastRec nodes n := by
  intro nodes
  induction nodes with
  | nil => intro n; by_cases h : n = m <;> simp [updateNodeXY, lookupLastRec, h]
  | cons e l ih =>
    intro n
    have hupd : updateNodeXY (e :: l) m x y =
        (if e.1 = m then (e.1, {e.2 with x := x, y := y}) else e) :: updateNodeXY l m x y := by
      unfold updateNodeXY
      rw [List.map_cons]
    rw [hupd, lookupLastRec, ih n]
    by_cases hnm : n = m
    · rw [if_pos hnm, if_pos hnm]
      conv_rhs => rw [lookupLastRec]
      cases ho : lookupLastRec l n with
      | some v => rfl
      | none =>
        by_cases he : e.1 = n
        · have hem : e.1 = m := he.trans hnm
          rw [if_pos hem]
          simp [he]
        · have hem : (if e.1 = m then (e.1, {e.2 with x := x, y := y}) else e).1 = e.1 := by
            by_cases h2 : e.1 = m <;> simp [h2]
          simp [hem, he]
    · rw [if_neg hnm, if_neg hnm]
      conv_rhs => rw [lookupLastRec]
      cases ho : lookupLastRec l n with
      | some v => rfl
      | none =>
        by_cases he : e.1 = n
        · have hem : ¬ e.1 = m := fun h2 => hnm (he.symm.trans h2)
          rw [if_neg hem]
        · have hem : (if e.1 = m then (e.1, {e.2 with x := x, y := y}) else e).1 = e.1 := by
            by_cases h2 : e.1 = m <;> simp [h2]
          simp [hem, he]

theorem lookupLast_updateNodeXY (nodes : List (String × LayoutNode)) (m : String)
    (x y : ℚ) (n : String) :
    lookupLast (updateNodeXY nodes m x y) n =
      if n = m then (lookupLast nodes n).map (fun v => {v with x := x, y := y})
      else lookupLast nodes n := by
  rw [lookupLast_eq_rec, lookupLast_eq_rec, lookupLastRec_updateNodeXY]

theorem sameWVH_refl (nodes : List (String × LayoutNode)) : sameWVH nodes nodes :=
  fun _ => ⟨rfl, rfl, rfl⟩

theorem sameWVH_trans {a b c : List (String × LayoutNode)}
    (h1 : sameWVH a b) (h2 : sameWVH b c) : sameWVH a c :=
  fun n => ⟨(h1 n).1.trans (h2 n).1, (h1 n).2.1.trans (h2 n).2.1,
    (h1 n).2.2.trans (h2 n).2.2⟩

theorem sameWVH_update (nodes : List (String × LayoutNode)) (m : String) (x y : ℚ) :
    sameWVH (updateNodeXY nodes m x y) nodes := by
  intro n
  unfold lookupNodeD
  rw [lookupLast_updateNodeXY]
  by_cases h : n = m
  · rw [if_pos h]
    cases lookupLast nodes n with
    | none => exact ⟨rfl, rfl, rfl⟩
    | some v => exact ⟨rfl, rfl, rfl⟩
  · rw [if_neg h]
    exact ⟨rfl, rfl, rfl⟩

theorem realNodes_congr {nodes' nodes : List (String × LayoutNode)}
    (h : sameWVH nodes' nodes) (rns : List String) :
    realNodes nodes' rns = realNodes nodes rns := by
  unfold realNodes
  refine List.filter_congr ?_
  intro n _
  rw [(h n).2.2]

theorem sumWidths_congr {nodes' nodes : List (String × LayoutNode)}
    (h : sameWVH nodes' nodes) (real : List String) :
    sumWidths nodes' real = sumWidths nodes real := by
  unfold sumWidths
  have main : ∀ (l : List String) (acc : ℚ),
      l.foldl (fun acc n => qadd acc (lookupNodeD nodes' n).width) acc =
        l.foldl (fun acc n => qadd acc (lookupNodeD nodes n).width) acc := by
    intro l
    induction l with
    | nil => intro acc; rfl
    | cons n l ih => intro acc; rw [List.foldl_cons, List.foldl_cons, (h n).1, ih]
  exact main real 0

theorem sumHeights_congr {nodes' nodes : List (String × LayoutNode)}
    (h : sameWVH nodes' nodes) (real : List String) :
    sumHeights nodes' real = sumHeights nodes real := by
  unfold sumHeights
  have main : ∀ (l : List String) (acc : ℚ),
      l.foldl (fun acc n => qadd acc (lookupNodeD nodes' n).height) acc =
        l.foldl (fun acc n => qadd acc (lookupNodeD nodes n).height) acc := by
    intro l
    induction l with
    | nil => intro acc; rfl
    | cons n l ih => intro acc; rw [List.foldl_cons, List.foldl_cons, (h n).2.1, ih]
  exact main real 0

theorem rankTotalW_congr {nodes' nodes : List (String × LayoutNode)}
    (h : sameWVH nodes' nodes) (rns : List String) (spacing : ℚ) :
    rankTotalW nodes' rns spacing = rankTotalW nodes rns spacing := by
  unfold rankTotalW
  rw [realNodes_congr h, sumWidths_congr h]

theorem innerTB_frame (cfg : LayoutEngineConfig) :
    ∀ (rns : List String) (nodes : List (String × LayoutNode)) (xcur ry : ℚ) (m : String),
      m ∉ rns →
      lookupLast (innerTB cfg rns nodes xcur ry) m = lookupLast nodes m := by
  intro rns
  induction rns with
  | nil => intro nodes xcur ry m hm; rfl
  | cons n rest ih =>
    intro nodes xcur ry m hm
    have hm1 : m ≠ n := fun h => hm (h ▸ List.mem_cons_self n rest)
    have hm2 : m ∉ rest := fun h => hm (List.mem_cons_of_mem n h)
    unfold innerTB
    by_cases hv : (lookupNodeD nodes n).is_virtual = true
    · rw [if_pos hv, ih _ _ _ m hm2, lookupLast_updateNodeXY, if_neg hm1]
    · rw [if_neg hv, ih _ _ _ m hm2, lookupLast_updateNodeXY, if_neg hm1]

theorem innerTB_keys (cfg : LayoutEngineConfig) :
    ∀ (rns : List String) (nodes : List (String × LayoutNode)) (xcur ry : ℚ),
      (innerTB cfg rns nodes xcur ry).map (·.1) = nodes.map (·.1) := by
  intro rns
  induction rns with
  | nil => intro nodes xcur ry; rfl
  | cons n rest ih =>
    intro nodes xcur ry
    unfold innerTB
    by_cases hv : (lookupNodeD nodes n).is_virtual = true
    · rw [if_pos hv, ih, updateNodeXY_keys]
    · rw [if_neg hv, ih, updateNodeXY_keys]

theorem innerTB_WVH (cfg : LayoutEngineConfig) :
    ∀ (rns : List String) (nodes : List (String × LayoutNode)) (xcur ry : ℚ),
      sameWVH (innerTB cfg rns nodes xcur ry) nodes := by
  intro rns
  induction rns with
  | nil => intro nodes xcur ry; exact sameWVH_refl nodes
  | cons n rest ih =>
    intro nodes xcur ry
    unfold innerTB
    by_cases hv : (lookupNodeD nodes n).is_virtual = true
    · rw [if_pos hv]
      exact sameWVH_trans (ih _ _ _) (sameWVH_update nodes n xcur ry)
    · rw [if_neg hv]
      exact sameWVH_trans (ih _ _ _) (sameWVH_update nodes n xcur ry)

theorem innerTB_spec (cfg : LayoutEngineConfig) :
    ∀ (rns : List String) (nodes : List (String × LayoutNode)) (xcur ry : ℚ),
      rns.Nodup →
      (∀ n ∈ rns, n ∈ nodes.map (·.1)) →
      ((realNodes nodes rns ≠ [] →
        (lookupNodeD (innerTB cfg rns nodes xcur ry)
            ((realNodes nodes rns).getD 0 "")).x = xcur) ∧
       (∀ i, i + 1 < (realNodes nodes rns).length →
        (lookupNodeD (innerTB cfg rns nodes xcur ry)
            ((realNodes nodes rns).getD (i + 1) "")).x =
          qadd (lookupNodeD (innerTB cfg rns nodes xcur ry)
              ((realNodes nodes rns).getD i "")).x
            (qadd (lookupNodeD nodes ((realNodes nodes rns).getD i "")).width
              cfg.node_spacing))) := by
  intro rns
  induction rns with
  | nil =>
    intro nodes xcur ry hnd hpres
    constructor
    · intro hne; exact absurd rfl hne
    · intro i hlt; simp [realNodes] at hlt
  | cons n rest ih =>
    intro nodes xcur ry hnd hpres
    obtain ⟨hn_nin, hndrest⟩ := List.nodup_cons.mp hnd
    have hpres_n := hpres n (List.mem_cons_self n rest)
    have hWVH := sameWVH_update nodes n xcur ry
    by_cases hv : (lookupNodeD nodes n).is_virtual = true
    · have hstep : innerTB cfg (n :: rest) nodes xcur ry =
          innerTB cfg rest (updateNodeXY nodes n xcur ry) xcur ry := by
        conv_lhs => unfold innerTB
        rw [if_pos hv]
      have hreal : realNodes nodes (n :: rest) = realNodes nodes rest := by
        unfold realNodes
        rw [List.filter_cons, if_neg (by simp [hv])]
      have hreal' : realNodes (updateNodeXY nodes n xcur ry) rest = realNodes nodes rest :=
        realNodes_congr hWVH rest
      rcases ih (updateNodeXY nodes n xcur ry) xcur ry hndrest (by
        intro m hm
        rw [updateNodeXY_keys]
        exact hpres m (List.mem_cons_of_mem n hm)) with ⟨ih1, ih2⟩
      rw [hreal'] at ih1 ih2
      constructor
      · intro hne
        rw [hreal] at hne
        rw [hstep, hreal]
        exact ih1 hne
      · intro i hlt
        rw [hreal] at hlt
        rw [hstep, hreal, ih2 i hlt,
          (hWVH ((realNodes nodes rest).getD i "")).1]
    · have hstep : innerTB cfg (n :: rest) nodes xcur ry =
          innerTB cfg rest (updateNodeXY nodes n xcur ry)
            (qadd xcur (qadd (lookupNodeD nodes n).width cfg.node_spacing)) ry := by
        conv_lhs => unfold innerTB
        rw [if_neg hv]
      have hv' : (lookupNodeD nodes n).is_virtual = false := by
        cases hx : (lookupNodeD nodes n).is_virtual
        · rfl
        · exact absurd hx hv
      have hreal : realNodes nodes (n :: rest) = n :: realNodes nodes rest := by
        unfold realNodes
        rw [List.filter_cons, if_pos (by simp [hv'])]
      have hreal' : realNodes (updateNodeXY nodes n xcur ry) rest = realNodes nodes rest :=
        realNodes_congr hWVH rest
      have hn_final : lookupNodeD (innerTB cfg (n :: rest) nodes xcur ry) n =
          { lookupNodeD nodes n with x := xcur, y := ry } := by
        rcases mem_keys_lookup nodes n hpres_n with ⟨v, hvv⟩
        rw [hstep]
        unfold lookupNodeD
        rw [innerTB_frame cfg rest _ _ _ n hn_nin, lookupLast_updateNodeXY, if_pos rfl, hvv]
        rfl
      rcases ih (updateNodeXY nodes n xcur ry)
        (qadd xcur (qadd (lookupNodeD nodes n).width cfg.node_spacing)) ry
        hndrest (by
          intro m hm
          rw [updateNodeXY_keys]
          exact hpres m (List.mem_cons_of_mem n hm)) with ⟨ih1, ih2⟩
      rw [hreal'] at ih1 ih2
      constructor
      · intro hne
        rw [hreal, List.getD_cons_zero, hn_final]
      · intro i hlt
        rw [hreal] at hlt
        rw [hreal]
        cases i with
        | zero =>
          have hne : realNodes nodes rest ≠ [] := by
            intro h0
            rw [h0] at hlt
            simp at hlt
          rw [List.getD_cons_succ, List.getD_cons_zero, hn_final, hstep]
          exact ih1 hne
        | succ j =>
          have hlt' : j + 1 < (realNodes nodes rest).length := by
            rw [List.length_cons] at hlt
            omega
          rw [List.getD_cons_succ, List.getD_cons_succ, hstep, ih2 j hlt',
            (hWVH ((realNodes nodes rest).getD j "")).1]

theorem innerLR_frame (cfg : LayoutEngineConfig) :
    ∀ (rns : List String) (nodes : List (String × LayoutNode)) (ycur rx : ℚ) (m : String),
      m ∉ rns →
      lookupLast (innerLR cfg rns nodes ycur rx) m = lookupLast nodes m := by
  intro rns
  induction rns with
  | nil => intro nodes ycur rx m hm; rfl
  | cons n rest ih =>
    intro nodes ycur rx m hm
    have hm1 : m ≠ n := fun h => hm (h ▸ List.mem_cons_self n rest)
    have hm2 : m ∉ rest := fun h => hm (List.mem_cons_of_mem n h)
    unfold innerLR
    by_cases hv : (lookupNodeD nodes n).is_virtual = true
    · rw [if_pos hv, ih _ _ _ m hm2, lookupLast_updateNodeXY, if_neg hm1]
    · rw [if_neg hv, ih _ _ _ m hm2, lookupLast_updateNodeXY, if_neg hm1]

theorem innerLR_keys (cfg : LayoutEngineConfig) :
    ∀ (rns : List String) (nodes : List (String × LayoutNode)) (ycur rx : ℚ),
      (innerLR cfg rns nodes ycur rx).map (·.1) = nodes.map (·.1) := by
  intro rns
  induction rns with
  | nil => intro nodes ycur rx; rfl
  | cons n rest ih =>
    intro nodes ycur rx
    unfold innerLR
    by_cases hv : (lookupNodeD nodes n).is_virtual = true
    · rw [if_pos hv, ih, updateNodeXY_keys]
    · rw [if_neg hv, ih, updateNodeXY_keys]

theorem innerLR_WVH (cfg : LayoutEngineConfig) :
    ∀ (rns : List String) (nodes : List (String × LayoutNode)) (ycur rx : ℚ),
      sameWVH (innerLR cfg rns nodes ycur rx) nodes := by
  intro rns
  induction rns with
  | nil => intro nodes ycur rx; exact sameWVH_refl nodes
  | cons n rest ih =>
    intro nodes ycur rx
    unfold innerLR
    by_cases hv : (lookupNodeD nodes n).is_virtual = true
    · rw [if_pos hv]
      exact sameWVH_trans (ih _ _ _) (sameWVH_update nodes n rx ycur)
    · rw [if_neg hv]
      exact sameWVH_trans (ih _ _ _) (sameWVH_update nodes n rx ycur)

theorem innerLR_spec (cfg : LayoutEngineConfig) :
    ∀ (rns : List String) (nodes : List (String × LayoutNode)) (ycur rx : ℚ),
      rns.Nodup →
      (∀ n ∈ rns, n ∈ nodes.map (·.1)) →
      ((realNodes nodes rns ≠ [] →
        (lookupNodeD (innerLR cfg rns nodes ycur rx)
            ((realNodes nodes rns).getD 0 "")).y = ycur) ∧
       (∀ i, i + 1 < (realNodes nodes rns).length →
        (lookupNodeD (innerLR cfg rns nodes ycur rx)
            ((realNodes nodes rns).getD (i + 1) "")).y =
          qadd (lookupNodeD (innerLR cfg rns nodes ycur rx)
              ((realNodes nodes rns).getD i "")).y
            (qadd (lookupNodeD nodes ((realNodes nodes rns).getD i "")).height
              cfg.node_spacing))) := by
  intro rns
  induction rns with
  | nil =>
    intro nodes ycur rx hnd hpres
    constructor
    · intro hne; exact absurd rfl hne
    · intro i hlt; simp [realNodes] at hlt
  | cons n rest ih =>
    intro nodes ycur rx hnd hpres
    obtain ⟨hn_nin, hndrest⟩ := List.nodup_cons.mp hnd
    have hpres_n := hpres n (List.mem_cons_self n rest)
    have hWVH := sameWVH_update nodes n rx ycur
    by_cases hv : (lookupNodeD nodes n).is_virtual = true
    · have hstep : innerLR cfg (n :: rest) nodes ycur rx =
          innerLR cfg rest (updateNodeXY nodes n rx ycur) ycur rx := by
        conv_lhs => unfold innerLR
        rw [if_pos hv]
      have hreal : realNodes nodes (n :: rest) = realNodes nodes rest := by
        unfold realNodes
        rw [List.filter_cons, if_neg (by simp [hv])]
      have hreal' : realNodes (updateNodeXY nodes n rx ycur) rest = realNodes nodes rest :=
        realNodes_congr hWVH rest
      rcases ih (updateNodeXY nodes n rx ycur) ycur rx hndrest (by
        intro m hm
        rw [updateNodeXY_keys]
        exact hpres m (List.mem_cons_of_mem n hm)) with ⟨ih1, ih2⟩
      rw [hreal'] at ih1 ih2
      constructor
      · intro hne
        rw [hreal] at hne
        rw [hstep, hreal]
        exact ih1 hne
      · intro i hlt
        rw [hreal] at hlt
        rw [hstep, hreal, ih2 i hlt,
          (hWVH ((realNodes nodes rest).getD i "")).2.1]
    · have hstep : innerLR cfg (n :: rest) nodes ycur rx =
          innerLR cfg rest (updateNodeXY nodes n rx ycur)
            (qadd ycur (qadd (lookupNodeD nodes n).height cfg.node_spacing)) rx := by
        conv_lhs => unfold innerLR
        rw [if_neg hv]
      have hv' : (lookupNodeD nodes n).is_virtual = false := by
        cases hx : (lookupNodeD nodes n).is_virtual
        · rfl
        · exact absurd hx hv
      have hreal : realNodes nodes (n :: rest) = n :: realNodes nodes rest := by
        unfold realNodes
        rw [List.filter_cons, if_pos (by simp [hv'])]
      have hreal' : realNodes (updateNodeXY nodes n rx ycur) rest = realNodes nodes rest :=
        realNodes_congr hWVH rest
      have hn_final : lookupNodeD (innerLR cfg (n :: rest) nodes ycur rx) n =
          { lookupNodeD nodes n with x := rx, y := ycur } := by
        rcases mem_keys_lookup nodes n hpres_n with ⟨v, hvv⟩
        rw [hstep]
        unfold lookupNodeD
        rw [innerLR_frame cfg rest _ _ _ n hn_nin, lookupLast_updateNodeXY, if_pos rfl, hvv]
        rfl
      rcases ih (updateNodeXY nodes n rx ycur)
        (qadd ycur (qadd (lookupNodeD nodes n).height cfg.node_spacing)) rx
        hndrest (by
          intro m hm
          rw [updateNodeXY_keys]
          exact hpres m (List.mem_cons_of_mem n hm)) with ⟨ih1, ih2⟩
      rw [hreal'] at ih1 ih2
      constructor
      · intro hne
        rw [hreal, List.getD_cons_zero, hn_final]
      · intro i hlt
        rw [hreal] at hlt
        rw [hreal]
        cases i with
        | zero =>
          have hne : realNodes nodes rest ≠ [] := by
            intro h0
            rw [h0] at hlt
            simp at hlt
          rw [List.getD_cons_succ, List.getD_cons_zero, hn_final, hstep]
          exact ih1 hne
        | succ j =>
          have hlt' : j + 1 < (realNodes nodes rest).length := by
            rw [List.length_cons] at hlt
            omega
          rw [List.getD_cons_succ, List.getD_cons_succ, hstep, ih2 j hlt',
            (hWVH ((realNodes nodes rest).getD j "")).2.1]

theorem insertSorted_perm (p : ℤ × List String) :
    ∀ l : List (ℤ × List String), (insertSorted p l).Perm (p :: l) := by
  intro l
  induction l with
  | nil => exact List.Perm.refl _
  | cons q rest ih =>
    unfold insertSorted
    by_cases h : p.1 ≤ q.1
    · rw [if_pos h]
    · rw [if_neg h]
      exact (List.Perm.cons q ih).trans (List.Perm.swap p q rest)

theorem sortByKey_perm : ∀ l : List (ℤ × List String), (sortByKey l).Perm l := by
  intro l
  induction l with
  | nil => exact List.Perm.refl _
  | cons p rest ih =>
    unfold sortByKey
    exact (insertSorted_perm p (sortByKey rest)).trans (List.Perm.cons p ih)

theorem assignLoop_frame (cfg : LayoutEngineConfig) (direction : String) (mrw : ℚ)
    (ro : List (ℤ × ℚ)) :
    ∀ (items : List (ℤ × List String)) (nodes : List (String × LayoutNode)) (m : String),
      (∀ it ∈ items, m ∉ it.2) →
      lookupLast (assignLoop cfg direction mrw ro items nodes) m = lookupLast nodes m := by
  intro items
  induction items with
  | nil => intro nodes m hm; rfl
  | cons rk rest ih =>
    intro nodes m hm
    have hm0 : m ∉ rk.2 := hm rk (List.mem_cons_self rk rest)
    have hmr : ∀ it ∈ rest, m ∉ it.2 := fun it hit => hm it (List.mem_cons_of_mem rk hit)
    conv_lhs => unfold assignLoop
    by_cases hd : direction = "TB" ∨ direction = "BT"
    · rw [if_pos hd, ih _ m hmr, innerTB_frame cfg rk.2 _ _ _ m hm0]
    · rw [if_neg hd, ih _ m hmr, innerLR_frame cfg rk.2 _ _ _ m hm0]

theorem assignLoop_keys (cfg : LayoutEngineConfig) (direction : String) (mrw : ℚ)
    (ro : List (ℤ × ℚ)) :
    ∀ (items : List (ℤ × List String)) (nodes : List (String × LayoutNode)),
      (assignLoop cfg direction mrw ro items nodes).map (·.1) = nodes.map (·.1) := by
  intro items
  induction items with
  | nil => intro nodes; rfl
  | cons rk rest ih =>
    intro nodes
    conv_lhs => unfold assignLoop
    by_cases hd : direction = "TB" ∨ direction = "BT"
    · rw [if_pos hd, ih, innerTB_keys]
    · rw [if_neg hd, ih, innerLR_keys]

theorem assignLoop_WVH (cfg : LayoutEngineConfig) (direction : String) (mrw : ℚ)
    (ro : List (ℤ × ℚ)) :
    ∀ (items : List (ℤ × List String)) (nodes : List (String × LayoutNode)),
      sameWVH (assignLoop cfg direction mrw ro items nodes) nodes := by
  intro items
  induction items with
  | nil => intro nodes; exact sameWVH_refl nodes
  | cons rk rest ih =>
    intro nodes
    unfold assignLoop
    by_cases hd : direction = "TB" ∨ direction = "BT"
    · rw [if_pos hd]
      exact sameWVH_trans (ih _) (innerTB_WVH cfg rk.2 nodes _ _)
    · rw [if_neg hd]
      exact sameWVH_trans (ih _) (innerLR_WVH cfg rk.2 nodes _ _)

theorem assignLoop_spec_TB (cfg : LayoutEngineConfig) (direction : String) (mrw : ℚ)
    (ro : List (ℤ × ℚ)) (hd : direction = "TB" ∨ direction = "BT") :
    ∀ (items : List (ℤ × List String)) (nodes : List (String × LayoutNode))
      (r0 : ℤ) (rns0 : List String),
      ((items.map (·.2)).flatten).Nodup →
      (r0, rns0) ∈ items →
      (∀ n ∈ rns0, n ∈ nodes.map (·.1)) →
      ((realNodes nodes rns0 ≠ [] →
        (lookupNodeD (assignLoop cfg direction mrw ro items nodes)
            ((realNodes nodes rns0).getD 0 "")).x =
          qadd cfg.start_x (qdiv (qsub mrw (rankTotalW nodes rns0 cfg.node_spacing)) 2)) ∧
       (∀ i, i + 1 < (realNodes nodes rns0).length →
        (lookupNodeD (assignLoop cfg direction mrw ro items nodes)
            ((realNodes nodes rns0).getD (i + 1) "")).x =
          qadd (lookupNodeD (assignLoop cfg direction mrw ro items nodes)
              ((realNodes nodes rns0).getD i "")).x
            (qadd (lookupNodeD (assignLoop cfg direction mrw ro items nodes)
                ((realNodes nodes rns0).getD i "")).width
              cfg.node_spacing))) := by
  intro items
  induction items with
  | nil => intro nodes r0 rns0 hnd hmem hpres; exact absurd hmem (List.not_mem_nil _)
  | cons rk rest ih =>
    intro nodes r0 rns0 hnd hmem hpres
    rw [List.map_cons, List.flatten_cons] at hnd
    obtain ⟨hnd0, hndrest, hdisj⟩ := List.nodup_append.mp hnd
    have hstep : assignLoop cfg direction mrw ro (rk :: rest) nodes =
        assignLoop cfg direction mrw ro rest
          (innerTB cfg rk.2 nodes
            (qadd cfg.start_x
              (qdiv (qsub mrw (rankTotalW nodes rk.2 cfg.node_spacing)) 2))
            (offsetOf ro rk.1)) := by
      conv_lhs => unfold assignLoop
      rw [if_pos hd]
    rcases List.mem_cons.mp hmem with heq | hmem'
    · rw [← heq] at hstep hnd0 hdisj
      rw [← heq]
      dsimp only at hstep hnd0 hdisj
      obtain ⟨hsp1, hsp2⟩ := innerTB_spec cfg rns0 nodes
        (qadd cfg.start_x (qdiv (qsub mrw (rankTotalW nodes rns0 cfg.node_spacing)) 2))
        (offsetOf ro r0) hnd0 hpres
      have hfr : ∀ lbl, lbl ∈ rns0 →
          lookupNodeD (assignLoop cfg direction mrw ro rest
            (innerTB cfg rns0 nodes
              (qadd cfg.start_x
                (qdiv (qsub mrw (rankTotalW nodes rns0 cfg.node_spacing)) 2))
              (offsetOf ro r0))) lbl =
          lookupNodeD (innerTB cfg rns0 nodes
              (qadd cfg.start_x
                (qdiv (qsub mrw (rankTotalW nodes rns0 cfg.node_spacing)) 2))
              (offsetOf ro r0)) lbl := by
        intro lbl hlbl
        unfold lookupNodeD
        rw [assignLoop_frame cfg direction mrw ro rest _ lbl (by
          intro it hit hmemit
          exact hdisj hlbl
            (List.mem_flatten.mpr ⟨it.2, List.mem_map.mpr ⟨it, hit, rfl⟩, hmemit⟩))]
      constructor
      · intro hne
        have h0mem : (realNodes nodes rns0).getD 0 "" ∈ rns0 :=
          List.mem_of_mem_filter (getD_mem_of_lt _ 0 "" (List.length_pos.mpr hne))
        rw [hstep, hfr _ h0mem]
        exact hsp1 hne
      · intro i hlt
        have hmem1 : (realNodes nodes rns0).getD (i + 1) "" ∈ rns0 :=
          List.mem_of_mem_filter (getD_mem_of_lt _ (i + 1) "" hlt)
        have hmem2 : (realNodes nodes rns0).getD i "" ∈ rns0 :=
          List.mem_of_mem_filter (getD_mem_of_lt (realNodes nodes rns0) i "" (by omega))
        rw [hstep, hfr _ hmem1, hfr _ hmem2, hsp2 i hlt,
          (innerTB_WVH cfg rns0 nodes
            (qadd cfg.start_x
              (qdiv (qsub mrw (rankTotalW nodes rns0 cfg.node_spacing)) 2))
            (offsetOf ro r0) ((realNodes nodes rns0).getD i "")).1]
    · have hpres' : ∀ n ∈ rns0, n ∈ (innerTB cfg rk.2 nodes
          (qadd cfg.start_x
            (qdiv (qsub mrw (rankTotalW nodes rk.2 cfg.node_spacing)) 2))
          (offsetOf ro rk.1)).map (·.1) := by
        intro n hn
        rw [innerTB_keys]
        exact hpres n hn
      have hWVH := innerTB_WVH cfg rk.2 nodes
        (qadd cfg.start_x
          (qdiv (qsub mrw (rankTotalW nodes rk.2 cfg.node_spacing)) 2))
        (offsetOf ro rk.1)
      obtain ⟨ih1, ih2⟩ := ih (innerTB cfg rk.2 nodes
        (qadd cfg.start_x
          (qdiv (qsub mrw (rankTotalW nodes rk.2 cfg.node_spacing)) 2))
        (offsetOf ro rk.1)) r0 rns0 hndrest hmem' hpres'
      rw [realNodes_congr hWVH rns0, rankTotalW_congr hWVH rns0 cfg.node_spacing] at ih1
      rw [realNodes_congr hWVH rns0] at ih2
      rw [hstep]
      exact ⟨ih1, ih2⟩

theorem assignLoop_spec_LR (cfg : LayoutEngineConfig) (direction : String) (mrw : ℚ)
    (ro : List (ℤ × ℚ)) (hd : ¬ (direction = "TB" ∨ direction = "BT")) :
    ∀ (items : List (ℤ × List String)) (nodes : List (String × LayoutNode))
      (r0 : ℤ) (rns0 : List String),
      ((items.map (·.2)).flatten).Nodup →
      (r0, rns0) ∈ items →
      (∀ n ∈ rns0, n ∈ nodes.map (·.1)) →
      ((realNodes nodes rns0 ≠ [] →
        (lookupNodeD (assignLoop cfg direction mrw ro items nodes)
            ((realNodes nodes rns0).getD 0 "")).y = cfg.start_y) ∧
       (∀ i, i + 1 < (realNodes nodes rns0).length →
        (lookupNodeD (assignLoop cfg direction mrw ro items nodes)
            ((realNodes nodes rns0).getD (i + 1) "")).y =
          qadd (lookupNodeD (assignLoop cfg direction mrw ro items nodes)
              ((realNodes nodes rns0).getD i "")).y
            (qadd (lookupNodeD (assignLoop cfg direction mrw ro items nodes)
                ((realNodes nodes rns0).getD i "")).height
              cfg.node_spacing))) := by
  intro items
  induction items with
  | nil => intro nodes r0 rns0 hnd hmem hpres; exact absurd hmem (List.not_mem_nil _)
  | cons rk rest ih =>
    intro nodes r0 rns0 hnd hmem hpres
    rw [List.map_cons, List.flatten_cons] at hnd
    obtain ⟨hnd0, hndrest, hdisj⟩ := List.nodup_append.mp hnd
    have hstep : assignLoop cfg direction mrw ro (rk :: rest) nodes =
        assignLoop cfg direction mrw ro rest
          (innerLR cfg rk.2 nodes cfg.start_y (offsetOf ro rk.1)) := by
      conv_lhs => unfold assignLoop
      rw [if_neg hd]
    rcases List.mem_cons.mp hmem with heq | hmem'
    · rw [← heq] at hstep hnd0 hdisj
      rw [← heq]
      dsimp only at hstep hnd0 hdisj
      obtain ⟨hsp1, hsp2⟩ := innerLR_spec cfg rns0 nodes cfg.start_y
        (offsetOf ro r0) hnd0 hpres
      have hfr : ∀ lbl, lbl ∈ rns0 →
          lookupNodeD (assignLoop cfg direction mrw ro rest
            (innerLR cfg rns0 nodes cfg.start_y (offsetOf ro r0))) lbl =
          lookupNodeD (innerLR cfg rns0 nodes cfg.start_y (offsetOf ro r0)) lbl := by
        intro lbl hlbl
        unfold lookupNodeD
        rw [assignLoop_frame cfg direction mrw ro rest _ lbl (by
          intro it hit hmemit
          exact hdisj hlbl
            (List.mem_flatten.mpr ⟨it.2, List.mem_map.mpr ⟨it, hit, rfl⟩, hmemit⟩))]
      constructor
      · intro hne
        have h0mem : (realNodes nodes rns0).getD 0 "" ∈ rns0 :=
          List.mem_of_mem_filter (getD_mem_of_lt _ 0 "" (List.length_pos.mpr hne))
        rw [hstep, hfr _ h0mem]
        exact hsp1 hne
      · intro i hlt
        have hmem1 : (realNodes nodes rns0).getD (i + 1) "" ∈ rns0 :=
          List.mem_of_mem_filter (getD_mem_of_lt _ (i + 1) "" hlt)
        have hmem2 : (realNodes nodes rns0).getD i "" ∈ rns0 :=
          List.mem_of_mem_filter (getD_mem_of_lt (realNodes nodes rns0) i "" (by omega))
        rw [hstep, hfr _ hmem1, hfr _ hmem2, hsp2 i hlt,
          (innerLR_WVH cfg rns0 nodes cfg.start_y (offsetOf ro r0)
            ((realNodes nodes rns0).getD i "")).2.1]
    · have hpres' : ∀ n ∈ rns0, n ∈ (innerLR cfg rk.2 nodes cfg.start_y
          (offsetOf ro rk.1)).map (·.1) := by
        intro n hn
        rw [innerLR_keys]
        exact hpres n hn
      have hWVH := innerLR_WVH cfg rk.2 nodes cfg.start_y (offsetOf ro rk.1)
      obtain ⟨ih1, ih2⟩ := ih (innerLR cfg rk.2 nodes cfg.start_y (offsetOf ro rk.1))
        r0 rns0 hndrest hmem' hpres'
      rw [realNodes_congr hWVH rns0] at ih1
      rw [realNodes_congr hWVH rns0] at ih2
      rw [hstep]
      exact ⟨ih1, ih2⟩

/-- C10, applied to a concrete diagram with unique ids and no overlap: the
shape map is preserved, the non-vertex root cell and the quiet vertex are
returned exactly as given. -/
theorem C10_frame_witness :
    (((resolve_overlaps c1Wdiagram 20 50).1).cells.map cellShape =
        c1Wdiagram.cells.map cellShape) ∧
    ((c1Wdiagram.cells.map (fun c => c.id)).Nodup ∧
      ((resolve_overlaps c1Wdiagram 20 50).1).cells.getD 0 dfltCell =
        c1Wdiagram.cells.getD 0 dfltCell) ∧
    ((resolve_overlaps c1Wdiagram 20 50).1).cells.getD 2 dfltCell =
      c1Wdiagram.cells.getD 2 dfltCell :=
  ⟨(C10_frame c1Wdiagram 20 50).1.1,
   ⟨by decide, (C10_frame c1Wdiagram 20 50).2.1 (by decide) 0 (by decide) (by decide)⟩,
   (C10_frame c1Wdiagram 20 50).2.2 2 (by decide)⟩

/-- C8: the claim as stated is false — in the LR direction the
within-rank cursor starts at `start_y` with no centering offset, so on
`c8ByRank`/`c8Nodes` the single node of rank 0 lands at y = 80 although
centering it against the widest rank (total extent 180 against its own
60) would put it at y = 80 + (180 - 60)/2 = 140. -/
theorem C8_counterexample :
    (lookupNodeD (assign_coordinates c8ByRank c8Nodes dfltConfig "LR") "A").y = 80 ∧
    maxRankTotalH c8ByRank c8Nodes dfltConfig.node_spacing = 180 ∧
    rankTotalH c8Nodes ["A"] dfltConfig.node_spacing = 60 ∧
    ¬ C8Statement := by
  refine ⟨by decide, by decide, by decide, fun hcl => ?_⟩
  have h := (hcl c8ByRank c8Nodes dfltConfig "LR" 0 ["A"]
    (Or.inr (Or.inr (Or.inl rfl))) (by decide) (by decide) (by decide)).2 (by decide)
  rw [if_neg (by decide)] at h
  rw [show (realNodes c8Nodes ["A"]).getD 0 "" = "A" from by decide] at h
  rw [show (lookupNodeD (assign_coordinates c8ByRank c8Nodes dfltConfig "LR") "A").y =
      (80 : ℚ) from by decide] at h
  rw [show maxRankTotalH c8ByRank c8Nodes dfltConfig.node_spacing = (180 : ℚ) from by decide,
    show rankTotalH c8Nodes ["A"] dfltConfig.node_spacing = (60 : ℚ) from by decide,
    show dfltConfig.start_y = (80 : ℚ) from rfl] at h
  norm_num at h

/-- C8 amended: within every rank the real nodes are placed consecutively
along the cross axis separated by the node spacing in all four directions;
in TB/BT the rank's first real node is offset from `start_x` by half the
difference between the widest rank's total width and the rank's own, while
in LR/RL the first real node always starts at `start_y` — the vertical
arrangement has no centering. -/
theorem C8_amended :
    ∀ (by_rank : List (ℤ × List String)) (nodes : List (String × LayoutNode))
      (cfg : LayoutEngineConfig) (direction : String) (r : ℤ) (rns : List String),
      ((by_rank.map (·.2)).flatten).Nodup →
      (∀ n ∈ rns, n ∈ nodes.map (·.1)) →
      (r, rns) ∈ by_rank →
      (∀ i, i + 1 < (realNodes nodes rns).length →
        (if direction = "TB" ∨ direction = "BT" then
          (lookupNodeD (assign_coordinates by_rank nodes cfg direction)
              ((realNodes nodes rns).getD (i + 1) "")).x =
            (lookupNodeD (assign_coordinates by_rank nodes cfg direction)
                ((realNodes nodes rns).getD i "")).x +
              (lookupNodeD nodes ((realNodes nodes rns).getD i "")).width +
              cfg.node_spacing
        else
          (lookupNodeD (assign_coordinates by_rank nodes cfg direction)
              ((realNodes nodes rns).getD (i + 1) "")).y =
            (lookupNodeD (assign_coordinates by_rank nodes cfg direction)
                ((realNodes nodes rns).getD i "")).y +
              (lookupNodeD nodes ((realNodes nodes rns).getD i "")).height +
              cfg.node_spacing)) ∧
      (realNodes nodes rns ≠ [] →
        (if direction = "TB" ∨ direction = "BT" then
          (lookupNodeD (assign_coordinates by_rank nodes cfg direction)
              ((realNodes nodes rns).getD 0 "")).x =
            cfg.start_x + (maxRankWidth by_rank nodes cfg.node_spacing -
              rankTotalW nodes rns cfg.node_spacing) / 2
        else
          (lookupNodeD (assign_coordinates by_rank nodes cfg direction)
              ((realNodes nodes rns).getD 0 "")).y = cfg.start_y)) := by
  intro by_rank nodes cfg direction r rns hnd hpres hmem
  have hperm := sortByKey_perm by_rank
  have hnd' : (((sortByKey by_rank).map (·.2)).flatten).Nodup :=
    (List.Perm.nodup_iff (List.Perm.flatten (List.Perm.map _ hperm))).mpr hnd
  have hmem' : (r, rns) ∈ sortByKey by_rank := (List.Perm.mem_iff hperm).mpr hmem
  have hW := assignLoop_WVH cfg direction (maxRankWidth by_rank nodes cfg.node_spacing)
    (if direction = "TB" ∨ direction = "BT" then
      rankOffsetsH nodes cfg
        (if direction = "TB" then sortByKey by_rank else sortByKeyDesc by_rank)
        cfg.start_y
    else
      rankOffsetsW nodes cfg
        (if direction = "LR" then sortByKey by_rank else sortByKeyDesc by_rank)
        cfg.start_x)
    (sortByKey by_rank) nodes
  by_cases hd : direction = "TB" ∨ direction = "BT"
  · obtain ⟨h1, h2⟩ := assignLoop_spec_TB cfg direction
      (maxRankWidth by_rank nodes cfg.node_spacing)
      (if direction = "TB" ∨ direction = "BT" then
        rankOffsetsH nodes cfg
          (if direction = "TB" then sortByKey by_rank else sortByKeyDesc by_rank)
          cfg.start_y
      else
        rankOffsetsW nodes cfg
          (if direction = "LR" then sortByKey by_rank else sortByKeyDesc by_rank)
          cfg.start_x)
      hd (sortByKey by_rank) nodes r rns hnd' hmem' hpres
    constructor
    · intro i hlt
      rw [if_pos hd]
      have h2i := h2 i hlt
      rw [(hW ((realNodes nodes rns).getD i "")).1] at h2i
      unfold assign_coordinates
      rw [h2i]
      simp only [qadd_eq]
      ring
    · intro hne
      rw [if_pos hd]
      unfold assign_coordinates
      rw [h1 hne]
      simp only [qadd_eq, qdiv_eq, qsub_eq]
  · obtain ⟨h1, h2⟩ := assignLoop_spec_LR cfg direction
      (maxRankWidth by_rank nodes cfg.node_spacing)
      (if direction = "TB" ∨ direction = "BT" then
        rankOffsetsH nodes cfg
          (if direction = "TB" then sortByKey by_rank else sortByKeyDesc by_rank)
          cfg.start_y
      else
        rankOffsetsW nodes cfg
          (if direction = "LR" then sortByKey by_rank else sortByKeyDesc by_rank)
          cfg.start_x)
      hd (sortByKey by_rank) nodes r rns hnd' hmem' hpres
    constructor
    · intro i hlt
      rw [if_neg hd]
      have h2i := h2 i hlt
      rw [(hW ((realNodes nodes rns).getD i "")).2.1] at h2i
      unfold assign_coordinates
      rw [h2i]
      simp only [qadd_eq]
      ring
    · intro hne
      rw [if_neg hd]
      unfold assign_coordinates
      rw [h1 hne]

/-- C8 amended, applied to the concrete LR fixture: the rank-0 node is
placed exactly at `start_y`. -/
theorem C8_amended_witness :
    ((c8ByRank.map (·.2)).flatten).Nodup ∧
    (lookupNodeD (assign_coordinates c8ByRank c8Nodes dfltConfig "LR") "A").y =
      dfltConfig.start_y := by
  refine ⟨by decide, ?_⟩
  have h := (C8_amended c8ByRank c8Nodes dfltConfig "LR" 0 ["A"] (by decide) (by decide)
    (by decide)).2 (by decide)
  rw [if_neg (by decide)] at h
  rw [show (realNodes c8Nodes ["A"]).getD 0 "" = "A" from by decide] at h
  exact h

set_option maxRecDepth 4000 in
/-- C6: the claim as stated is false — on the `c2Src`/`c2Tgt`/`c2Obstacles`
instance the router returns consecutive waypoints (60, 180) and (70, 300),
which differ on both axes: a diagonal segment. -/
theorem C6_counterexample :
    (route_orthogonal_astar 50 c2Src c2Tgt c2Obstacles 15 10).getD 3 ⟨0, 0⟩ =
      (⟨60, 180⟩ : Pt) ∧
    (route_orthogonal_astar 50 c2Src c2Tgt c2Obstacles 15 10).getD 4 ⟨0, 0⟩ =
      (⟨70, 300⟩ : Pt) ∧
    ¬ C6Statement := by
  have key : (route_orthogonal_astar 50 c2Src c2Tgt c2Obstacles 15 10).getD 3 ⟨0, 0⟩ =
      (⟨60, 180⟩ : Pt) ∧
      (route_orthogonal_astar 50 c2Src c2Tgt c2Obstacles 15 10).getD 4 ⟨0, 0⟩ =
        (⟨70, 300⟩ : Pt) ∧
      3 + 1 < (route_orthogonal_astar 50 c2Src c2Tgt c2Obstacles 15 10).length ∧
      ¬ (((route_orthogonal_astar 50 c2Src c2Tgt c2Obstacles 15 10).getD (3 + 1)
            ⟨0, 0⟩).x =
          ((route_orthogonal_astar 50 c2Src c2Tgt c2Obstacles 15 10).getD 3 ⟨0, 0⟩).x ∨
        ((route_orthogonal_astar 50 c2Src c2Tgt c2Obstacles 15 10).getD (3 + 1)
            ⟨0, 0⟩).y =
          ((route_orthogonal_astar 50 c2Src c2Tgt c2Obstacles 15 10).getD 3 ⟨0, 0⟩).y) := by
    decide
  exact ⟨key.1, key.2.1, fun hcl =>
    key.2.2.2 (hcl 50 c2Src c2Tgt c2Obstacles 15 10 3 key.2.2.1)⟩

set_option maxRecDepth 4000 in
/-- C2: the claim as stated is false — on the same instance the returned
segment from (70, 300) to (70, 500) crosses the full-margin-expanded boxes
of two obstacles (the router only checks half-margin clearance, and the
final grid snap moves the path further). -/
theorem C2_counterexample :
    (route_orthogonal_astar 50 c2Src c2Tgt c2Obstacles 15 10).getD 4 ⟨0, 0⟩ =
      (⟨70, 300⟩ : Pt) ∧
    (route_orthogonal_astar 50 c2Src c2Tgt c2Obstacles 15 10).getD 5 ⟨0, 0⟩ =
      (⟨70, 500⟩ : Pt) ∧
    ¬ C2Statement := by
  have key : (route_orthogonal_astar 50 c2Src c2Tgt c2Obstacles 15 10).getD 4 ⟨0, 0⟩ =
      (⟨70, 300⟩ : Pt) ∧
      (route_orthogonal_astar 50 c2Src c2Tgt c2Obstacles 15 10).getD 5 ⟨0, 0⟩ =
        (⟨70, 500⟩ : Pt) ∧
      4 + 1 < (route_orthogonal_astar 50 c2Src c2Tgt c2Obstacles 15 10).length ∧
      ¬ (any_obstacle_on_segment
          ((route_orthogonal_astar 50 c2Src c2Tgt c2Obstacles 15 10).getD 4 ⟨0, 0⟩).x
          ((route_orthogonal_astar 50 c2Src c2Tgt c2Obstacles 15 10).getD 4 ⟨0, 0⟩).y
          ((route_orthogonal_astar 50 c2Src c2Tgt c2Obstacles 15 10).getD (4 + 1)
            ⟨0, 0⟩).x
          ((route_orthogonal_astar 50 c2Src c2Tgt c2Obstacles 15 10).getD (4 + 1)
            ⟨0, 0⟩).y
          c2Obstacles 15 = false) := by
    decide
  exact ⟨key.1, key.2.1, fun hcl =>
    key.2.2.2 (hcl 50 c2Src c2Tgt c2Obstacles 15 10 4 key.2.2.1)⟩

/-! ### Lemmas for the router's clearance and orthogonality -/

theorem getD_map_gen {α β : Type} (f : α → β) (l : List α) (n : Nat) (d : α) :
    (l.map f).getD n (f d) = f (l.getD n d) := by
  rw [List.getD_eq_getElem?_getD, List.getD_eq_getElem?_getD, List.getElem?_map]
  cases l[n]? <;> simp

theorem lookupFirstN_mem {α : Type} :
    ∀ (l : List ((Nat × Nat) × α)) (k : Nat × Nat) (v : α),
      lookupFirstN l k = some v → (k, v) ∈ l := by
  intro l
  induction l with
  | nil => intro k v h; exact Option.noConfusion h
  | cons e l ih =>
    intro k v h
    rw [lookupFirstN] at h
    by_cases he : e.1 = k
    · rw [if_pos he] at h
      cases h
      have hkv : (k, e.2) = e := by rw [← he]
      rw [hkv]
      exact List.mem_cons_self e l
    · rw [if_neg he] at h
      exact List.mem_cons_of_mem e (ih k v h)

theorem heapPush_mem (e : ℚ × (Nat × Nat)) :
    ∀ (l : List (ℚ × (Nat × Nat))) (x : ℚ × (Nat × Nat)),
      x ∈ heapPush e l → x = e ∨ x ∈ l := by
  intro l
  induction l with
  | nil => intro x hx; exact Or.inl (List.mem_singleton.mp hx)
  | cons a rest ih =>
    intro x hx
    rw [heapPush] at hx
    by_cases hc : heapLe e a = true
    · rw [if_pos hc] at hx
      rcases List.mem_cons.mp hx with h | h
      · exact Or.inl h
      · exact Or.inr h
    · rw [if_neg hc] at hx
      rcases List.mem_cons.mp hx with h | h
      · exact Or.inr (h ▸ List.mem_cons_self a rest)
      · rcases ih x h with h2 | h2
        · exact Or.inl h2
        · exact Or.inr (List.mem_cons_of_mem a h2)

theorem pymin_le_left (a b : ℚ) : pymin a b ≤ a := by
  by_cases h : a ≤ b
  · rw [pymin, if_pos h]
  · rw [pymin, if_neg h]
    linarith [not_le.mp h]

theorem pymin_le_right (a b : ℚ) : pymin a b ≤ b := by
  by_cases h : a ≤ b
  · rw [pymin, if_pos h]; exact h
  · rw [pymin, if_neg h]

theorem le_pymax_left (a b : ℚ) : a ≤ pymax a b := by
  by_cases h : b ≤ a
  · rw [pymax, if_pos h]
  · rw [pymax, if_neg h]
    linarith [not_le.mp h]

theorem le_pymax_right (a b : ℚ) : b ≤ pymax a b := by
  by_cases h : b ≤ a
  · rw [pymax, if_pos h]; exact h
  · rw [pymax, if_neg h]

theorem foldl_pymin_le {α : Type} (f : α → ℚ) :
    ∀ (l : List α) (init : ℚ),
      l.foldl (fun acc v => pymin acc (f v)) init ≤ init ∧
      ∀ x ∈ l, l.foldl (fun acc v => pymin acc (f v)) init ≤ f x := by
  intro l
  induction l with
  | nil =>
    intro init
    exact ⟨le_refl _, fun x hx => absurd hx (List.not_mem_nil x)⟩
  | cons a rest ih =>
    intro init
    rw [List.foldl_cons]
    constructor
    · exact le_trans (ih (pymin init (f a))).1 (pymin_le_left init (f a))
    · intro x hx
      rcases List.mem_cons.mp hx with h | h
      · rw [h]
        exact le_trans (ih (pymin init (f a))).1 (pymin_le_right init (f a))
      · exact (ih (pymin init (f a))).2 x h

theorem foldl_pymax_ge {α : Type} (f : α → ℚ) :
    ∀ (l : List α) (init : ℚ),
      init ≤ l.foldl (fun acc v => pymax acc (f v)) init ∧
      ∀ x ∈ l, f x ≤ l.foldl (fun acc v => pymax acc (f v)) init := by
  intro l
  induction l with
  | nil =>
    intro init
    exact ⟨le_refl _, fun x hx => absurd hx (List.not_mem_nil x)⟩
  | cons a rest ih =>
    intro init
    rw [List.foldl_cons]
    constructor
    · exact le_trans (le_pymax_left init (f a)) (ih (pymax init (f a))).1
    · intro x hx
      rcases List.mem_cons.mp hx with h | h
      · rw [h]
        exact le_trans (le_pymax_right init (f a)) (ih (pymax init (f a))).1
      · exact (ih (pymax init (f a))).2 x h

theorem insertUnique_ne_nil (v : ℚ) : ∀ l : List ℚ, insertUnique v l ≠ [] := by
  intro l
  cases l with
  | nil => simp [insertUnique]
  | cons a rest =>
    unfold insertUnique
    by_cases h1 : v < a
    · rw [if_pos h1]; simp
    · rw [if_neg h1]
      by_cases h2 : v = a
      · rw [if_pos h2]; simp
      · rw [if_neg h2]; simp

theorem sortedDedup_ne_nil : ∀ l : List ℚ, l ≠ [] → sortedDedup l ≠ [] := by
  have step : ∀ (l : List ℚ) (acc : List ℚ), acc ≠ [] →
      l.foldl (fun acc v => insertUnique v acc) acc ≠ [] := by
    intro l
    induction l with
    | nil => intro acc h; exact h
    | cons a rest ih =>
      intro acc h
      rw [List.foldl_cons]
      exact ih _ (insertUnique_ne_nil a acc)
  intro l hl
  cases l with
  | nil => exact absurd rfl hl
  | cons a rest =>
    unfold sortedDedup
    rw [List.foldl_cons]
    exact step rest _ (insertUnique_ne_nil a [])

theorem allPairs_mem (nx ny : Nat) (p : Nat × Nat) (h : p ∈ allPairs nx ny) :
    p.1 < nx ∧ p.2 < ny := by
  unfold allPairs at h
  rcases List.mem_flatMap.mp h with ⟨xi, hxi, hmem⟩
  rcases List.mem_map.mp hmem with ⟨yi, hyi, hpy⟩
  rw [← hpy]
  exact ⟨List.mem_range.mp hxi, List.mem_range.mp hyi⟩

theorem closestFold_inbounds (xs ys : List ℚ) (obstacles : List CellBounds)
    (margin : ℚ) (px py : ℚ) :
    ∀ (l : List (Nat × Nat)) (acc : Option ((Nat × Nat) × ℚ)),
      (∀ pr ∈ l, NodeInBounds xs ys pr) →
      (∀ b, acc = some b → NodeInBounds xs ys b.1) →
      ∀ b, closestFold xs ys obstacles margin px py l acc = some b →
        NodeInBounds xs ys b.1 := by
  intro l
  induction l with
  | nil => intro acc hl hacc b hb; exact hacc b hb
  | cons pr rest ih =>
    intro acc hl hacc b hb
    have hlrest : ∀ q ∈ rest, NodeInBounds xs ys q :=
      fun q hq => hl q (List.mem_cons_of_mem pr hq)
    have hprb : NodeInBounds xs ys pr := hl pr (List.mem_cons_self pr rest)
    unfold closestFold at hb
    by_cases hbl : routerBlocked obstacles margin (xs.getD pr.1 0) (ys.getD pr.2 0) = true
    · rw [if_pos hbl] at hb
      exact ih acc hlrest hacc b hb
    · rw [if_neg hbl] at hb
      cases hacc2 : acc with
      | none =>
        rw [hacc2] at hb
        exact ih _ hlrest (fun b2 hb2 => by
          cases hb2
          exact hprb) b hb
      | some best =>
        rw [hacc2] at hb
        dsimp only at hb
        by_cases hlt : qadd (pyabs (qsub (xs.getD pr.1 0) px))
            (pyabs (qsub (ys.getD pr.2 0) py)) < best.2
        · rw [if_pos hlt] at hb
          exact ih _ hlrest (fun b2 hb2 => by
            cases hb2
            exact hprb) b hb
        · rw [if_neg hlt] at hb
          exact ih _ hlrest (fun b2 hb2 => by
            cases hb2
            exact hacc (best.1, best.2) (by rw [hacc2])) b hb

theorem closest_node_inbounds (xs ys : List ℚ) (obstacles : List CellBounds)
    (margin : ℚ) (px py : ℚ) (hx : xs ≠ []) (hy : ys ≠ []) :
    NodeInBounds xs ys (closest_node xs ys obstacles margin px py) := by
  unfold closest_node
  cases hcf : closestFold xs ys obstacles margin px py
      (allPairs xs.length ys.length) none with
  | some best =>
    exact closestFold_inbounds xs ys obstacles margin px py
      (allPairs xs.length ys.length) none
      (fun pr hpr => allPairs_mem xs.length ys.length pr hpr)
      (fun b hb => Option.noConfusion hb) best hcf
  | none => exact ⟨List.length_pos.mpr hx, List.length_pos.mpr hy⟩

theorem neighborRelax_cf (xs ys : List ℚ) (obstacles : List CellBounds) (margin : ℚ)
    (goalx goaly : ℚ) (current : Nat × Nat) (d : ℤ × ℤ)
    (open_set : List (ℚ × (Nat × Nat))) (cf : List ((Nat × Nat) × Option (Nat × Nat)))
    (g : List ((Nat × Nat) × ℚ))
    (hcf : CfInvariant xs ys obstacles margin cf)
    (hopen : OpenInBounds xs ys open_set)
    (hcur : NodeInBounds xs ys current)
    (hnb : NodeInBounds xs ys
      (((current.1 : ℤ) + d.1).toNat, ((current.2 : ℤ) + d.2).toNat))
    (hadj : AdjacentIdx
      (((current.1 : ℤ) + d.1).toNat, ((current.2 : ℤ) + d.2).toNat) current)
    (hseg : segment_blocked obstacles margin (xs.getD current.1 0) (ys.getD current.2 0)
      (xs.getD ((current.1 : ℤ) + d.1).toNat 0)
      (ys.getD ((current.2 : ℤ) + d.2).toNat 0) = false) :
    CfInvariant xs ys obstacles margin
      (neighborRelax xs ys goalx goaly current d open_set cf g).2.1 ∧
    OpenInBounds xs ys (neighborRelax xs ys goalx goaly current d open_set cf g).1 := by
  unfold neighborRelax
  simp only []
  split
  · constructor
    · intro pr hpr p hp
      rcases List.mem_cons.mp hpr with h | h
      · rw [h] at hp
        simp only [] at hp
        cases hp
        rw [h]
        exact ⟨hnb, hcur, hadj, hseg⟩
      · exact hcf pr h p hp
    · intro e he
      rcases heapPush_mem _ _ e he with h | h
      · rw [h]
        exact hnb
      · exact hopen e h
  · exact ⟨hcf, hopen⟩

theorem neighborFold_cf (xs ys : List ℚ) (obstacles : List CellBounds) (margin : ℚ)
    (goalx goaly : ℚ) (current : Nat × Nat) :
    ∀ (ds : List (ℤ × ℤ)),
      (∀ d ∈ ds, d = ((1 : ℤ), (0 : ℤ)) ∨ d = (-1, 0) ∨ d = (0, 1) ∨ d = (0, -1)) →
      ∀ (open_set : List (ℚ × (Nat × Nat)))
        (cf : List ((Nat × Nat) × Option (Nat × Nat))) (g : List ((Nat × Nat) × ℚ)),
        CfInvariant xs ys obstacles margin cf →
        OpenInBounds xs ys open_set →
        NodeInBounds xs ys current →
        CfInvariant xs ys obstacles margin
          (neighborFold xs ys obstacles margin goalx goaly current ds open_set cf g).2.1 ∧
        OpenInBounds xs ys
          (neighborFold xs ys obstacles margin goalx goaly current ds open_set cf g).1 := by
  intro ds
  induction ds with
  | nil => intro hd open_set cf g hcf hopen hcur; exact ⟨hcf, hopen⟩
  | cons d rest ih =>
    intro hd open_set cf g hcf hopen hcur
    have hdrest : ∀ d2 ∈ rest, d2 = ((1 : ℤ), (0 : ℤ)) ∨ d2 = (-1, 0) ∨ d2 = (0, 1) ∨
        d2 = (0, -1) := fun d2 h2 => hd d2 (List.mem_cons_of_mem d h2)
    unfold neighborFold
    by_cases hrange : (current.1 : ℤ) + d.1 < 0 ∨ (xs.length : ℤ) ≤ (current.1 : ℤ) + d.1 ∨
        (current.2 : ℤ) + d.2 < 0 ∨ (ys.length : ℤ) ≤ (current.2 : ℤ) + d.2
    · rw [if_pos hrange]
      exact ih hdrest open_set cf g hcf hopen hcur
    · rw [if_neg hrange]
      push_neg at hrange
      by_cases hsegb : segment_blocked obstacles margin (xs.getD current.1 0)
          (ys.getD current.2 0) (xs.getD ((current.1 : ℤ) + d.1).toNat 0)
          (ys.getD ((current.2 : ℤ) + d.2).toNat 0) = true
      · rw [if_pos hsegb]
        exact ih hdrest open_set cf g hcf hopen hcur
      · rw [if_neg hsegb]
        have hseg : segment_blocked obstacles margin (xs.getD current.1 0)
            (ys.getD current.2 0) (xs.getD ((current.1 : ℤ) + d.1).toNat 0)
            (ys.getD ((current.2 : ℤ) + d.2).toNat 0) = false := by
          cases hx : segment_blocked obstacles margin (xs.getD current.1 0)
              (ys.getD current.2 0) (xs.getD ((current.1 : ℤ) + d.1).toNat 0)
              (ys.getD ((current.2 : ℤ) + d.2).toNat 0) with
          | false => rfl
          | true => exact absurd hx hsegb
        have hnb : NodeInBounds xs ys
            (((current.1 : ℤ) + d.1).toNat, ((current.2 : ℤ) + d.2).toNat) := by
          constructor
          · dsimp only
            omega
          · dsimp only
            omega
        have hadj : AdjacentIdx
            (((current.1 : ℤ) + d.1).toNat, ((current.2 : ℤ) + d.2).toNat) current := by
          rcases hd d (List.mem_cons_self d rest) with h | h | h | h <;>
            (subst h; unfold AdjacentIdx; dsimp only; dsimp only at hrange; omega)
        rcases hrel : neighborRelax xs ys goalx goaly current d open_set cf g with
          ⟨open', cf', g'⟩
        simp only [hrel]
        have hpres := neighborRelax_cf xs ys obstacles margin goalx goaly current d
          open_set cf g hcf hopen hcur hnb hadj hseg
        rw [hrel] at hpres
        exact ih hdrest open' cf' g' hpres.1 hpres.2 hcur

theorem astarLoop_cf (xs ys : List ℚ) (obstacles : List CellBounds) (margin : ℚ)
    (goal : Nat × Nat) (gx gy : ℚ) :
    ∀ (fuel : Nat) (open_set : List (ℚ × (Nat × Nat)))
      (cf : List ((Nat × Nat) × Option (Nat × Nat))) (g : List ((Nat × Nat) × ℚ)),
      CfInvariant xs ys obstacles margin cf →
      OpenInBounds xs ys open_set →
      CfInvariant xs ys obstacles margin
        (astarLoop xs ys obstacles margin goal gx gy fuel open_set cf g).2 := by
  intro fuel
  induction fuel with
  | zero => intro open_set cf g hcf hopen; exact hcf
  | succ f ih =>
    intro open_set cf g hcf hopen
    unfold astarLoop
    cases open_set with
    | nil => exact hcf
    | cons e rest =>
      dsimp only
      by_cases hgoal : e.2 = goal
      · rw [if_pos hgoal]
        exact hcf
      · rw [if_neg hgoal]
        rcases hnf : neighborFold xs ys obstacles margin gx gy e.2
          [(1, 0), (-1, 0), (0, 1), (0, -1)] rest cf g with ⟨open', cf', g'⟩
        simp only [hnf]
        have hd4 : ∀ d ∈ ([(1, 0), (-1, 0), (0, 1), (0, -1)] : List (ℤ × ℤ)),
            d = ((1 : ℤ), (0 : ℤ)) ∨ d = (-1, 0) ∨ d = (0, 1) ∨ d = (0, -1) := by
          intro d hd
          simp only [List.mem_cons, List.not_mem_nil, or_false] at hd
          tauto
        have hpres := neighborFold_cf xs ys obstacles margin gx gy e.2
          [(1, 0), (-1, 0), (0, 1), (0, -1)] hd4 rest cf g hcf
          (fun e2 he2 => hopen e2 (List.mem_cons_of_mem e he2))
          (hopen e (List.mem_cons_self e rest))
        rw [hnf] at hpres
        exact ih open' cf' g' hpres.1 hpres.2

theorem reconstruct_chain (xs ys : List ℚ)
    (cf : List ((Nat × Nat) × Option (Nat × Nat))) :
    ∀ (fuel : Nat) (node : Option (Nat × Nat)) (i : Nat),
      i + 1 < (reconstructPath xs ys cf fuel node).length →
      ∃ child par, lookupFirstN cf child = some (some par) ∧
        (reconstructPath xs ys cf fuel node).getD i (0, 0) = valOf xs ys child ∧
        (reconstructPath xs ys cf fuel node).getD (i + 1) (0, 0) = valOf xs ys par := by
  intro fuel
  induction fuel with
  | zero => intro node i h; simp [reconstructPath] at h
  | succ f ih =>
    intro node i h
    cases node with
    | none => simp [reconstructPath] at h
    | some m =>
      have hstep : reconstructPath xs ys cf (f + 1) (some m) =
          (xs.getD m.1 0, ys.getD m.2 0) ::
            reconstructPath xs ys cf f
              (match lookupFirstN cf m with | some po => po | none => none) := rfl
      rw [hstep] at h ⊢
      cases i with
      | zero =>
        rw [List.length_cons] at h
        cases hlk : lookupFirstN cf m with
        | none =>
          exfalso
          rw [hlk] at h
          have hnil : reconstructPath xs ys cf f none = [] := by cases f <;> rfl
          rw [hnil] at h
          simp at h
        | some po =>
          cases po with
          | none =>
            exfalso
            rw [hlk] at h
            have hnil : reconstructPath xs ys cf f none = [] := by cases f <;> rfl
            rw [hnil] at h
            simp at h
          | some par =>
            refine ⟨m, par, hlk, by rw [List.getD_cons_zero]; rfl, ?_⟩
            dsimp only
            rw [List.getD_cons_succ]
            rw [hlk] at h
            cases f with
            | zero =>
              exfalso
              simp [reconstructPath] at h
            | succ f2 =>
              have hs2 : reconstructPath xs ys cf (f2 + 1) (some par) =
                  (xs.getD par.1 0, ys.getD par.2 0) ::
                    reconstructPath xs ys cf f2
                      (match lookupFirstN cf par with
                        | some po => po | none => none) := rfl
              rw [hs2, List.getD_cons_zero]
              rfl
      | succ j =>
        rw [List.length_cons] at h
        have h2 : j + 1 < (reconstructPath xs ys cf f
            (match lookupFirstN cf m with | some po => po | none => none)).length := by
          omega
        obtain ⟨c, p, hlk, hv1, hv2⟩ := ih
          (match lookupFirstN cf m with | some po => po | none => none) j h2
        exact ⟨c, p, hlk, by rw [List.getD_cons_succ]; exact hv1,
          by rw [List.getD_cons_succ]; exact hv2⟩

theorem getD_reverse {α : Type} (l : List α) (d : α) (j : Nat) (h : j < l.length) :
    l.reverse.getD j d = l.getD (l.length - 1 - j) d := by
  have h2 : j < l.reverse.length := by rw [List.length_reverse]; exact h
  rw [List.getD_eq_getElem l.reverse d h2, List.getD_eq_getElem l d (by omega)]
  exact List.getElem_reverse ..

theorem pymax_lt_iff (a b c : ℚ) : pymax a b < c ↔ a < c ∧ b < c := by
  by_cases h : b ≤ a
  · rw [pymax, if_pos h]
    exact ⟨fun h2 => ⟨h2, lt_of_le_of_lt h h2⟩, fun h2 => h2.1⟩
  · rw [pymax, if_neg h]
    exact ⟨fun h2 => ⟨lt_trans (not_le.mp h) h2, h2⟩, fun h2 => h2.2⟩

theorem lt_pymin_iff (a b c : ℚ) : c < pymin a b ↔ c < a ∧ c < b := by
  by_cases h : a ≤ b
  · rw [pymin, if_pos h]
    exact ⟨fun h2 => ⟨h2, lt_of_lt_of_le h2 h⟩, fun h2 => h2.1⟩
  · rw [pymin, if_neg h]
    exact ⟨fun h2 => ⟨lt_trans h2 (not_le.mp h), h2⟩, fun h2 => h2.2⟩

theorem pymax_self (a : ℚ) : pymax a a = a := by rw [pymax, if_pos le_rfl]

theorem pymin_self (a : ℚ) : pymin a a = a := by rw [pymin, if_pos le_rfl]

theorem pyabs_qsub_self (a : ℚ) : pyabs (qsub a a) = 0 := by
  unfold pyabs
  rw [qsub_eq, sub_self]
  simp

theorem pyabs_qsub_comm (a b : ℚ) : pyabs (qsub a b) = pyabs (qsub b a) := by
  unfold pyabs
  rw [qsub_eq, qsub_eq]
  split <;> split <;> linarith

theorem half_lt_pyabs_gap (a b : ℚ) (h : a + 1 / 2 < b) :
    Rat.divInt 1 2 < pyabs (qsub b a) := by
  rw [divInt_one_two_eq]
  unfold pyabs
  rw [qsub_eq]
  split <;> linarith

theorem half_lt_pyabs_gap2 (a b : ℚ) (h : a + 1 / 2 < b) :
    Rat.divInt 1 2 < pyabs (qsub a b) := by
  rw [divInt_one_two_eq]
  unfold pyabs
  rw [qsub_eq]
  split <;> linarith

theorem sep_adj_gap (l : List ℚ) (hs : SepGaps l) (i : Nat) (h : i + 1 < l.length) :
    Rat.divInt 1 2 < pyabs (qsub (l.getD (i + 1) 0) (l.getD i 0)) ∧
    Rat.divInt 1 2 < pyabs (qsub (l.getD i 0) (l.getD (i + 1) 0)) := by
  have hg := hs i (by omega)
  rw [qadd_eq, divInt_one_two_eq] at hg
  exact ⟨half_lt_pyabs_gap _ _ hg, half_lt_pyabs_gap2 _ _ hg⟩

theorem segment_blocked_false_mem (obstacles : List CellBounds) (margin x1 y1 x2 y2 : ℚ)
    (h : segment_blocked obstacles margin x1 y1 x2 y2 = false)
    (obs : CellBounds) (hobs : obs ∈ obstacles) :
    seg_hits_rect x1 y1 x2 y2 (expandHalf obs margin) = false := by
  unfold segment_blocked at h
  cases hx : seg_hits_rect x1 y1 x2 y2 (expandHalf obs margin) with
  | false => rfl
  | true =>
    exfalso
    have h2 : obstacles.any
        (fun o => seg_hits_rect x1 y1 x2 y2 (expandHalf o margin)) = true :=
      List.any_eq_true.mpr ⟨obs, hobs, hx⟩
    rw [h] at h2
    exact Bool.noConfusion h2

theorem segment_blocked_false_of (obstacles : List CellBounds) (margin x1 y1 x2 y2 : ℚ)
    (h : ∀ obs ∈ obstacles, seg_hits_rect x1 y1 x2 y2 (expandHalf obs margin) = false) :
    segment_blocked obstacles margin x1 y1 x2 y2 = false := by
  unfold segment_blocked
  rw [List.any_eq_false]
  intro obs hobs
  rw [h obs hobs]
  simp

theorem expandHalf_x_lt_right (obs : CellBounds) (margin : ℚ)
    (hm : 0 < margin) (hw : 0 ≤ obs.width) :
    (expandHalf obs margin).x < (expandHalf obs margin).right := by
  unfold expandHalf CellBounds.right
  simp only [qadd_eq, qsub_eq, qdiv_eq, qmul_eq]
  linarith

theorem expandHalf_y_lt_bottom (obs : CellBounds) (margin : ℚ)
    (hm : 0 < margin) (hh : 0 ≤ obs.height) :
    (expandHalf obs margin).y < (expandHalf obs margin).bottom := by
  unfold expandHalf CellBounds.bottom
  simp only [qadd_eq, qsub_eq, qdiv_eq, qmul_eq]
  linarith

theorem seg_hits_false_horiz (x1 y x2 : ℚ) (rect : CellBounds)
    (hx : Rat.divInt 1 2 < pyabs (qsub x2 x1))
    (hb1 : rect.y ≤ y) (hb2 : y ≤ rect.bottom)
    (hclear : seg_hits_rect x1 y x2 y rect = false) :
    pymax x1 x2 < rect.x ∨ rect.right < pymin x1 x2 := by
  unfold seg_hits_rect at hclear
  rw [if_neg (by rw [pyabs_qsub_comm]; intro hc; linarith)] at hclear
  rw [if_pos (by rw [pyabs_qsub_self, divInt_one_two_eq]; norm_num)] at hclear
  simp only [decide_eq_false_iff_not] at hclear
  by_contra hgoal
  push_neg at hgoal
  exact hclear ⟨hb1, hb2, hgoal.1, hgoal.2⟩

theorem seg_hits_false_vert (x y1 y2 : ℚ) (rect : CellBounds)
    (hb1 : rect.x ≤ x) (hb2 : x ≤ rect.right)
    (hclear : seg_hits_rect x y1 x y2 rect = false) :
    pymax y1 y2 < rect.y ∨ rect.bottom < pymin y1 y2 := by
  unfold seg_hits_rect at hclear
  rw [if_pos (by rw [pyabs_qsub_self, divInt_one_two_eq]; norm_num)] at hclear
  simp only [decide_eq_false_iff_not] at hclear
  by_contra hgoal
  push_neg at hgoal
  exact hclear ⟨hb1, hb2, hgoal.1, hgoal.2⟩

theorem seg_hits_same_y_false (x1 y x2 : ℚ) (rect : CellBounds)
    (h : (x1 < rect.x ∧ x2 < rect.x) ∨ (rect.right < x1 ∧ rect.right < x2)) :
    seg_hits_rect x1 y x2 y rect = false := by
  unfold seg_hits_rect
  by_cases h1 : pyabs (qsub x1 x2) < Rat.divInt 1 2
  · rw [if_pos h1]
    simp only [decide_eq_false_iff_not]
    intro hc
    rcases h with ⟨ha, hb⟩ | ⟨ha, hb⟩
    · linarith [hc.1]
    · linarith [hc.2.1]
  · rw [if_neg h1, if_pos (by rw [pyabs_qsub_self, divInt_one_two_eq]; norm_num)]
    simp only [decide_eq_false_iff_not]
    intro hc
    rcases h with ⟨ha, hb⟩ | ⟨ha, hb⟩
    · have h2 : pymax x1 x2 < rect.x := (pymax_lt_iff x1 x2 rect.x).mpr ⟨ha, hb⟩
      linarith [hc.2.2.1]
    · have h2 : rect.right < pymin x1 x2 := (lt_pymin_iff x1 x2 rect.right).mpr ⟨ha, hb⟩
      linarith [hc.2.2.2]

theorem seg_hits_same_y_false_band (x1 y x2 : ℚ) (rect : CellBounds)
    (h : ¬(rect.y ≤ y ∧ y ≤ rect.bottom)) :
    seg_hits_rect x1 y x2 y rect = false := by
  unfold seg_hits_rect
  by_cases h1 : pyabs (qsub x1 x2) < Rat.divInt 1 2
  · rw [if_pos h1]
    simp only [decide_eq_false_iff_not]
    intro hc
    apply h
    refine ⟨?_, ?_⟩
    · have h3 := hc.2.2.1
      rwa [pymax_self] at h3
    · have h3 := hc.2.2.2
      rwa [pymin_self] at h3
  · rw [if_neg h1, if_pos (by rw [pyabs_qsub_self, divInt_one_two_eq]; norm_num)]
    simp only [decide_eq_false_iff_not]
    intro hc
    exact h ⟨hc.1, hc.2.1⟩

theorem seg_hits_same_x_false (x y1 y2 : ℚ) (rect : CellBounds)
    (h : (y1 < rect.y ∧ y2 < rect.y) ∨ (rect.bottom < y1 ∧ rect.bottom < y2)) :
    seg_hits_rect x y1 x y2 rect = false := by
  unfold seg_hits_rect
  rw [if_pos (by rw [pyabs_qsub_self, divInt_one_two_eq]; norm_num)]
  simp only [decide_eq_false_iff_not]
  intro hc
  rcases h with ⟨ha, hb⟩ | ⟨ha, hb⟩
  · have h2 : pymax y1 y2 < rect.y := (pymax_lt_iff y1 y2 rect.y).mpr ⟨ha, hb⟩
    linarith [hc.2.2.1]
  · have h2 : rect.bottom < pymin y1 y2 := (lt_pymin_iff y1 y2 rect.bottom).mpr ⟨ha, hb⟩
    linarith [hc.2.2.2]

theorem seg_hits_same_x_false_band (x y1 y2 : ℚ) (rect : CellBounds)
    (h : ¬(rect.x ≤ x ∧ x ≤ rect.right)) :
    seg_hits_rect x y1 x y2 rect = false := by
  unfold seg_hits_rect
  rw [if_pos (by rw [pyabs_qsub_self, divInt_one_two_eq]; norm_num)]
  simp only [decide_eq_false_iff_not]
  intro hc
  exact h ⟨hc.1, hc.2.1⟩

theorem hrun_y_const (obstacles : List CellBounds) (margin : ℚ) (l : List (ℚ × ℚ))
    (h : HRun obstacles margin l) :
    ∀ j, j < l.length → (l.getD j (0, 0)).2 = (l.getD 0 (0, 0)).2 := by
  intro j
  induction j with
  | zero => intro hj; rfl
  | succ j ih =>
    intro hj
    have hstep := h j hj
    rw [← hstep.1]
    exact ih (by omega)

theorem vrun_x_const (obstacles : List CellBounds) (margin : ℚ) (l : List (ℚ × ℚ))
    (h : VRun obstacles margin l) :
    ∀ j, j < l.length → (l.getD j (0, 0)).1 = (l.getD 0 (0, 0)).1 := by
  intro j
  induction j with
  | zero => intro hj; rfl
  | succ j ih =>
    intro hj
    have hstep := h j hj
    rw [← hstep.1]
    exact ih (by omega)

theorem hrun_side_left (obstacles : List CellBounds) (margin : ℚ) (l : List (ℚ × ℚ))
    (h : HRun obstacles margin l) (obs : CellBounds) (hobs : obs ∈ obstacles)
    (hb1 : (expandHalf obs margin).y ≤ (l.getD 0 (0, 0)).2)
    (hb2 : (l.getD 0 (0, 0)).2 ≤ (expandHalf obs margin).bottom)
    (hxlr : (expandHalf obs margin).x < (expandHalf obs margin).right)
    (h0 : (l.getD 0 (0, 0)).1 < (expandHalf obs margin).x) :
    ∀ j, j < l.length → (l.getD j (0, 0)).1 < (expandHalf obs margin).x := by
  intro j
  induction j with
  | zero => intro hj; exact h0
  | succ j ih =>
    intro hj
    have hstep := h j hj
    have hcl := segment_blocked_false_mem obstacles margin _ _ _ _ hstep.2.2 obs hobs
    rw [← hstep.1] at hcl
    have hyj := hrun_y_const obstacles margin l h j (by omega)
    have hside := seg_hits_false_horiz _ _ _ _ hstep.2.1 (by rw [hyj]; exact hb1)
      (by rw [hyj]; exact hb2) hcl
    have ihj := ih (by omega)
    rcases hside with hl | hr
    · have h2 := le_pymax_right (l.getD j (0, 0)).1 (l.getD (j + 1) (0, 0)).1
      linarith
    · have h2 := pymin_le_left (l.getD j (0, 0)).1 (l.getD (j + 1) (0, 0)).1
      linarith

theorem hrun_side_right (obstacles : List CellBounds) (margin : ℚ) (l : List (ℚ × ℚ))
    (h : HRun obstacles margin l) (obs : CellBounds) (hobs : obs ∈ obstacles)
    (hb1 : (expandHalf obs margin).y ≤ (l.getD 0 (0, 0)).2)
    (hb2 : (l.getD 0 (0, 0)).2 ≤ (expandHalf obs margin).bottom)
    (hxlr : (expandHalf obs margin).x < (expandHalf obs margin).right)
    (h0 : (expandHalf obs margin).right < (l.getD 0 (0, 0)).1) :
    ∀ j, j < l.length → (expandHalf obs margin).right < (l.getD j (0, 0)).1 := by
  intro j
  induction j with
  | zero => intro hj; exact h0
  | succ j ih =>
    intro hj
    have hstep := h j hj
    have hcl := segment_blocked_false_mem obstacles margin _ _ _ _ hstep.2.2 obs hobs
    rw [← hstep.1] at hcl
    have hyj := hrun_y_const obstacles margin l h j (by omega)
    have hside := seg_hits_false_horiz _ _ _ _ hstep.2.1 (by rw [hyj]; exact hb1)
      (by rw [hyj]; exact hb2) hcl
    have ihj := ih (by omega)
    rcases hside with hl | hr
    · have h2 := le_pymax_left (l.getD j (0, 0)).1 (l.getD (j + 1) (0, 0)).1
      linarith
    · have h2 := pymin_le_right (l.getD j (0, 0)).1 (l.getD (j + 1) (0, 0)).1
      linarith

theorem vrun_side_up (obstacles : List CellBounds) (margin : ℚ) (l : List (ℚ × ℚ))
    (h : VRun obstacles margin l) (obs : CellBounds) (hobs : obs ∈ obstacles)
    (hb1 : (expandHalf obs margin).x ≤ (l.getD 0 (0, 0)).1)
    (hb2 : (l.getD 0 (0, 0)).1 ≤ (expandHalf obs margin).right)
    (hytb : (expandHalf obs margin).y < (expandHalf obs margin).bottom)
    (h0 : (l.getD 0 (0, 0)).2 < (expandHalf obs margin).y) :
    ∀ j, j < l.length → (l.getD j (0, 0)).2 < (expandHalf obs margin).y := by
  intro j
  induction j with
  | zero => intro hj; exact h0
  | succ j ih =>
    intro hj
    have hstep := h j hj
    have hcl := segment_blocked_false_mem obstacles margin _ _ _ _ hstep.2.2 obs hobs
    rw [← hstep.1] at hcl
    have hxj := vrun_x_const obstacles margin l h j (by omega)
    have hside := seg_hits_false_vert _ _ _ _ (by rw [hxj]; exact hb1)
      (by rw [hxj]; exact hb2) hcl
    have ihj := ih (by omega)
    rcases hside with hl | hr
    · have h2 := le_pymax_right (l.getD j (0, 0)).2 (l.getD (j + 1) (0, 0)).2
      linarith
    · have h2 := pymin_le_left (l.getD j (0, 0)).2 (l.getD (j + 1) (0, 0)).2
      linarith

theorem vrun_side_down (obstacles : List CellBounds) (margin : ℚ) (l : List (ℚ × ℚ))
    (h : VRun obstacles margin l) (obs : CellBounds) (hobs : obs ∈ obstacles)
    (hb1 : (expandHalf obs margin).x ≤ (l.getD 0 (0, 0)).1)
    (hb2 : (l.getD 0 (0, 0)).1 ≤ (expandHalf obs margin).right)
    (hytb : (expandHalf obs margin).y < (expandHalf obs margin).bottom)
    (h0 : (expandHalf obs margin).bottom < (l.getD 0 (0, 0)).2) :
    ∀ j, j < l.length → (expandHalf obs margin).bottom < (l.getD j (0, 0)).2 := by
  intro j
  induction j with
  | zero => intro hj; exact h0
  | succ j ih =>
    intro hj
    have hstep := h j hj
    have hcl := segment_blocked_false_mem obstacles margin _ _ _ _ hstep.2.2 obs hobs
    rw [← hstep.1] at hcl
    have hxj := vrun_x_const obstacles margin l h j (by omega)
    have hside := seg_hits_false_vert _ _ _ _ (by rw [hxj]; exact hb1)
      (by rw [hxj]; exact hb2) hcl
    have ihj := ih (by omega)
    rcases hside with hl | hr
    · have h2 := le_pymax_left (l.getD j (0, 0)).2 (l.getD (j + 1) (0, 0)).2
      linarith
    · have h2 := pymin_le_right (l.getD j (0, 0)).2 (l.getD (j + 1) (0, 0)).2
      linarith

theorem hrun_merged_clear (obstacles : List CellBounds) (margin : ℚ)
    (l : List (ℚ × ℚ)) (hm : 0 < margin)
    (hdims : ∀ obs ∈ obstacles, 0 ≤ obs.width ∧ 0 ≤ obs.height)
    (h : HRun obstacles margin l) (hlen : 1 < l.length) :
    segment_blocked obstacles margin (l.getD 0 (0, 0)).1 (l.getD 0 (0, 0)).2
      (l.getD (l.length - 1) (0, 0)).1 (l.getD (l.length - 1) (0, 0)).2 = false := by
  apply segment_blocked_false_of
  intro obs hobs
  have hxlr := expandHalf_x_lt_right obs margin hm (hdims obs hobs).1
  have hylast := hrun_y_const obstacles margin l h (l.length - 1) (by omega)
  rw [hylast]
  by_cases hband : (expandHalf obs margin).y ≤ (l.getD 0 (0, 0)).2 ∧
      (l.getD 0 (0, 0)).2 ≤ (expandHalf obs margin).bottom
  · have hstep0 := h 0 hlen
    have hcl0 := segment_blocked_false_mem obstacles margin _ _ _ _ hstep0.2.2 obs hobs
    rw [← hstep0.1] at hcl0
    have hside0 := seg_hits_false_horiz _ _ _ _ hstep0.2.1 hband.1 hband.2 hcl0
    have hp0 : (l.getD 0 (0, 0)).1 < (expandHalf obs margin).x ∨
        (expandHalf obs margin).right < (l.getD 0 (0, 0)).1 := by
      rcases hside0 with hl | hr
      · exact Or.inl (lt_of_le_of_lt (le_pymax_left _ _) hl)
      · exact Or.inr (lt_of_lt_of_le hr (pymin_le_left _ _))
    rcases hp0 with hl | hr
    · have hall := hrun_side_left obstacles margin l h obs hobs hband.1 hband.2 hxlr hl
      exact seg_hits_same_y_false _ _ _ _
        (Or.inl ⟨hl, hall (l.length - 1) (by omega)⟩)
    · have hall := hrun_side_right obstacles margin l h obs hobs hband.1 hband.2 hxlr hr
      exact seg_hits_same_y_false _ _ _ _
        (Or.inr ⟨hr, hall (l.length - 1) (by omega)⟩)
  · exact seg_hits_same_y_false_band _ _ _ _ hband

theorem vrun_merged_clear (obstacles : List CellBounds) (margin : ℚ)
    (l : List (ℚ × ℚ)) (hm : 0 < margin)
    (hdims : ∀ obs ∈ obstacles, 0 ≤ obs.width ∧ 0 ≤ obs.height)
    (h : VRun obstacles margin l) (hlen : 1 < l.length) :
    segment_blocked obstacles margin (l.getD 0 (0, 0)).1 (l.getD 0 (0, 0)).2
      (l.getD (l.length - 1) (0, 0)).1 (l.getD (l.length - 1) (0, 0)).2 = false := by
  apply segment_blocked_false_of
  intro obs hobs
  have hytb := expandHalf_y_lt_bottom obs margin hm (hdims obs hobs).2
  have hxlast := vrun_x_const obstacles margin l h (l.length - 1) (by omega)
  rw [hxlast]
  by_cases hband : (expandHalf obs margin).x ≤ (l.getD 0 (0, 0)).1 ∧
      (l.getD 0 (0, 0)).1 ≤ (expandHalf obs margin).right
  · have hstep0 := h 0 hlen
    have hcl0 := segment_blocked_false_mem obstacles margin _ _ _ _ hstep0.2.2 obs hobs
    rw [← hstep0.1] at hcl0
    have hside0 := seg_hits_false_vert _ _ _ _ hband.1 hband.2 hcl0
    have hp0 : (l.getD 0 (0, 0)).2 < (expandHalf obs margin).y ∨
        (expandHalf obs margin).bottom < (l.getD 0 (0, 0)).2 := by
      rcases hside0 with hl | hr
      · exact Or.inl (lt_of_le_of_lt (le_pymax_left _ _) hl)
      · exact Or.inr (lt_of_lt_of_le hr (pymin_le_left _ _))
    rcases hp0 with hl | hr
    · have hall := vrun_side_up obstacles margin l h obs hobs hband.1 hband.2 hytb hl
      exact seg_hits_same_x_false _ _ _ _
        (Or.inl ⟨hl, hall (l.length - 1) (by omega)⟩)
    · have hall := vrun_side_down obstacles margin l h obs hobs hband.1 hband.2 hytb hr
      exact seg_hits_same_x_false _ _ _ _
        (Or.inr ⟨hr, hall (l.length - 1) (by omega)⟩)
  · exact seg_hits_same_x_false_band _ _ _ _ hband

theorem hrun_singleton (obstacles : List CellBounds) (margin : ℚ) (b : ℚ × ℚ) :
    HRun obstacles margin [b] := by
  intro i hi
  simp at hi

theorem vrun_singleton (obstacles : List CellBounds) (margin : ℚ) (b : ℚ × ℚ) :
    VRun obstacles margin [b] := by
  intro i hi
  simp at hi

theorem hrun_cons (obstacles : List CellBounds) (margin : ℚ) (a : ℚ × ℚ)
    (l : List (ℚ × ℚ)) (hl : HRun obstacles margin l)
    (hy : a.2 = (l.getD 0 (0, 0)).2)
    (hx : Rat.divInt 1 2 < pyabs (qsub (l.getD 0 (0, 0)).1 a.1))
    (hseg : segment_blocked obstacles margin a.1 a.2 (l.getD 0 (0, 0)).1
      (l.getD 0 (0, 0)).2 = false) :
    HRun obstacles margin (a :: l) := by
  intro i hi
  cases i with
  | zero =>
    rw [List.getD_cons_zero, List.getD_cons_succ]
    exact ⟨hy, hx, hseg⟩
  | succ i2 =>
    rw [List.getD_cons_succ, List.getD_cons_succ]
    exact hl i2 (by rw [List.length_cons] at hi; omega)

theorem vrun_cons (obstacles : List CellBounds) (margin : ℚ) (a : ℚ × ℚ)
    (l : List (ℚ × ℚ)) (hl : VRun obstacles margin l)
    (hx : a.1 = (l.getD 0 (0, 0)).1)
    (hy : Rat.divInt 1 2 < pyabs (qsub (l.getD 0 (0, 0)).2 a.2))
    (hseg : segment_blocked obstacles margin a.1 a.2 (l.getD 0 (0, 0)).1
      (l.getD 0 (0, 0)).2 = false) :
    VRun obstacles margin (a :: l) := by
  intro i hi
  cases i with
  | zero =>
    rw [List.getD_cons_zero, List.getD_cons_succ]
    exact ⟨hx, hy, hseg⟩
  | succ i2 =>
    rw [List.getD_cons_succ, List.getD_cons_succ]
    exact hl i2 (by rw [List.length_cons] at hi; omega)

theorem ochain_tail (obstacles : List CellBounds) (margin : ℚ) (a : ℚ × ℚ)
    (l : List (ℚ × ℚ)) (h : OrthoChain obstacles margin (a :: l)) :
    OrthoChain obstacles margin l := by
  intro i hi
  have h2 := h (i + 1) (by rw [List.length_cons]; omega)
  rwa [List.getD_cons_succ, List.getD_cons_succ] at h2

theorem chain_of_cf (xs ys : List ℚ) (obstacles : List CellBounds) (margin : ℚ)
    (cf : List ((Nat × Nat) × Option (Nat × Nat)))
    (hcf : CfInvariant xs ys obstacles margin cf)
    (hsx : SepGaps xs) (hsy : SepGaps ys)
    (fuel : Nat) (node : Option (Nat × Nat)) :
    OrthoChain obstacles margin (reconstructPath xs ys cf fuel node).reverse := by
  intro j hj
  rw [List.length_reverse] at hj
  obtain ⟨child, par, hlk, hv1, hv2⟩ := reconstruct_chain xs ys cf fuel node
    ((reconstructPath xs ys cf fuel node).length - 2 - j) (by omega)
  have hgj : (reconstructPath xs ys cf fuel node).reverse.getD j (0, 0) =
      valOf xs ys par := by
    rw [getD_reverse _ _ j (by omega)]
    have he : (reconstructPath xs ys cf fuel node).length - 1 - j =
        ((reconstructPath xs ys cf fuel node).length - 2 - j) + 1 := by omega
    rw [he]
    exact hv2
  have hgj1 : (reconstructPath xs ys cf fuel node).reverse.getD (j + 1) (0, 0) =
      valOf xs ys child := by
    rw [getD_reverse _ _ (j + 1) (by omega)]
    have he : (reconstructPath xs ys cf fuel node).length - 1 - (j + 1) =
        (reconstructPath xs ys cf fuel node).length - 2 - j := by omega
    rw [he]
    exact hv1
  have hmem := lookupFirstN_mem cf child (some par) hlk
  obtain ⟨hbc, hbp, hadj, hseg⟩ := hcf (child, some par) hmem par rfl
  dsimp only at hbc hbp hadj hseg
  rw [hgj, hgj1]
  refine ⟨?_, hseg⟩
  rcases hadj with ⟨he, hd⟩ | ⟨he, hd⟩
  · refine Or.inl ⟨?_, ?_⟩
    · unfold valOf
      rw [he]
    · unfold valOf
      rcases hd with hd | hd
      · rw [hd]
        exact (sep_adj_gap ys hsy par.2 (by
          have h2 := hbc.2
          omega)).1
      · rw [hd]
        exact (sep_adj_gap ys hsy child.2 (by
          have h2 := hbp.2
          omega)).2
  · refine Or.inr ⟨?_, ?_⟩
    · unfold valOf
      rw [he]
    · unfold valOf
      rcases hd with hd | hd
      · rw [hd]
        exact (sep_adj_gap xs hsx par.1 (by
          have h2 := hbc.1
          omega)).1
      · rw [hd]
        exact (sep_adj_gap xs hsx child.1 (by
          have h2 := hbp.1
          omega)).2

theorem ochain_head (obstacles : List CellBounds) (margin : ℚ) (a b : ℚ × ℚ)
    (l : List (ℚ × ℚ)) (h : OrthoChain obstacles margin (a :: b :: l)) :
    ((a.1 = b.1 ∧ Rat.divInt 1 2 < pyabs (qsub b.2 a.2)) ∨
     (a.2 = b.2 ∧ Rat.divInt 1 2 < pyabs (qsub b.1 a.1))) ∧
    segment_blocked obstacles margin a.1 a.2 b.1 b.2 = false := by
  have h0 := h 0 (by rw [List.length_cons, List.length_cons]; omega)
  simpa only [List.getD_cons_zero, List.getD_cons_succ, zero_add] using h0

theorem keepBend_true_of_left (prev c n : ℚ × ℚ)
    (h1 : Rat.divInt 1 2 < pyabs (qsub c.1 prev.1))
    (h2 : Rat.divInt 1 2 < pyabs (qsub n.2 c.2)) :
    keepBend prev c n = true := by
  unfold keepBend
  simp only [Bool.or_eq_true, Bool.and_eq_true, decide_eq_true_eq]
  exact Or.inl ⟨h1, h2⟩

theorem keepBend_true_of_right (prev c n : ℚ × ℚ)
    (h1 : Rat.divInt 1 2 < pyabs (qsub c.2 prev.2))
    (h2 : Rat.divInt 1 2 < pyabs (qsub n.1 c.1)) :
    keepBend prev c n = true := by
  unfold keepBend
  simp only [Bool.or_eq_true, Bool.and_eq_true, decide_eq_true_eq]
  exact Or.inr ⟨h1, h2⟩

theorem kept_points_ok (obstacles : List CellBounds) (margin : ℚ)
    (hm : 0 < margin) (hdims : ∀ obs ∈ obstacles, 0 ≤ obs.width ∧ 0 ≤ obs.height) :
    ∀ (l : List (ℚ × ℚ)) (prev : ℚ × ℚ),
      OrthoChain obstacles margin (prev :: l) →
      ((∀ i, i + 1 < (keptPoints prev l).length →
          (((keptPoints prev l).getD i (0, 0)).1 =
             ((keptPoints prev l).getD (i + 1) (0, 0)).1 ∨
           ((keptPoints prev l).getD i (0, 0)).2 =
             ((keptPoints prev l).getD (i + 1) (0, 0)).2) ∧
          segment_blocked obstacles margin
            ((keptPoints prev l).getD i (0, 0)).1
            ((keptPoints prev l).getD i (0, 0)).2
            ((keptPoints prev l).getD (i + 1) (0, 0)).1
            ((keptPoints prev l).getD (i + 1) (0, 0)).2 = false) ∧
       (0 < (keptPoints prev l).length →
          ∃ rn : List (ℚ × ℚ), 1 < rn.length ∧ rn.getD 0 (0, 0) = prev ∧
            rn.getD 1 (0, 0) = l.getD 0 (0, 0) ∧
            rn.getD (rn.length - 1) (0, 0) = (keptPoints prev l).getD 0 (0, 0) ∧
            (HRun obstacles margin rn ∨ VRun obstacles margin rn))) := by
  intro l
  induction l with
  | nil =>
    intro prev hchain
    have hke : keptPoints prev [] = [] := rfl
    rw [hke]
    constructor
    · intro i hi
      simp at hi
    · intro hpos
      simp at hpos
  | cons c tl ih =>
    cases tl with
    | nil =>
      intro prev hchain
      have hke : keptPoints prev [c] = [] := rfl
      rw [hke]
      constructor
      · intro i hi
        simp at hi
      · intro hpos
        simp at hpos
    | cons n rest =>
      intro prev hchain
      have hk : keptPoints prev (c :: n :: rest) =
          if keepBend prev c n = true then c :: keptPoints c (n :: rest)
          else keptPoints c (n :: rest) := rfl
      have hchain' : OrthoChain obstacles margin (c :: n :: rest) :=
        ochain_tail obstacles margin prev _ hchain
      have h0 := ochain_head obstacles margin prev c (n :: rest) hchain
      have IHc := ih c hchain'
      by_cases hkb : keepBend prev c n = true
      · rw [hk, if_pos hkb]
        constructor
        · intro i hi
          cases i with
          | zero =>
            rw [List.length_cons] at hi
            obtain ⟨rn, hrlen, hr0, hr1, hrlast, hax⟩ := IHc.2 (by omega)
            rw [List.getD_cons_zero, List.getD_cons_succ]
            rcases hax with hH | hV
            · refine ⟨Or.inr ?_, ?_⟩
              · have hy := hrun_y_const obstacles margin rn hH (rn.length - 1)
                  (by omega)
                rw [hrlast, hr0] at hy
                exact hy.symm
              · have hcl := hrun_merged_clear obstacles margin rn hm hdims hH
                  (by omega)
                rw [hr0, hrlast] at hcl
                exact hcl
            · refine ⟨Or.inl ?_, ?_⟩
              · have hx := vrun_x_const obstacles margin rn hV (rn.length - 1)
                  (by omega)
                rw [hrlast, hr0] at hx
                exact hx.symm
              · have hcl := vrun_merged_clear obstacles margin rn hm hdims hV
                  (by omega)
                rw [hr0, hrlast] at hcl
                exact hcl
          | succ i2 =>
            rw [List.length_cons] at hi
            have h2 := IHc.1 i2 (by omega)
            rw [List.getD_cons_succ, List.getD_cons_succ]
            exact h2
        · intro hpos
          refine ⟨[prev, c], by simp, rfl, rfl, rfl, ?_⟩
          rcases h0.1 with ⟨hxeq, hygap⟩ | ⟨hyeq, hxgap⟩
          · exact Or.inr (vrun_cons obstacles margin prev [c]
              (vrun_singleton obstacles margin c) hxeq hygap h0.2)
          · exact Or.inl (hrun_cons obstacles margin prev [c]
              (hrun_singleton obstacles margin c) hyeq hxgap h0.2)
      · rw [hk, if_neg hkb]
        refine ⟨IHc.1, ?_⟩
        intro hpos
        obtain ⟨rn, hrlen, hr0, hr1, hrlast, hax⟩ := IHc.2 hpos
        rw [List.getD_cons_zero] at hr1
        refine ⟨prev :: rn, ?_, rfl, ?_, ?_, ?_⟩
        · rw [List.length_cons]
          omega
        · rw [List.getD_cons_succ, hr0, List.getD_cons_zero]
        · rw [List.length_cons]
          have he : rn.length + 1 - 1 = (rn.length - 1) + 1 := by omega
          rw [he, List.getD_cons_succ, hrlast]
        · rcases hax with hH | hV
          · have hstep := hH 0 (by omega)
            simp only [zero_add, hr0, hr1] at hstep
            rcases h0.1 with ⟨hxeq, hygap⟩ | ⟨hyeq, hxgap⟩
            · exact absurd (keepBend_true_of_right prev c n hygap hstep.2.1) hkb
            · refine Or.inl (hrun_cons obstacles margin prev rn hH ?_ ?_ ?_)
              · rw [hr0]
                exact hyeq
              · rw [hr0]
                exact hxgap
              · rw [hr0]
                exact h0.2
          · have hstep := hV 0 (by omega)
            simp only [zero_add, hr0, hr1] at hstep
            rcases h0.1 with ⟨hxeq, hygap⟩ | ⟨hyeq, hxgap⟩
            · refine Or.inr (vrun_cons obstacles margin prev rn hV ?_ ?_ ?_)
              · rw [hr0]
                exact hxeq
              · rw [hr0]
                exact hygap
              · rw [hr0]
                exact h0.2
            · exact absurd (keepBend_true_of_left prev c n hxgap hstep.2.1) hkb

theorem fallback_clear (src tgt : CellBounds) (obstacles : List CellBounds)
    (margin : ℚ) (hm : 0 < margin) (hne : obstacles ≠ []) (x1 x2 : ℚ) :
    segment_blocked obstacles margin x1 (fallbackY src tgt obstacles margin) x2
      (fallbackY src tgt obstacles margin) = false := by
  apply segment_blocked_false_of
  intro obs hobs
  apply seg_hits_same_y_false_band
  intro hband
  have hry : (expandHalf obs margin).y = obs.y - margin / 2 := by
    show qsub obs.y (qdiv margin 2) = obs.y - margin / 2
    rw [qsub_eq, qdiv_eq]
  have hrb : (expandHalf obs margin).bottom = obs.bottom + margin / 2 := by
    show qadd (qsub obs.y (qdiv margin 2)) (qadd obs.height margin) =
      obs.bottom + margin / 2
    rw [CellBounds.bottom]
    simp only [qadd_eq, qsub_eq, qdiv_eq]
    ring
  rw [hry, hrb] at hband
  cases obstacles with
  | nil => exact hne rfl
  | cons o rest =>
    unfold fallbackY at hband
    simp only [] at hband
    have hfmin := foldl_pymin_le (fun ob : CellBounds => ob.y) rest o.y
    have hfmax := foldl_pymax_ge (fun ob : CellBounds => ob.bottom) rest o.bottom
    have hminle : rest.foldl (fun acc ob => pymin acc ob.y) o.y ≤ obs.y := by
      rcases List.mem_cons.mp hobs with h | h
      · rw [h]
        exact hfmin.1
      · exact hfmin.2 obs h
    have hmaxge : obs.bottom ≤ rest.foldl (fun acc ob => pymax acc ob.bottom) o.bottom := by
      rcases List.mem_cons.mp hobs with h | h
      · rw [h]
        exact hfmax.1
      · exact hfmax.2 obs h
    split at hband
    · rw [qsub_eq, qmul_eq] at hband
      have h1 := hband.1
      linarith
    · rw [qadd_eq, qmul_eq] at hband
      have h2 := hband.2
      linarith

set_option maxHeartbeats 1600000 in
theorem route_eq_snap (fuel : Nat) (src tgt : CellBounds) (obstacles : List CellBounds)
    (margin : ℚ) (grid : ℤ) :
    route_orthogonal_astar fuel src tgt obstacles margin grid =
      (routerUnsnapped fuel src tgt obstacles margin grid).map
        (fun p => (⟨snap_to_grid p.1 grid, snap_to_grid p.2 grid⟩ : Pt)) := by
  unfold route_orthogonal_astar routerUnsnapped
  by_cases h1 : any_obstacle_on_segment src.cx src.cy tgt.cx tgt.cy obstacles margin = false
  · rw [if_pos h1, if_pos h1]
    rfl
  · rw [if_neg h1, if_neg h1]
    set xs := routerXs src tgt obstacles margin grid with hxs
    set ys := routerYs src tgt obstacles margin grid with hys
    set sN := closest_node xs ys obstacles margin src.cx src.cy with hsN
    set tN := closest_node xs ys obstacles margin tgt.cx tgt.cy with htN
    by_cases h2 : sN = tN
    · rw [if_pos h2, if_pos h2]
      rfl
    · rw [if_neg h2, if_neg h2]
      rcases hast : astarLoop xs ys obstacles margin tN (xs.getD tN.1 0)
          (ys.getD tN.2 0) fuel [(0, sN)] [(sN, none)] [(sN, 0)] with ⟨found, cf⟩
      cases found
      · rfl
      · rfl

set_option maxHeartbeats 1600000 in
theorem routerUnsnapped_ok (fuel : Nat) (src tgt : CellBounds)
    (obstacles : List CellBounds) (margin : ℚ) (grid : ℤ)
    (hm : 0 < margin)
    (hdims : ∀ obs ∈ obstacles, 0 ≤ obs.width ∧ 0 ≤ obs.height)
    (hsx : SepGaps (routerXs src tgt obstacles margin grid))
    (hsy : SepGaps (routerYs src tgt obstacles margin grid)) :
    ∀ i, i + 1 < (routerUnsnapped fuel src tgt obstacles margin grid).length →
      (((routerUnsnapped fuel src tgt obstacles margin grid).getD i (0, 0)).1 =
         ((routerUnsnapped fuel src tgt obstacles margin grid).getD (i + 1) (0, 0)).1 ∨
       ((routerUnsnapped fuel src tgt obstacles margin grid).getD i (0, 0)).2 =
         ((routerUnsnapped fuel src tgt obstacles margin grid).getD (i + 1) (0, 0)).2) ∧
      segment_blocked obstacles margin
        ((routerUnsnapped fuel src tgt obstacles margin grid).getD i (0, 0)).1
        ((routerUnsnapped fuel src tgt obstacles margin grid).getD i (0, 0)).2
        ((routerUnsnapped fuel src tgt obstacles margin grid).getD (i + 1) (0, 0)).1
        ((routerUnsnapped fuel src tgt obstacles margin grid).getD (i + 1) (0, 0)).2 =
        false := by
  intro i
  unfold routerUnsnapped
  set xs := routerXs src tgt obstacles margin grid with hxs
  set ys := routerYs src tgt obstacles margin grid with hys
  have hxne : xs ≠ [] := by
    rw [hxs]
    unfold routerXs
    apply sortedDedup_ne_nil
    simp
  have hyne : ys ≠ [] := by
    rw [hys]
    unfold routerYs
    apply sortedDedup_ne_nil
    simp
  by_cases h1 : any_obstacle_on_segment src.cx src.cy tgt.cx tgt.cy obstacles margin = false
  · rw [if_pos h1]
    intro hi
    simp at hi
  · rw [if_neg h1]
    set sN := closest_node xs ys obstacles margin src.cx src.cy with hsN
    set tN := closest_node xs ys obstacles margin tgt.cx tgt.cy with htN
    by_cases h2 : sN = tN
    · rw [if_pos h2]
      intro hi
      simp at hi
    · rw [if_neg h2]
      rcases hast : astarLoop xs ys obstacles margin tN (xs.getD tN.1 0)
          (ys.getD tN.2 0) fuel [(0, sN)] [(sN, none)] [(sN, 0)] with ⟨found, cf⟩
      cases found with
      | true =>
        dsimp only
        have hstart : NodeInBounds xs ys sN :=
          closest_node_inbounds xs ys obstacles margin src.cx src.cy hxne hyne
        have hcf0 : CfInvariant xs ys obstacles margin [(sN, none)] := by
          intro pr hpr p hp
          rw [List.mem_singleton] at hpr
          rw [hpr] at hp
          exact Option.noConfusion hp
        have hopen0 : OpenInBounds xs ys [(0, sN)] := by
          intro e he
          rw [List.mem_singleton] at he
          rw [he]
          exact hstart
        have hinv := astarLoop_cf xs ys obstacles margin tN (xs.getD tN.1 0)
          (ys.getD tN.2 0) fuel [(0, sN)] [(sN, none)] [(sN, 0)] hcf0 hopen0
        rw [hast] at hinv
        have hchain := chain_of_cf xs ys obstacles margin cf hinv hsx hsy
          (cf.length + 1) (some tN)
        rcases hrev : (reconstructPath xs ys cf (cf.length + 1) (some tN)).reverse with
          _ | ⟨p0, rest2⟩
        · have hsnil : simplify_path ([] : List (ℚ × ℚ)) = [] := rfl
          rw [hsnil]
          intro hi
          simp at hi
        · rw [hrev] at hchain
          have hscons : simplify_path (p0 :: rest2) =
              if (p0 :: rest2).length ≤ 2 then [] else keptPoints p0 rest2 := rfl
          rw [hscons]
          by_cases hlen : (p0 :: rest2).length ≤ 2
          · rw [if_pos hlen]
            intro hi
            simp at hi
          · rw [if_neg hlen]
            intro hi
            exact (kept_points_ok obstacles margin hm hdims rest2 p0 hchain).1 i hi
      | false =>
        dsimp only
        intro hi
        have hne : obstacles ≠ [] := by
          intro h0
          apply h1
          rw [h0]
          rfl
        have hi0 : i = 0 := by
          rw [List.length_cons, List.length_cons] at hi
          simp at hi
          omega
        subst hi0
        refine ⟨Or.inr rfl, ?_⟩
        exact fallback_clear src tgt obstacles margin hm hne src.cx tgt.cx

/-- C2 (amended): the router's returned route is the pointwise grid snap of
the pre-snap polyline, and with a positive margin, nonnegative obstacle
dimensions, and candidate coordinates separated by more than half a unit,
every segment between consecutive pre-snap waypoints passes the router's
own half-margin `_segment_blocked` test (the full-margin
`_any_obstacle_on_segment` clearance claimed by the spec can fail). -/
theorem C2_amended (fuel : Nat) (src tgt : CellBounds) (obstacles : List CellBounds)
    (margin : ℚ) (grid : ℤ)
    (hm : 0 < margin)
    (hdims : ∀ obs ∈ obstacles, 0 ≤ obs.width ∧ 0 ≤ obs.height)
    (hsx : SepGaps (routerXs src tgt obstacles margin grid))
    (hsy : SepGaps (routerYs src tgt obstacles margin grid)) :
    route_orthogonal_astar fuel src tgt obstacles margin grid =
      (routerUnsnapped fuel src tgt obstacles margin grid).map
        (fun p => (⟨snap_to_grid p.1 grid, snap_to_grid p.2 grid⟩ : Pt)) ∧
    ∀ i, i + 1 < (routerUnsnapped fuel src tgt obstacles margin grid).length →
      segment_blocked obstacles margin
        ((routerUnsnapped fuel src tgt obstacles margin grid).getD i (0, 0)).1
        ((routerUnsnapped fuel src tgt obstacles margin grid).getD i (0, 0)).2
        ((routerUnsnapped fuel src tgt obstacles margin grid).getD (i + 1) (0, 0)).1
        ((routerUnsnapped fuel src tgt obstacles margin grid).getD (i + 1) (0, 0)).2 =
        false :=
  ⟨route_eq_snap fuel src tgt obstacles margin grid,
   fun i hi =>
     (routerUnsnapped_ok fuel src tgt obstacles margin grid hm hdims hsx hsy i hi).2⟩

theorem C2_amended_witness :
    route_orthogonal_astar 50 wSrc wTgt wObs 15 10 =
      (routerUnsnapped 50 wSrc wTgt wObs 15 10).map
        (fun p => (⟨snap_to_grid p.1 10, snap_to_grid p.2 10⟩ : Pt)) ∧
    ∀ i, i + 1 < (routerUnsnapped 50 wSrc wTgt wObs 15 10).length →
      segment_blocked wObs 15
        ((routerUnsnapped 50 wSrc wTgt wObs 15 10).getD i (0, 0)).1
        ((routerUnsnapped 50 wSrc wTgt wObs 15 10).getD i (0, 0)).2
        ((routerUnsnapped 50 wSrc wTgt wObs 15 10).getD (i + 1) (0, 0)).1
        ((routerUnsnapped 50 wSrc wTgt wObs 15 10).getD (i + 1) (0, 0)).2 = false :=
  C2_amended 50 wSrc wTgt wObs 15 10 (by decide) (by decide) (by decide) (by decide)

/-- C6 (amended): with a positive margin, nonnegative obstacle dimensions,
and candidate coordinates separated by more than half a unit, consecutive
waypoints returned by `_route_orthogonal_astar` always share an axis
(equal x or equal y); without the separation hypotheses the half-unit
bend test of `_simplify_path` can drop a genuine corner. -/
theorem C6_amended (fuel : Nat) (src tgt : CellBounds) (obstacles : List CellBounds)
    (margin : ℚ) (grid : ℤ)
    (hm : 0 < margin)
    (hdims : ∀ obs ∈ obstacles, 0 ≤ obs.width ∧ 0 ≤ obs.height)
    (hsx : SepGaps (routerXs src tgt obstacles margin grid))
    (hsy : SepGaps (routerYs src tgt obstacles margin grid)) :
    ∀ i, i + 1 < (route_orthogonal_astar fuel src tgt obstacles margin grid).length →
      ((route_orthogonal_astar fuel src tgt obstacles margin grid).getD (i + 1)
          ⟨0, 0⟩).x =
        ((route_orthogonal_astar fuel src tgt obstacles margin grid).getD i ⟨0, 0⟩).x ∨
      ((route_orthogonal_astar fuel src tgt obstacles margin grid).getD (i + 1)
          ⟨0, 0⟩).y =
        ((route_orthogonal_astar fuel src tgt obstacles margin grid).getD i ⟨0, 0⟩).y := by
  intro i hi
  have hsnap := route_eq_snap fuel src tgt obstacles margin grid
  rw [hsnap] at hi ⊢
  rw [List.length_map] at hi
  have hu := (routerUnsnapped_ok fuel src tgt obstacles margin grid hm hdims hsx hsy
    i hi).1
  have hlt : i < (routerUnsnapped fuel src tgt obstacles margin grid).length := by omega
  have hlt2 : i + 1 < (routerUnsnapped fuel src tgt obstacles margin grid).length := hi
  have hmlt : i < ((routerUnsnapped fuel src tgt obstacles margin grid).map
      (fun p => (⟨snap_to_grid p.1 grid, snap_to_grid p.2 grid⟩ : Pt))).length := by
    rw [List.length_map]
    omega
  have hmlt2 : i + 1 < ((routerUnsnapped fuel src tgt obstacles margin grid).map
      (fun p => (⟨snap_to_grid p.1 grid, snap_to_grid p.2 grid⟩ : Pt))).length := by
    rw [List.length_map]
    omega
  rw [List.getD_eq_getElem _ _ hmlt2, List.getD_eq_getElem _ _ hmlt]
  rw [List.getElem_map, List.getElem_map]
  rw [List.getD_eq_getElem _ _ hlt, List.getD_eq_getElem _ _ hlt2] at hu
  rcases hu with hx | hy
  · left
    dsimp only
    rw [hx]
  · right
    dsimp only
    rw [hy]

theorem C6_amended_witness :
    0 + 1 < (route_orthogonal_astar 50 wSrc wTgt wObs 15 10).length ∧
      (((route_orthogonal_astar 50 wSrc wTgt wObs 15 10).getD (0 + 1) ⟨0, 0⟩).x =
          ((route_orthogonal_astar 50 wSrc wTgt wObs 15 10).getD 0 ⟨0, 0⟩).x ∨
        ((route_orthogonal_astar 50 wSrc wTgt wObs 15 10).getD (0 + 1) ⟨0, 0⟩).y =
          ((route_orthogonal_astar 50 wSrc wTgt wObs 15 10).getD 0 ⟨0, 0⟩).y) :=
  ⟨by decide,
   C6_amended 50 wSrc wTgt wObs 15 10 (by decide) (by decide) (by decide) (by decide)
     0 (by decide)⟩

/-! ### The optimizer claims -/

theorem optCellPass_empty (bounds : List (String × CellBounds))
    (margin threshold : ℚ) (grid : ℤ) (cell : MxCell) (h : ptsOf cell = []) :
    optCellPass bounds margin threshold grid cell = (cell, 0) := by
  unfold optCellPass
  cases getBound bounds cell.source with
  | none => rfl
  | some sb =>
    cases getBound bounds cell.target with
    | none => rfl
    | some tb =>
      dsimp only
      rw [if_pos h]

theorem optPass14_empty (bounds : List (String × CellBounds))
    (margin threshold : ℚ) (grid : ℤ) :
    ∀ cells : List MxCell, (∀ c ∈ cells, ptsOf c = []) →
      optPass14 bounds margin threshold grid cells = (cells, 0) := by
  intro cells
  induction cells with
  | nil => intro h; rfl
  | cons c rest ih =>
    intro h
    unfold optPass14
    rw [optCellPass_empty bounds margin threshold grid c (h c (List.mem_cons_self c rest)),
        ih (fun x hx => h x (List.mem_cons_of_mem c hx))]

theorem collectSegs_empty (bounds : List (String × CellBounds)) :
    ∀ (cells : List MxCell) (ei : Nat), (∀ c ∈ cells, ptsOf c = []) →
      collectSegs bounds ei cells = [] := by
  intro cells
  induction cells with
  | nil => intro ei h; rfl
  | cons c rest ih =>
    intro ei h
    unfold collectSegs
    rw [if_pos (h c (List.mem_cons_self c rest)),
        ih (ei + 1) (fun x hx => h x (List.mem_cons_of_mem c hx))]
    rfl

theorem sep_empty (bounds : List (String × CellBounds)) (spacing : ℚ) (grid : ℤ)
    (ec : List MxCell) (h : ∀ c ∈ ec, ptsOf c = []) :
    opt_separate_parallel_edges ec bounds spacing grid = (ec, 0) := by
  unfold opt_separate_parallel_edges
  by_cases hlen : ec.length < 2
  · rw [if_pos hlen]
  · rw [if_neg hlen, collectSegs_empty bounds ec 0 h]
    rfl

theorem mergeEdges_filter : ∀ cells : List MxCell,
    mergeEdges cells (cells.filter isEdgeCell) = cells := by
  intro cells
  induction cells with
  | nil => rfl
  | cons c rest ih =>
    rw [List.filter_cons]
    by_cases hc : isEdgeCell c = true
    · rw [if_pos hc]
      unfold mergeEdges
      rw [if_pos hc]
      dsimp only
      rw [ih]
    · rw [if_neg hc]
      unfold mergeEdges
      rw [if_neg hc]
      rw [ih]

/-- C4: the optimizer is not idempotent — on `c4Diagram` the second run
still reports a modified edge and changes the connector's waypoints again,
refuting the claimed fixed point. -/
theorem C4_counterexample : ¬C4Statement := by
  intro h
  have hk : (optimize_edge_paths (optimize_edge_paths c4Diagram 15 8 10).1
      15 8 10).2 = 1 := by decide
  have h2 := (h c4Diagram 15 8 10).1
  rw [h2] at hk
  exact Nat.noConfusion hk

/-- C4 (amended): the optimizer is the identity and reports zero modified
edges on every diagram whose edge cells carry no waypoints; in general a
second run can modify connectors again. -/
theorem C4_amended (d : Diagram) (margin threshold spacing : ℚ)
    (h : ∀ c ∈ d.cells, isEdgeCell c = true → ptsOf c = []) :
    optimize_edge_paths d margin threshold spacing = (d, 0) := by
  unfold optimize_edge_paths
  by_cases hb : get_all_vertex_bounds d.cells = []
  · rw [if_pos hb]
  · rw [if_neg hb]
    have hec : ∀ c ∈ d.cells.filter isEdgeCell, ptsOf c = [] := by
      intro c hc
      exact h c (List.mem_of_mem_filter hc) (List.of_mem_filter hc)
    rw [optPass14_empty (get_all_vertex_bounds d.cells) margin threshold
      (if d.grid_size = 0 then 10 else d.grid_size) (d.cells.filter isEdgeCell) hec]
    dsimp only
    rw [sep_empty (get_all_vertex_bounds d.cells) spacing
      (if d.grid_size = 0 then 10 else d.grid_size) (d.cells.filter isEdgeCell) hec]
    dsimp only
    rw [mergeEdges_filter]

theorem C4_amended_witness :
    optimize_edge_paths c4WDiagram 15 8 10 = (c4WDiagram, 0) :=
  C4_amended c4WDiagram 15 8 10 (by decide)

/-! ### Lemmas for the skip behavior of routing and optimization -/

theorem getD_of_ge {α : Type} (l : List α) (n : Nat) (d : α) (h : l.length ≤ n) :
    l.getD n d = d := by
  rw [List.getD_eq_getElem?_getD, List.getElem?_eq_none h]
  rfl

theorem isEdgeCell_dflt : isEdgeCell dfltCell = false := rfl

theorem edge_lt_length (cells : List MxCell) (k : Nat)
    (h : isEdgeCell (cells.getD k dfltCell) = true) : k < cells.length := by
  by_contra hk
  rw [getD_of_ge cells k dfltCell (by omega), isEdgeCell_dflt] at h
  exact Bool.noConfusion h

theorem routeCell_dflt (bounds : List (String × CellBounds)) (margin : ℚ) (grid : ℤ)
    (fuel : Nat) : routeCell bounds margin grid fuel dfltCell = (dfltCell, 0) := rfl

theorem routeCell_skip (bounds : List (String × CellBounds)) (margin : ℚ) (grid : ℤ)
    (fuel : Nat) (cell : MxCell)
    (hmiss : getBound bounds cell.source = none ∨ getBound bounds cell.target = none) :
    routeCell bounds margin grid fuel cell = (cell, 0) := by
  unfold routeCell
  by_cases he : isEdgeCell cell = false
  · rw [if_pos he]
  · rw [if_neg he]
    rcases hmiss with hm | hm
    · rw [hm]
      all_goals (cases getBound bounds cell.target <;> rfl)
    · rw [hm]
      all_goals (cases getBound bounds cell.source <;> rfl)

theorem routeFold_getD (bounds : List (String × CellBounds)) (margin : ℚ) (grid : ℤ)
    (fuel : Nat) : ∀ (cells : List MxCell) (k : Nat),
    (routeFold bounds margin grid fuel cells).1.getD k dfltCell =
      (routeCell bounds margin grid fuel (cells.getD k dfltCell)).1 := by
  intro cells
  induction cells with
  | nil =>
    intro k
    rfl
  | cons c rest ih =>
    intro k
    unfold routeFold
    rcases hc : routeCell bounds margin grid fuel c with ⟨c2, m⟩
    rcases hr : routeFold bounds margin grid fuel rest with ⟨rest2, mr⟩
    dsimp only
    cases k with
    | zero =>
      rw [List.getD_cons_zero, List.getD_cons_zero, hc]
    | succ k2 =>
      rw [List.getD_cons_succ, List.getD_cons_succ]
      have h2 := ih k2
      rw [hr] at h2
      exact h2

theorem routeCell_count (bounds : List (String × CellBounds)) (margin : ℚ) (grid : ℤ)
    (fuel : Nat) (c : MxCell) :
    (routeCell bounds margin grid fuel c).2 =
      if (isEdgeCell c && (getBound bounds c.source).isSome &&
          (getBound bounds c.target).isSome) = true then 1 else 0 := by
  unfold routeCell
  by_cases he : isEdgeCell c = false
  · rw [if_pos he, he]
    simp
  · have he2 : isEdgeCell c = true := by
      cases hx : isEdgeCell c
      · exact absurd hx he
      · rfl
    rw [if_neg he, he2]
    cases hs : getBound bounds c.source with
    | none => simp
    | some sb =>
      cases ht : getBound bounds c.target with
      | none => simp
      | some tb => simp

theorem routeFold_count (bounds : List (String × CellBounds)) (margin : ℚ) (grid : ℤ)
    (fuel : Nat) : ∀ cells : List MxCell,
    (routeFold bounds margin grid fuel cells).2 =
      (cells.filter (fun c => isEdgeCell c && (getBound bounds c.source).isSome &&
        (getBound bounds c.target).isSome)).length := by
  intro cells
  induction cells with
  | nil => rfl
  | cons c rest ih =>
    unfold routeFold
    rcases hc : routeCell bounds margin grid fuel c with ⟨c2, m⟩
    rcases hr : routeFold bounds margin grid fuel rest with ⟨rest2, mr⟩
    dsimp only
    rw [List.filter_cons]
    have hm := routeCell_count bounds margin grid fuel c
    rw [hc] at hm
    dsimp only at hm
    have ihr := ih
    rw [hr] at ihr
    dsimp only at ihr
    by_cases hp : (isEdgeCell c && (getBound bounds c.source).isSome &&
        (getBound bounds c.target).isSome) = true
    · rw [if_pos hp] at hm ⊢
      rw [List.length_cons]
      omega
    · rw [if_neg hp] at hm ⊢
      omega

theorem optCellPass_dflt (bounds : List (String × CellBounds)) (margin threshold : ℚ)
    (grid : ℤ) : optCellPass bounds margin threshold grid dfltCell = (dfltCell, 0) := rfl

theorem optCellPass_skip (bounds : List (String × CellBounds)) (margin threshold : ℚ)
    (grid : ℤ) (c : MxCell)
    (hmiss : getBound bounds c.source = none ∨ getBound bounds c.target = none) :
    optCellPass bounds margin threshold grid c = (c, 0) := by
  unfold optCellPass
  rcases hmiss with hm | hm
  · rw [hm]
    all_goals (cases getBound bounds c.target <;> rfl)
  · rw [hm]
    all_goals (cases getBound bounds c.source <;> rfl)

theorem optCellPass_cases (bounds : List (String × CellBounds)) (margin threshold : ℚ)
    (grid : ℤ) (c : MxCell) :
    (optCellPass bounds margin threshold grid c).1 = c ∨
    ∃ pts, (optCellPass bounds margin threshold grid c).1 = setPts c pts := by
  unfold optCellPass
  cases getBound bounds c.source with
  | none => exact Or.inl rfl
  | some sb =>
    cases getBound bounds c.target with
    | none => exact Or.inl rfl
    | some tb =>
      dsimp only
      by_cases hp : ptsOf c = []
      · rw [if_pos hp]
        exact Or.inl rfl
      · rw [if_neg hp]
        split
        · exact Or.inl rfl
        · exact Or.inr ⟨_, rfl⟩

theorem setPts_source (cell : MxCell) (pts : List Pt) :
    (setPts cell pts).source = cell.source := rfl

theorem setPts_target (cell : MxCell) (pts : List Pt) :
    (setPts cell pts).target = cell.target := rfl

theorem optCellPass_source (bounds : List (String × CellBounds)) (margin threshold : ℚ)
    (grid : ℤ) (c : MxCell) :
    (optCellPass bounds margin threshold grid c).1.source = c.source ∧
    (optCellPass bounds margin threshold grid c).1.target = c.target := by
  rcases optCellPass_cases bounds margin threshold grid c with h | ⟨pts, h⟩
  · rw [h]
    exact ⟨rfl, rfl⟩
  · rw [h]
    exact ⟨setPts_source c pts, setPts_target c pts⟩

theorem optPass14_getD (bounds : List (String × CellBounds)) (margin threshold : ℚ)
    (grid : ℤ) : ∀ (ec : List MxCell) (k : Nat),
    (optPass14 bounds margin threshold grid ec).1.getD k dfltCell =
      (optCellPass bounds margin threshold grid (ec.getD k dfltCell)).1 := by
  intro ec
  induction ec with
  | nil =>
    intro k
    rfl
  | cons c rest ih =>
    intro k
    unfold optPass14
    rcases hc : optCellPass bounds margin threshold grid c with ⟨c2, m⟩
    rcases hr : optPass14 bounds margin threshold grid rest with ⟨rest2, mr⟩
    dsimp only
    cases k with
    | zero =>
      rw [List.getD_cons_zero, List.getD_cons_zero, hc]
    | succ k2 =>
      rw [List.getD_cons_succ, List.getD_cons_succ]
      have h2 := ih k2
      rw [hr] at h2
      exact h2

theorem optPass14_length (bounds : List (String × CellBounds)) (margin threshold : ℚ)
    (grid : ℤ) : ∀ ec : List MxCell,
    (optPass14 bounds margin threshold grid ec).1.length = ec.length := by
  intro ec
  induction ec with
  | nil => rfl
  | cons c rest ih =>
    unfold optPass14
    rcases hc : optCellPass bounds margin threshold grid c with ⟨c2, m⟩
    rcases hr : optPass14 bounds margin threshold grid rest with ⟨rest2, mr⟩
    dsimp only
    rw [List.length_cons, List.length_cons]
    rw [hr] at ih
    dsimp only at ih
    omega

theorem segsOfPairs_idx (ei : Nat) : ∀ (full : List (ℚ × ℚ)) (si : Nat),
    ∀ seg ∈ segsOfPairs ei si full, seg.edge_idx = ei := by
  intro full
  induction full with
  | nil =>
    intro si seg h
    have hnil : segsOfPairs ei si ([] : List (ℚ × ℚ)) = [] := rfl
    rw [hnil] at h
    exact absurd h (List.not_mem_nil seg)
  | cons a rest ih =>
    cases rest with
    | nil =>
      intro si seg h
      have hnil : segsOfPairs ei si [a] = [] := rfl
      rw [hnil] at h
      exact absurd h (List.not_mem_nil seg)
    | cons b rest2 =>
      intro si seg h
      have hstep : segsOfPairs ei si (a :: b :: rest2) =
          (if pyabs (qsub a.2 b.2) < 1 then
             [⟨ei, si, true, a.2, pymin a.1 b.1, pymax a.1 b.1⟩]
           else if pyabs (qsub a.1 b.1) < 1 then
             [⟨ei, si, false, a.1, pymin a.2 b.2, pymax a.2 b.2⟩]
           else []) ++ segsOfPairs ei (si + 1) (b :: rest2) := rfl
      rw [hstep] at h
      rcases List.mem_append.mp h with h1 | h1
      · split at h1
        · rw [List.mem_singleton] at h1
          rw [h1]
        · split at h1
          · rw [List.mem_singleton] at h1
            rw [h1]
          · exact absurd h1 (List.not_mem_nil seg)
      · exact ih (si + 1) seg h1

theorem collectSegs_head (bounds : List (String × CellBounds)) (c : MxCell) (ei : Nat) :
    ∀ seg ∈ (if ptsOf c = [] then []
       else match getBound bounds c.source, getBound bounds c.target with
         | some sb, some tb =>
           segsOfPairs ei 0
             ((sb.cx, sb.cy) :: ((ptsOf c).map (fun p => (p.x, p.y)) ++ [(tb.cx, tb.cy)]))
         | _, _ => ([] : List OptSegment)),
      seg.edge_idx = ei := by
  intro seg h1
  by_cases hp : ptsOf c = []
  · rw [if_pos hp] at h1
    exact absurd h1 (List.not_mem_nil seg)
  · rw [if_neg hp] at h1
    rcases hsb : getBound bounds c.source with _ | sb
    · rw [hsb] at h1
      cases getBound bounds c.target with
      | none => exact absurd h1 (List.not_mem_nil seg)
      | some tb => exact absurd h1 (List.not_mem_nil seg)
    · rw [hsb] at h1
      rcases htb : getBound bounds c.target with _ | tb
      · rw [htb] at h1
        exact absurd h1 (List.not_mem_nil seg)
      · rw [htb] at h1
        exact segsOfPairs_idx ei _ 0 seg h1

theorem collectSegs_head_none (bounds : List (String × CellBounds)) (c : MxCell)
    (ei : Nat)
    (hm : getBound bounds c.source = none ∨ getBound bounds c.target = none) :
    (if ptsOf c = [] then []
     else match getBound bounds c.source, getBound bounds c.target with
       | some sb, some tb =>
         segsOfPairs ei 0
           ((sb.cx, sb.cy) :: ((ptsOf c).map (fun p => (p.x, p.y)) ++ [(tb.cx, tb.cy)]))
       | _, _ => ([] : List OptSegment)) = [] := by
  by_cases hp : ptsOf c = []
  · rw [if_pos hp]
  · rw [if_neg hp]
    rcases hm with hm | hm
    · rw [hm]
      all_goals (cases getBound bounds c.target <;> rfl)
    · rw [hm]
      all_goals (cases getBound bounds c.source <;> rfl)

theorem collectSegs_ge (bounds : List (String × CellBounds)) :
    ∀ (cells : List MxCell) (ei : Nat),
      ∀ seg ∈ collectSegs bounds ei cells, ei ≤ seg.edge_idx := by
  intro cells
  induction cells with
  | nil =>
    intro ei seg h
    have hnil : collectSegs bounds ei [] = [] := rfl
    rw [hnil] at h
    exact absurd h (List.not_mem_nil seg)
  | cons c rest ih =>
    intro ei seg h
    rcases List.mem_append.mp h with h1 | h1
    · rw [collectSegs_head bounds c ei seg h1]
    · have := ih (ei + 1) seg h1
      omega

theorem collectSegs_noidx (bounds : List (String × CellBounds)) :
    ∀ (cells : List MxCell) (ei j : Nat),
      (getBound bounds ((cells.getD j dfltCell).source) = none ∨
       getBound bounds ((cells.getD j dfltCell).target) = none) →
      ∀ seg ∈ collectSegs bounds ei cells, seg.edge_idx ≠ ei + j := by
  intro cells
  induction cells with
  | nil =>
    intro ei j hm seg h
    have hnil : collectSegs bounds ei [] = [] := rfl
    rw [hnil] at h
    exact absurd h (List.not_mem_nil seg)
  | cons c rest ih =>
    intro ei j hm seg h
    rcases List.mem_append.mp h with h1 | h1
    · cases j with
      | zero =>
        exfalso
        rw [List.getD_cons_zero] at hm
        rw [collectSegs_head_none bounds c ei hm] at h1
        exact absurd h1 (List.not_mem_nil seg)
      | succ j2 =>
        have hidx := collectSegs_head bounds c ei seg h1
        omega
    · cases j with
      | zero =>
        have hge := collectSegs_ge bounds rest (ei + 1) seg h1
        omega
      | succ j2 =>
        rw [List.getD_cons_succ] at hm
        have h2 := ih (ei + 1) j2 hm seg h1
        omega

theorem sepSpread_frame (spacing : ℚ) (grid : ℤ) (so : ℚ) (j : Nat) :
    ∀ (ss : List OptSegment) (idx : Nat) (cells : List MxCell) (modified : Nat),
      (∀ s ∈ ss, s.edge_idx ≠ j) →
      (sepSpread spacing grid so idx ss cells modified).1.getD j dfltCell =
        cells.getD j dfltCell := by
  intro ss
  induction ss with
  | nil => intro idx cells modified h; rfl
  | cons seg rest ih =>
    intro idx cells modified h
    unfold sepSpread
    split
    · exact ih (idx + 1) cells modified (fun s hs => h s (List.mem_cons_of_mem seg hs))
    · cases ptsOf (cells.getD seg.edge_idx dfltCell) with
      | nil =>
        exact ih (idx + 1) cells modified (fun s hs => h s (List.mem_cons_of_mem seg hs))
      | cons p0 prest =>
        rw [ih (idx + 1) _ _ (fun s hs => h s (List.mem_cons_of_mem seg hs))]
        exact getD_set_ne _ seg.edge_idx j _ _ (h seg (List.mem_cons_self seg rest))

theorem sepSpread_length (spacing : ℚ) (grid : ℤ) (so : ℚ) :
    ∀ (ss : List OptSegment) (idx : Nat) (cells : List MxCell) (modified : Nat),
      (sepSpread spacing grid so idx ss cells modified).1.length = cells.length := by
  intro ss
  induction ss with
  | nil => intro idx cells modified; rfl
  | cons seg rest ih =>
    intro idx cells modified
    unfold sepSpread
    split
    · exact ih (idx + 1) cells modified
    · cases ptsOf (cells.getD seg.edge_idx dfltCell) with
      | nil => exact ih (idx + 1) cells modified
      | cons p0 prest =>
        rw [ih (idx + 1) _ _]
        exact List.length_set ..

theorem clusterCollect_lt (segments : List OptSegment) (s : OptSegment) (spacing : ℚ) :
    ∀ (k j : Nat) (processed : List Nat),
      ∀ x ∈ (clusterCollect segments s spacing j k processed).1, j ≤ x ∧ x < j + k := by
  intro k
  induction k with
  | zero =>
    intro j processed x hx
    exact absurd hx (List.not_mem_nil x)
  | succ k2 ih =>
    intro j processed x hx
    unfold clusterCollect at hx
    split at hx
    · have h2 := ih (j + 1) processed x hx
      omega
    · split at hx
      · rcases List.mem_cons.mp hx with h2 | h2
        · omega
        · have h3 := ih (j + 1) (processed ++ [j]) x h2
          omega
      · have h2 := ih (j + 1) processed x hx
        omega

theorem sepOuter_frame (segments : List OptSegment) (spacing : ℚ) (grid : ℤ) (j : Nat)
    (hseg : ∀ s ∈ segments, s.edge_idx ≠ j) :
    ∀ (fuel i : Nat) (processed : List Nat) (cells : List MxCell) (modified : Nat),
      fuel + i = segments.length →
      (sepOuter segments spacing grid fuel i processed cells modified).1.getD j dfltCell =
        cells.getD j dfltCell := by
  intro fuel
  induction fuel with
  | zero => intro i processed cells modified hfi; rfl
  | succ k ih =>
    intro i processed cells modified hfi
    unfold sepOuter
    simp only []
    split
    · exact ih (i + 1) processed cells modified (by omega)
    · split
      · exact ih (i + 1) _ cells modified (by omega)
      · have hmem : ∀ s ∈ ((i :: (clusterCollect segments (segments.getD i dfltSeg)
            spacing (i + 1) (segments.length - (i + 1)) processed).1).map
              (fun k2 => segments.getD k2 dfltSeg)), s.edge_idx ≠ j := by
          intro s hs
          rcases List.mem_map.mp hs with ⟨k2, hk2, hsk⟩
          rcases List.mem_cons.mp hk2 with h2 | h2
          · rw [← hsk, h2]
            exact hseg (segments.getD i dfltSeg)
              (getD_mem_of_lt segments i dfltSeg (by omega))
          · have h3 := clusterCollect_lt segments (segments.getD i dfltSeg) spacing
              (segments.length - (i + 1)) (i + 1) processed k2 h2
            rw [← hsk]
            exact hseg (segments.getD k2 dfltSeg)
              (getD_mem_of_lt segments k2 dfltSeg (by omega))
        rw [ih (i + 1) _ _ _ (by omega)]
        exact sepSpread_frame spacing grid _ j _ 0 cells modified hmem

theorem sepOuter_length (segments : List OptSegment) (spacing : ℚ) (grid : ℤ) :
    ∀ (fuel i : Nat) (processed : List Nat) (cells : List MxCell) (modified : Nat),
      (sepOuter segments spacing grid fuel i processed cells modified).1.length =
        cells.length := by
  intro fuel
  induction fuel with
  | zero => intro i processed cells modified; rfl
  | succ k ih =>
    intro i processed cells modified
    unfold sepOuter
    simp only []
    split
    · exact ih (i + 1) processed cells modified
    · split
      · exact ih (i + 1) _ cells modified
      · rw [ih (i + 1) _ _ _]
        exact sepSpread_length spacing grid _ _ 0 cells modified

theorem mergeEdges_getD : ∀ (cells upd : List MxCell) (k : Nat),
    upd.length = (cells.filter isEdgeCell).length →
    (mergeEdges cells upd).getD k dfltCell =
      (if isEdgeCell (cells.getD k dfltCell) = true then
        upd.getD (((cells.take k).filter isEdgeCell).length) dfltCell
       else cells.getD k dfltCell) := by
  intro cells
  induction cells with
  | nil =>
    intro upd k hlen
    have hu : upd = [] := List.length_eq_zero.mp (by simpa using hlen)
    rw [hu]
    rw [if_neg (by rw [getD_of_ge ([] : List MxCell) k dfltCell (by simp),
      isEdgeCell_dflt]; exact fun h => Bool.noConfusion h)]
    rfl
  | cons c rest ih =>
    intro upd k hlen
    unfold mergeEdges
    by_cases hc : isEdgeCell c = true
    · rw [if_pos hc]
      rw [List.filter_cons, if_pos hc] at hlen
      cases upd with
      | nil => exact absurd hlen (by simp)
      | cons u urest =>
        dsimp only
        rw [List.length_cons, List.length_cons] at hlen
        cases k with
        | zero =>
          rw [List.getD_cons_zero, List.getD_cons_zero, if_pos hc]
          rfl
        | succ k2 =>
          rw [List.getD_cons_succ, List.getD_cons_succ,
            ih urest k2 (Nat.succ.inj hlen)]
          by_cases hk : isEdgeCell (rest.getD k2 dfltCell) = true
          · rw [if_pos hk, if_pos hk, List.take_succ_cons, List.filter_cons,
              if_pos hc, List.length_cons, List.getD_cons_succ]
          · rw [if_neg hk, if_neg hk]
    · rw [if_neg hc]
      rw [List.filter_cons, if_neg hc] at hlen
      cases k with
      | zero =>
        rw [List.getD_cons_zero, List.getD_cons_zero, if_neg hc]
      | succ k2 =>
        rw [List.getD_cons_succ, List.getD_cons_succ, ih upd k2 hlen,
          List.take_succ_cons, List.filter_cons, if_neg hc]

theorem filter_getD_edgeRank : ∀ (cells : List MxCell) (k : Nat),
    k < cells.length → isEdgeCell (cells.getD k dfltCell) = true →
    (cells.filter isEdgeCell).getD (((cells.take k).filter isEdgeCell).length) dfltCell =
      cells.getD k dfltCell := by
  intro cells
  induction cells with
  | nil =>
    intro k hk he
    simp at hk
  | cons c rest ih =>
    intro k hk he
    cases k with
    | zero =>
      rw [List.getD_cons_zero] at he ⊢
      rw [List.filter_cons, if_pos he]
      rfl
    | succ k2 =>
      rw [List.getD_cons_succ] at he
      rw [List.length_cons] at hk
      rw [List.getD_cons_succ, List.take_succ_cons, List.filter_cons, List.filter_cons]
      by_cases hc : isEdgeCell c = true
      · rw [if_pos hc, if_pos hc, List.length_cons, List.getD_cons_succ]
        exact ih k2 (by omega) he
      · rw [if_neg hc, if_neg hc]
        exact ih k2 (by omega) he

theorem sep_length (ec : List MxCell) (bounds : List (String × CellBounds))
    (spacing : ℚ) (grid : ℤ) :
    (opt_separate_parallel_edges ec bounds spacing grid).1.length = ec.length := by
  unfold opt_separate_parallel_edges
  split
  · rfl
  · exact sepOuter_length (collectSegs bounds 0 ec) spacing grid
      (collectSegs bounds 0 ec).length 0 [] ec 0

theorem sep_getD_skip (ec : List MxCell) (bounds : List (String × CellBounds))
    (spacing : ℚ) (grid : ℤ) (r : Nat)
    (hm : getBound bounds ((ec.getD r dfltCell).source) = none ∨
          getBound bounds ((ec.getD r dfltCell).target) = none) :
    (opt_separate_parallel_edges ec bounds spacing grid).1.getD r dfltCell =
      ec.getD r dfltCell := by
  unfold opt_separate_parallel_edges
  split
  · rfl
  · exact sepOuter_frame (collectSegs bounds 0 ec) spacing grid r
      (fun s hs => by
        have h2 := collectSegs_noidx bounds ec 0 r hm s hs
        omega)
      (collectSegs bounds 0 ec).length 0 [] ec 0 (by omega)

/-- C9: an edge whose source or target identity has no bounding box is
skipped by both the routing pass and the optimizer — its cell is left
exactly unchanged, geometry and waypoints included — while the routing
pass still counts exactly the edges whose endpoints both have bounds. -/
theorem C9_skip (d : Diagram) (margin threshold spacing : ℚ) (fuel k : Nat)
    (hedge : isEdgeCell (d.cells.getD k dfltCell) = true)
    (hmiss : getBound (get_all_vertex_bounds d.cells)
        (d.cells.getD k dfltCell).source = none ∨
      getBound (get_all_vertex_bounds d.cells)
        (d.cells.getD k dfltCell).target = none) :
    (route_edges_around_obstacles d margin fuel).1.cells.getD k dfltCell =
      d.cells.getD k dfltCell ∧
    (route_edges_around_obstacles d margin fuel).2 =
      (if get_all_vertex_bounds d.cells = [] then 0
       else (d.cells.filter (fun c => isEdgeCell c &&
         (getBound (get_all_vertex_bounds d.cells) c.source).isSome &&
         (getBound (get_all_vertex_bounds d.cells) c.target).isSome)).length) ∧
    (optimize_edge_paths d margin threshold spacing).1.cells.getD k dfltCell =
      d.cells.getD k dfltCell := by
  refine ⟨?_, ?_, ?_⟩
  · unfold route_edges_around_obstacles
    by_cases hb : get_all_vertex_bounds d.cells = []
    · rw [if_pos hb]
    · rw [if_neg hb]
      rcases hrf : routeFold (get_all_vertex_bounds d.cells) margin d.grid_size fuel
        d.cells with ⟨cells2, n⟩
      dsimp only
      have h2 := routeFold_getD (get_all_vertex_bounds d.cells) margin d.grid_size
        fuel d.cells k
      rw [hrf] at h2
      dsimp only at h2
      rw [h2, routeCell_skip _ _ _ _ _ hmiss]
  · unfold route_edges_around_obstacles
    by_cases hb : get_all_vertex_bounds d.cells = []
    · rw [if_pos hb, if_pos hb]
    · rw [if_neg hb, if_neg hb]
      rcases hrf : routeFold (get_all_vertex_bounds d.cells) margin d.grid_size fuel
        d.cells with ⟨cells2, n⟩
      dsimp only
      have h2 := routeFold_count (get_all_vertex_bounds d.cells) margin d.grid_size
        fuel d.cells
      rw [hrf] at h2
      exact h2
  · unfold optimize_edge_paths
    by_cases hb : get_all_vertex_bounds d.cells = []
    · rw [if_pos hb]
    · rw [if_neg hb]
      rcases hp14 : optPass14 (get_all_vertex_bounds d.cells) margin threshold
          (if d.grid_size = 0 then 10 else d.grid_size) (d.cells.filter isEdgeCell)
        with ⟨ec2, m14⟩
      dsimp only
      rcases hsep : opt_separate_parallel_edges ec2 (get_all_vertex_bounds d.cells)
          spacing (if d.grid_size = 0 then 10 else d.grid_size) with ⟨ec3, m5⟩
      dsimp only
      have hk := edge_lt_length d.cells k hedge
      have hec2len : ec2.length = (d.cells.filter isEdgeCell).length := by
        have h3 := optPass14_length (get_all_vertex_bounds d.cells) margin threshold
          (if d.grid_size = 0 then 10 else d.grid_size) (d.cells.filter isEdgeCell)
        rw [hp14] at h3
        exact h3
      have hec3len : ec3.length = (d.cells.filter isEdgeCell).length := by
        have h3 := sep_length ec2 (get_all_vertex_bounds d.cells) spacing
          (if d.grid_size = 0 then 10 else d.grid_size)
        rw [hsep] at h3
        exact h3.trans hec2len
      have hfil := filter_getD_edgeRank d.cells k hk hedge
      have hr2 : ec2.getD (((d.cells.take k).filter isEdgeCell).length) dfltCell =
          (optCellPass (get_all_vertex_bounds d.cells) margin threshold
            (if d.grid_size = 0 then 10 else d.grid_size)
            ((d.cells.filter isEdgeCell).getD
              (((d.cells.take k).filter isEdgeCell).length) dfltCell)).1 := by
        have h3 := optPass14_getD (get_all_vertex_bounds d.cells) margin threshold
          (if d.grid_size = 0 then 10 else d.grid_size) (d.cells.filter isEdgeCell)
          (((d.cells.take k).filter isEdgeCell).length)
        rw [hp14] at h3
        exact h3
      have hm3 : getBound (get_all_vertex_bounds d.cells)
          (((d.cells.filter isEdgeCell).getD
            (((d.cells.take k).filter isEdgeCell).length) dfltCell).source) = none ∨
          getBound (get_all_vertex_bounds d.cells)
          (((d.cells.filter isEdgeCell).getD
            (((d.cells.take k).filter isEdgeCell).length) dfltCell).target) = none := by
        rw [hfil]
        exact hmiss
      have hm2 : getBound (get_all_vertex_bounds d.cells)
          ((ec2.getD (((d.cells.take k).filter isEdgeCell).length) dfltCell).source) =
            none ∨
          getBound (get_all_vertex_bounds d.cells)
          ((ec2.getD (((d.cells.take k).filter isEdgeCell).length) dfltCell).target) =
            none := by
        rcases hm3 with hm | hm
        · left
          rw [hr2, (optCellPass_source _ _ _ _ _).1]
          exact hm
        · right
          rw [hr2, (optCellPass_source _ _ _ _ _).2]
          exact hm
      have hskip := sep_getD_skip ec2 (get_all_vertex_bounds d.cells) spacing
        (if d.grid_size = 0 then 10 else d.grid_size)
        (((d.cells.take k).filter isEdgeCell).length) hm2
      rw [hsep] at hskip
      dsimp only at hskip
      rw [mergeEdges_getD d.cells ec3 k hec3len, if_pos hedge, hskip, hr2,
        optCellPass_skip _ _ _ _ _ hm3]
      exact hfil

theorem C9_skip_witness :
    (route_edges_around_obstacles c9Diagram 15 30).1.cells.getD 2 dfltCell =
      c9Diagram.cells.getD 2 dfltCell ∧
    (route_edges_around_obstacles c9Diagram 15 30).2 =
      (if get_all_vertex_bounds c9Diagram.cells = [] then 0
       else (c9Diagram.cells.filter (fun c => isEdgeCell c &&
         (getBound (get_all_vertex_bounds c9Diagram.cells) c.source).isSome &&
         (getBound (get_all_vertex_bounds c9Diagram.cells) c.target).isSome)).length) ∧
    (optimize_edge_paths c9Diagram 15 8 10).1.cells.getD 2 dfltCell =
      c9Diagram.cells.getD 2 dfltCell :=
  C9_skip c9Diagram 15 8 10 30 2 (by decide) (by decide)

/-! ### C3: rank monotonicity and acyclicity of the effective graph -/

theorem lookupFirstS_cons {α : Type} (e : String × α) (l : List (String × α))
    (k : String) :
    lookupFirstS (e :: l) k = if e.1 = k then some e.2 else lookupFirstS l k := rfl

theorem lookupFirstS_cons_self {α : Type} (c : String) (r : α)
    (l : List (String × α)) : lookupFirstS ((c, r) :: l) c = some r := by
  rw [lookupFirstS_cons, if_pos rfl]

theorem lookupFirstS_cons_ne {α : Type} (c k : String) (r : α)
    (l : List (String × α)) (h : ¬c = k) :
    lookupFirstS ((c, r) :: l) k = lookupFirstS l k := by
  rw [lookupFirstS_cons, if_neg h]

theorem lookupFirstS_map_zero_mem :
    ∀ (start : List String) (u : String) (ru : Nat),
      lookupFirstS (start.map (fun s => (s, 0))) u = some ru → u ∈ start := by
  intro start
  induction start with
  | nil => intro u ru h; exact Option.noConfusion h
  | cons a l ih =>
    intro u ru h
    rw [List.map_cons] at h
    by_cases hau : a = u
    · exact List.mem_cons.mpr (Or.inl hau.symm)
    · rw [lookupFirstS_cons_ne a u _ _ hau] at h
      exact List.mem_cons_of_mem _ (ih u ru h)

theorem lookupFirstS_mem_map_zero :
    ∀ (start : List String) (u : String), u ∈ start →
      lookupFirstS (start.map (fun s => (s, 0))) u = some 0 := by
  intro start
  induction start with
  | nil => intro u hu; exact absurd hu (List.not_mem_nil u)
  | cons a l ih =>
    intro u hu
    rw [List.map_cons]
    by_cases hau : a = u
    · rw [← hau, lookupFirstS_cons_self]
    · rw [lookupFirstS_cons_ne a u _ _ hau]
      refine ih u ?_
      rcases List.mem_cons.mp hu with h | h
      · exact absurd h.symm hau
      · exact h

theorem mem_effAdj (eff : List (String × String)) (e : String × String)
    (he : e ∈ eff) : e.2 ∈ effAdj eff e.1 := by
  unfold effAdj
  exact List.mem_map.mpr ⟨e, List.mem_filter.mpr ⟨he, by simp⟩, rfl⟩

theorem relaxFold_cons (adj : String → List String) (node c : String)
    (cs queue : List String) (ranks : List (String × Nat)) :
    relaxFold adj node (c :: cs) queue ranks =
      match lookupFirstS ranks c with
      | none => relaxFold adj node cs (queue ++ [c])
          ((c, (lookupFirstS ranks node).getD 0 + 1) :: ranks)
      | some rc =>
        if rc < (lookupFirstS ranks node).getD 0 + 1 then
          relaxFold adj node cs (queue ++ [c])
            ((c, (lookupFirstS ranks node).getD 0 + 1) :: ranks)
        else relaxFold adj node cs queue ranks := rfl

theorem relaxFold_inv (adj : String → List String) (node : String) :
    ∀ (cs : List String) (queue : List String) (ranks : List (String × Nat)),
      MidInv adj node cs queue ranks → QueueRanked queue ranks →
      MidInv adj node [] (relaxFold adj node cs queue ranks).1
          (relaxFold adj node cs queue ranks).2 ∧
        QueueRanked (relaxFold adj node cs queue ranks).1
          (relaxFold adj node cs queue ranks).2 := by
  intro cs
  induction cs with
  | nil => intro queue ranks hmid hqr; exact ⟨hmid, hqr⟩
  | cons c cs ih =>
    intro queue ranks hmid hqr
    rw [relaxFold_cons]
    rcases hc : lookupFirstS ranks c with _ | rc
    · dsimp only
      refine ih (queue ++ [c]) ((c, (lookupFirstS ranks node).getD 0 + 1) :: ranks)
        ?_ ?_
      · intro u ru hu
        by_cases huc : c = u
        · left
          exact List.mem_append.mpr (Or.inr (List.mem_singleton.mpr huc.symm))
        · have hu2 : lookupFirstS ranks u = some ru := by
            rwa [lookupFirstS_cons_ne c u _ ranks huc] at hu
          rcases hmid u ru hu2 with hq | ⟨hun, hns⟩ | ⟨hne, hsat⟩
          · left; exact List.mem_append.mpr (Or.inl hq)
          · right; left
            refine ⟨hun, fun v hv => ?_⟩
            rcases hns v hv with hvcs | ⟨rv, hrv, hle⟩
            · rcases List.mem_cons.mp hvcs with hveq | hvcs2
              · subst hveq
                right
                refine ⟨(lookupFirstS ranks node).getD 0 + 1,
                  lookupFirstS_cons_self _ _ _, ?_⟩
                rw [hun] at hu2
                rw [hu2]
                exact Nat.le_refl _
              · left; exact hvcs2
            · by_cases hvc : c = v
              · subst hvc
                rw [hc] at hrv
                exact Option.noConfusion hrv
              · right
                refine ⟨rv, ?_, hle⟩
                rw [lookupFirstS_cons_ne c v _ _ hvc]
                exact hrv
          · right; right
            refine ⟨hne, fun v hv => ?_⟩
            rcases hsat v hv with ⟨rv, hrv, hle⟩
            by_cases hvc : c = v
            · subst hvc
              rw [hc] at hrv
              exact Option.noConfusion hrv
            · refine ⟨rv, ?_, hle⟩
              rw [lookupFirstS_cons_ne c v _ _ hvc]
              exact hrv
      · intro u hu
        rcases List.mem_append.mp hu with h1 | h2
        · have h3 := hqr u h1
          by_cases hvc : c = u
          · rw [← hvc, lookupFirstS_cons_self]
            simp
          · rw [lookupFirstS_cons_ne c u _ _ hvc]
            exact h3
        · rw [List.mem_singleton] at h2
          subst h2
          rw [lookupFirstS_cons_self]
          simp
    · dsimp only
      by_cases hlt : rc < (lookupFirstS ranks node).getD 0 + 1
      · rw [if_pos hlt]
        refine ih (queue ++ [c]) ((c, (lookupFirstS ranks node).getD 0 + 1) :: ranks)
          ?_ ?_
        · intro u ru hu
          by_cases huc : c = u
          · left
            exact List.mem_append.mpr (Or.inr (List.mem_singleton.mpr huc.symm))
          · have hu2 : lookupFirstS ranks u = some ru := by
              rwa [lookupFirstS_cons_ne c u _ ranks huc] at hu
            rcases hmid u ru hu2 with hq | ⟨hun, hns⟩ | ⟨hne, hsat⟩
            · left; exact List.mem_append.mpr (Or.inl hq)
            · right; left
              refine ⟨hun, fun v hv => ?_⟩
              rcases hns v hv with hvcs | ⟨rv, hrv, hle⟩
              · rcases List.mem_cons.mp hvcs with hveq | hvcs2
                · subst hveq
                  right
                  refine ⟨(lookupFirstS ranks node).getD 0 + 1,
                    lookupFirstS_cons_self _ _ _, ?_⟩
                  rw [hun] at hu2
                  rw [hu2]
                  exact Nat.le_refl _
                · left; exact hvcs2
              · by_cases hvc : c = v
                · subst hvc
                  rw [hc] at hrv
                  have hrvrc : rc = rv := Option.some.inj hrv
                  right
                  refine ⟨(lookupFirstS ranks node).getD 0 + 1,
                    lookupFirstS_cons_self _ _ _, ?_⟩
                  omega
                · right
                  refine ⟨rv, ?_, hle⟩
                  rw [lookupFirstS_cons_ne c v _ _ hvc]
                  exact hrv
            · right; right
              refine ⟨hne, fun v hv => ?_⟩
              rcases hsat v hv with ⟨rv, hrv, hle⟩
              by_cases hvc : c = v
              · subst hvc
                rw [hc] at hrv
                have hrvrc : rc = rv := Option.some.inj hrv
                refine ⟨(lookupFirstS ranks node).getD 0 + 1,
                  lookupFirstS_cons_self _ _ _, ?_⟩
                omega
              · refine ⟨rv, ?_, hle⟩
                rw [lookupFirstS_cons_ne c v _ _ hvc]
                exact hrv
        · intro u hu
          rcases List.mem_append.mp hu with h1 | h2
          · have h3 := hqr u h1
            by_cases hvc : c = u
            · rw [← hvc, lookupFirstS_cons_self]
              simp
            · rw [lookupFirstS_cons_ne c u _ _ hvc]
              exact h3
          · rw [List.mem_singleton] at h2
            subst h2
            rw [lookupFirstS_cons_self]
            simp
      · rw [if_neg hlt]
        refine ih queue ranks ?_ hqr
        intro u ru hu
        rcases hmid u ru hu with hq | ⟨hun, hns⟩ | hother
        · left; exact hq
        · right; left
          refine ⟨hun, fun v hv => ?_⟩
          rcases hns v hv with hvcs | hs
          · rcases List.mem_cons.mp hvcs with hveq | hvcs2
            · subst hveq
              right
              refine ⟨rc, hc, ?_⟩
              rw [hun] at hu
              rw [hu] at hlt
              simp only [Option.getD_some] at hlt
              omega
            · left; exact hvcs2
          · right; exact hs
        · right; right; exact hother

theorem bfsLoop_step_inv (adj : String → List String) (node : String)
    (rest : List String) (ranks : List (String × Nat))
    (hinv : BfsInv adj (node :: rest) ranks)
    (hqr : QueueRanked (node :: rest) ranks) :
    BfsInv adj (relaxFold adj node (adj node) rest ranks).1
        (relaxFold adj node (adj node) rest ranks).2 ∧
      QueueRanked (relaxFold adj node (adj node) rest ranks).1
        (relaxFold adj node (adj node) rest ranks).2 := by
  have hmid : MidInv adj node (adj node) rest ranks := by
    intro u ru hu
    rcases hinv u ru hu with hq | hsat
    · rcases List.mem_cons.mp hq with he | hr
      · right; left
        exact ⟨he, fun v hv => Or.inl hv⟩
      · left; exact hr
    · by_cases hun : u = node
      · right; left
        refine ⟨hun, fun v hv => Or.inr (hsat v ?_)⟩
        rw [hun]
        exact hv
      · right; right; exact ⟨hun, hsat⟩
  have hqr2 : QueueRanked rest ranks := fun u hu => hqr u (List.mem_cons_of_mem _ hu)
  have h := relaxFold_inv adj node (adj node) rest ranks hmid hqr2
  refine ⟨?_, h.2⟩
  intro u ru hu
  rcases h.1 u ru hu with hq | ⟨hun, hns⟩ | ⟨hne, hsat⟩
  · left; exact hq
  · right
    subst hun
    intro v hv
    rcases hns v hv with h0 | hs
    · exact absurd h0 (List.not_mem_nil v)
    · exact hs
  · right; exact hsat

theorem bfsLoop_mono (adj : String → List String) :
    ∀ (fuel : Nat) (queue : List String) (ranks ranksB : List (String × Nat)),
      BfsInv adj queue ranks → QueueRanked queue ranks →
      bfsLoop adj fuel queue ranks = some ranksB →
      ∀ u ru, lookupFirstS ranksB u = some ru →
        ∀ v ∈ adj u, ∃ rv, lookupFirstS ranksB v = some rv ∧ ru + 1 ≤ rv := by
  intro fuel
  induction fuel with
  | zero =>
    intro queue ranks ranksB hinv hqr hrun
    cases queue with
    | nil =>
      have heq : ranks = ranksB := Option.some.inj hrun
      subst heq
      intro u ru hu
      rcases hinv u ru hu with hq | hsat
      · exact absurd hq (List.not_mem_nil u)
      · exact hsat
    | cons a q => exact Option.noConfusion hrun
  | succ n ih =>
    intro queue ranks ranksB hinv hqr hrun
    cases queue with
    | nil =>
      have heq : ranks = ranksB := Option.some.inj hrun
      subst heq
      intro u ru hu
      rcases hinv u ru hu with hq | hsat
      · exact absurd hq (List.not_mem_nil u)
      · exact hsat
    | cons node rest =>
      have hstep := bfsLoop_step_inv adj node rest ranks hinv hqr
      exact ih _ _ ranksB hstep.1 hstep.2 hrun

/-- C3: refuted as stated — on the single self-loop edge list
`[("a", "a")]` the DFS records the self-loop as a back-edge, its reversal
is the same edge, and the effective graph still contains the cycle
`a → a`; the acyclicity conjunct of the claim fails (and the rank BFS in
fact never terminates on this input). -/
theorem C3_counterexample : ¬C3Statement := by
  intro h
  have hmem : ∀ i, i + 1 < (["a", "a"] : List String).length →
      ((["a", "a"] : List String).getD i "",
        (["a", "a"] : List String).getD (i + 1) "") ∈
        effective_edges [("a", "a")] (find_back_edges [("a", "a")] 5) := by
    intro i hi
    have hi0 : i = 0 := by
      simp only [List.length_cons, List.length_nil] at hi
      omega
    subst hi0
    decide
  exact (h [("a", "a")] 5 5).1 ["a", "a"] (by decide) hmem rfl

/-- C3 (amended): whenever the rank BFS terminates and every effective
edge's source received a rank, ranks grow by at least one along every
effective edge, and consequently the effective graph restricted to these
runs is acyclic: no chain of effective edges returns to its start.  As
stated the claim is false: a self-loop survives cycle removal (its
reversal is itself), leaving a cyclic effective graph on which the rank
BFS diverges. -/
theorem C3_amended (edges : List (String × String)) (gas fuel : Nat)
    (ranksB : List (String × Nat))
    (hbfs : bfsLoop (effAdj (effective_edges edges (find_back_edges edges gas))) fuel
        (assign_ranks_start edges (effective_edges edges (find_back_edges edges gas)))
        ((assign_ranks_start edges
          (effective_edges edges (find_back_edges edges gas))).map (fun s => (s, 0))) =
      some ranksB)
    (hall : ∀ e ∈ effective_edges edges (find_back_edges edges gas),
        lookupFirstS ranksB e.1 ≠ none) :
    (∀ e ∈ effective_edges edges (find_back_edges edges gas),
        (lookupFirstS ranksB e.1).getD 0 + 1 ≤ (lookupFirstS ranksB e.2).getD 0) ∧
      (∀ l : List String, 1 < l.length →
        (∀ i, i + 1 < l.length →
          (l.getD i "", l.getD (i + 1) "") ∈
            effective_edges edges (find_back_edges edges gas)) →
        l.getD 0 "" ≠ l.getD (l.length - 1) "") := by
  set eff := effective_edges edges (find_back_edges edges gas) with heff
  have hinv0 : BfsInv (effAdj eff) (assign_ranks_start edges eff)
      ((assign_ranks_start edges eff).map (fun s => (s, 0))) := by
    intro u ru hu
    left
    exact lookupFirstS_map_zero_mem _ u ru hu
  have hqr0 : QueueRanked (assign_ranks_start edges eff)
      ((assign_ranks_start edges eff).map (fun s => (s, 0))) := by
    intro u hu
    rw [lookupFirstS_mem_map_zero _ u hu]
    simp
  have hmono := bfsLoop_mono (effAdj eff) fuel _ _ ranksB hinv0 hqr0 hbfs
  have hedge : ∀ e ∈ eff, (lookupFirstS ranksB e.1).getD 0 + 1 ≤
      (lookupFirstS ranksB e.2).getD 0 := by
    intro e he
    rcases ho : lookupFirstS ranksB e.1 with _ | ru
    · exact absurd ho (hall e he)
    · rcases hmono e.1 ru ho e.2 (mem_effAdj eff e he) with ⟨rv, hrv, hle⟩
      rw [hrv]
      simpa using hle
  refine ⟨hedge, ?_⟩
  intro l hlen hsteps
  have hgrow : ∀ i, i < l.length →
      (lookupFirstS ranksB (l.getD 0 "")).getD 0 + i ≤
        (lookupFirstS ranksB (l.getD i "")).getD 0 := by
    intro i
    induction i with
    | zero => intro _; omega
    | succ j ihj =>
      intro hij
      have h1 := ihj (by omega)
      have h2 := hedge (l.getD j "", l.getD (j + 1) "") (hsteps j hij)
      dsimp only at h2
      omega
  intro heq
  have h1 := hgrow (l.length - 1) (by omega)
  rw [heq] at h1
  omega

theorem C3_amended_witness :
    (∀ e ∈ effective_edges c3WEdges (find_back_edges c3WEdges 20),
        (lookupFirstS c3WRanks e.1).getD 0 + 1 ≤ (lookupFirstS c3WRanks e.2).getD 0) ∧
      (∀ l : List String, 1 < l.length →
        (∀ i, i + 1 < l.length →
          (l.getD i "", l.getD (i + 1) "") ∈
            effective_edges c3WEdges (find_back_edges c3WEdges 20)) →
        l.getD 0 "" ≠ l.getD (l.length - 1) "") :=
  C3_amended c3WEdges 20 10 c3WRanks (by decide) (by decide)

/-! ### C7: every written coordinate is a grid multiple -/

theorem snap_mult (v : ℚ) (g : ℤ) : IsGridMultiple (snap_to_grid v g) g :=
  ⟨pyRound (qdiv v ((g : ℤ) : ℚ)), by unfold snap_to_grid; rw [qmul_eq]⟩

theorem zero_mult (g : ℤ) : IsGridMultiple 0 g := ⟨0, by simp⟩

theorem getD_set_eq {α : Type} (l : List α) (i : Nat) (a d : α) (h : i < l.length) :
    (l.set i a).getD i d = a := by
  rw [List.getD_eq_getElem?_getD, List.getElem?_set_self (by simpa using h)]
  rfl

theorem router_snapped (fuel : Nat) (src tgt : CellBounds)
    (obstacles : List CellBounds) (margin : ℚ) (g : ℤ) :
    ∀ p ∈ route_orthogonal_astar fuel src tgt obstacles margin g,
      IsGridMultiple p.x g ∧ IsGridMultiple p.y g := by
  intro p hp
  rw [route_eq_snap] at hp
  rcases List.mem_map.mp hp with ⟨q, hq, hpq⟩
  rw [← hpq]
  exact ⟨snap_mult q.1 g, snap_mult q.2 g⟩

theorem ptsOf_setPts_sub (c : MxCell) (pts : List Pt) :
    ∀ p ∈ ptsOf (setPts c pts), p ∈ pts := by
  intro p hp
  unfold setPts ptsOf at hp
  rcases hg : c.geometry with _ | g0
  · rw [hg] at hp
    exact absurd hp (List.not_mem_nil p)
  · rw [hg] at hp
    exact hp

theorem routeCell_snap (bounds : List (String × CellBounds)) (margin : ℚ) (g : ℤ)
    (fuel : Nat) (c : MxCell) :
    (routeCell bounds margin g fuel c).1 = c ∨
      AllSnapped (routeCell bounds margin g fuel c).1 g := by
  unfold routeCell
  by_cases he : isEdgeCell c = false
  · rw [if_pos he]
    exact Or.inl rfl
  · rw [if_neg he]
    cases getBound bounds c.source with
    | none => exact Or.inl rfl
    | some sb =>
      cases getBound bounds c.target with
      | none => exact Or.inl rfl
      | some tb =>
        dsimp only
        right
        cases c.geometry with
        | none =>
          intro p hp
          exact router_snapped fuel sb tb (routeObstacles bounds c) margin g p hp
        | some g0 =>
          intro p hp
          exact router_snapped fuel sb tb (routeObstacles bounds c) margin g p hp

theorem routePass_snap (d : Diagram) (margin : ℚ) (fuel k : Nat) :
    (route_edges_around_obstacles d margin fuel).1.cells.getD k dfltCell =
        d.cells.getD k dfltCell ∨
      AllSnapped ((route_edges_around_obstacles d margin fuel).1.cells.getD k dfltCell)
        d.grid_size := by
  unfold route_edges_around_obstacles
  by_cases hb : get_all_vertex_bounds d.cells = []
  · rw [if_pos hb]
    exact Or.inl rfl
  · rw [if_neg hb]
    rcases hrf : routeFold (get_all_vertex_bounds d.cells) margin d.grid_size fuel
      d.cells with ⟨cells2, n⟩
    dsimp only
    have hg := routeFold_getD (get_all_vertex_bounds d.cells) margin d.grid_size fuel
      d.cells k
    rw [hrf] at hg
    dsimp only at hg
    rw [hg]
    exact routeCell_snap (get_all_vertex_bounds d.cells) margin d.grid_size fuel
      (d.cells.getD k dfltCell)

theorem snapRel_refl (grid : ℤ) (cells : List MxCell) : SnapRel grid cells cells :=
  fun _ => ⟨Or.inl rfl, Or.inl rfl⟩

theorem snapRel_trans (grid : ℤ) {a b c : List MxCell}
    (h1 : SnapRel grid a b) (h2 : SnapRel grid b c) : SnapRel grid a c := by
  intro k
  rcases h1 k with ⟨hx1, hy1⟩
  rcases h2 k with ⟨hx2, hy2⟩
  constructor
  · rcases hx2 with h | h
    · rw [h]
      exact hx1
    · exact Or.inr h
  · rcases hy2 with h | h
    · rw [h]
      exact hy1
    · exact Or.inr h

theorem setGeoX_some (c : MxCell) (v : ℚ) (g0 : Geometry) (hg : c.geometry = some g0) :
    setGeoX c v = { c with geometry := some { g0 with x := v } } := by
  unfold setGeoX
  rw [hg]

theorem setGeoY_some (c : MxCell) (v : ℚ) (g0 : Geometry) (hg : c.geometry = some g0) :
    setGeoY c v = { c with geometry := some { g0 with y := v } } := by
  unfold setGeoY
  rw [hg]

theorem geoX_eq_of_some (c : MxCell) (g0 : Geometry) (hg : c.geometry = some g0) :
    geoX c = g0.x := by
  unfold geoX
  rw [hg]

theorem geoY_eq_of_some (c : MxCell) (g0 : Geometry) (hg : c.geometry = some g0) :
    geoY c = g0.y := by
  unfold geoY
  rw [hg]

theorem getD_set_cases {α : Type} (l : List α) (i k : Nat) (a d : α) :
    (l.set i a).getD k d = l.getD k d ∨
      (i = k ∧ i < l.length ∧ (l.set i a).getD k d = a) := by
  by_cases hik : i = k
  · by_cases hlen : i < l.length
    · right
      refine ⟨hik, hlen, ?_⟩
      rw [← hik]
      exact getD_set_eq l i a d hlen
    · left
      rw [List.set_eq_of_length_le (by omega)]
  · exact Or.inl (getD_set_ne l i k a d hik)

theorem setPair_rel (grid : ℤ) (cells : List MxCell) (ai bi : Nat) (va vb : ℚ)
    (ag bg : Geometry)
    (hga : (cells.getD ai dfltCell).geometry = some ag)
    (hgb : (cells.getD bi dfltCell).geometry = some bg) :
    SnapRel grid cells
      ((cells.set ai (setGeoX (cells.getD ai dfltCell) (snap_to_grid va grid))).set bi
        (setGeoX (cells.getD bi dfltCell) (snap_to_grid vb grid))) ∧
    SnapRel grid cells
      ((cells.set ai (setGeoY (cells.getD ai dfltCell) (snap_to_grid va grid))).set bi
        (setGeoY (cells.getD bi dfltCell) (snap_to_grid vb grid))) := by
  constructor
  · intro k
    rcases getD_set_cases (cells.set ai (setGeoX (cells.getD ai dfltCell)
        (snap_to_grid va grid))) bi k
        (setGeoX (cells.getD bi dfltCell) (snap_to_grid vb grid)) dfltCell with
      h | ⟨hbk, _, h⟩
    · rw [h]
      rcases getD_set_cases cells ai k
          (setGeoX (cells.getD ai dfltCell) (snap_to_grid va grid)) dfltCell with
        h2 | ⟨hak, _, h2⟩
      · rw [h2]
        exact ⟨Or.inl rfl, Or.inl rfl⟩
      · rw [h2, ← hak, setGeoX_some (cells.getD ai dfltCell) _ ag hga]
        refine ⟨Or.inr ?_, Or.inl ?_⟩
        · exact snap_mult va grid
        · rw [geoY_eq_of_some (cells.getD ai dfltCell) ag hga]
          rfl
    · rw [h, ← hbk, setGeoX_some (cells.getD bi dfltCell) _ bg hgb]
      refine ⟨Or.inr ?_, Or.inl ?_⟩
      · exact snap_mult vb grid
      · rw [geoY_eq_of_some (cells.getD bi dfltCell) bg hgb]
        rfl
  · intro k
    rcases getD_set_cases (cells.set ai (setGeoY (cells.getD ai dfltCell)
        (snap_to_grid va grid))) bi k
        (setGeoY (cells.getD bi dfltCell) (snap_to_grid vb grid)) dfltCell with
      h | ⟨hbk, _, h⟩
    · rw [h]
      rcases getD_set_cases cells ai k
          (setGeoY (cells.getD ai dfltCell) (snap_to_grid va grid)) dfltCell with
        h2 | ⟨hak, _, h2⟩
      · rw [h2]
        exact ⟨Or.inl rfl, Or.inl rfl⟩
      · rw [h2, ← hak, setGeoY_some (cells.getD ai dfltCell) _ ag hga]
        refine ⟨Or.inl ?_, Or.inr ?_⟩
        · rw [geoX_eq_of_some (cells.getD ai dfltCell) ag hga]
          rfl
        · exact snap_mult va grid
    · rw [h, ← hbk, setGeoY_some (cells.getD bi dfltCell) _ bg hgb]
      refine ⟨Or.inl ?_, Or.inr ?_⟩
      · rw [geoX_eq_of_some (cells.getD bi dfltCell) bg hgb]
        rfl
      · exact snap_mult vb grid

theorem resolvePairStep_rel (margin : ℚ) (grid : ℤ) (cells : List MxCell)
    (aId bId : String) (aB bB : CellBounds) :
    SnapRel grid cells (resolvePairStep margin grid cells aId bId aB bB).1 := by
  unfold resolvePairStep
  by_cases h0 : aB.intersects bB margin = false
  · rw [if_pos h0]
    exact snapRel_refl grid cells
  · rw [if_neg h0]
    rcases h1 : lastIdxOf cells aId with _ | ai
    · cases lastIdxOf cells bId <;> exact snapRel_refl grid cells
    · rcases h2 : lastIdxOf cells bId with _ | bi
      · exact snapRel_refl grid cells
      · dsimp only
        rcases hga : (cells.getD ai dfltCell).geometry with _ | ag
        · cases (cells.getD bi dfltCell).geometry <;> exact snapRel_refl grid cells
        · rcases hgb : (cells.getD bi dfltCell).geometry with _ | bg
          · exact snapRel_refl grid cells
          · dsimp only
            split
            · split
              · split
                · exact (setPair_rel grid cells ai bi _ _ ag bg hga hgb).1
                · exact (setPair_rel grid cells ai bi _ _ ag bg hga hgb).1
              · split
                · exact (setPair_rel grid cells ai bi _ _ ag bg hga hgb).2
                · exact (setPair_rel grid cells ai bi _ _ ag bg hga hgb).2
            · exact snapRel_refl grid cells

theorem resolveInner_rel (margin : ℚ) (grid : ℤ) (ids : List String)
    (bounds : List (String × CellBounds)) (i : Nat) :
    ∀ (gas j : Nat) (cells : List MxCell) (anyOv : Bool) (moved : Nat),
      SnapRel grid cells
        (resolveInner margin grid ids bounds i gas j cells anyOv moved).1 := by
  intro gas
  induction gas with
  | zero => intro j cells anyOv moved; exact snapRel_refl grid cells
  | succ g ih =>
    intro j cells anyOv moved
    unfold resolveInner
    by_cases hj : j < ids.length
    · rw [if_pos hj]
      rcases hps : resolvePairStep margin grid cells (ids.getD i "") (ids.getD j "")
          (boundsOf bounds (ids.getD i "")) (boundsOf bounds (ids.getD j "")) with
        ⟨cells2, ov, inc⟩
      dsimp only
      have hstep := resolvePairStep_rel margin grid cells (ids.getD i "")
        (ids.getD j "") (boundsOf bounds (ids.getD i "")) (boundsOf bounds (ids.getD j ""))
      rw [hps] at hstep
      exact snapRel_trans grid hstep (ih (j + 1) cells2 (anyOv || ov) (moved + inc))
    · rw [if_neg hj]
      exact snapRel_refl grid cells

theorem resolveOuter_rel (margin : ℚ) (grid : ℤ) (ids : List String)
    (bounds : List (String × CellBounds)) :
    ∀ (gas i : Nat) (cells : List MxCell) (anyOv : Bool) (moved : Nat),
      SnapRel grid cells
        (resolveOuter margin grid ids bounds gas i cells anyOv moved).1 := by
  intro gas
  induction gas with
  | zero => intro i cells anyOv moved; exact snapRel_refl grid cells
  | succ g ih =>
    intro i cells anyOv moved
    unfold resolveOuter
    by_cases hi : i < ids.length
    · rw [if_pos hi]
      rcases hin : resolveInner margin grid ids bounds i ids.length (i + 1) cells
          anyOv moved with ⟨cells2, ov, mv⟩
      dsimp only
      have hstep := resolveInner_rel margin grid ids bounds i ids.length (i + 1) cells
        anyOv moved
      rw [hin] at hstep
      exact snapRel_trans grid hstep (ih (i + 1) cells2 ov mv)
    · rw [if_neg hi]
      exact snapRel_refl grid cells

theorem resolveScan_rel (margin : ℚ) (grid : ℤ) (cells : List MxCell) (moved : Nat) :
    SnapRel grid cells (resolveScan margin grid cells moved).1 := by
  unfold resolveScan
  exact resolveOuter_rel margin grid _ _ _ 0 cells false moved

theorem resolveIter_rel (margin : ℚ) (grid : ℤ) :
    ∀ (fuel : Nat) (cells : List MxCell) (moved : Nat),
      SnapRel grid cells (resolveIter margin grid fuel cells moved).1 := by
  intro fuel
  induction fuel with
  | zero => intro cells moved; exact snapRel_refl grid cells
  | succ k ih =>
    intro cells moved
    unfold resolveIter
    rcases hs : resolveScan margin grid cells moved with ⟨cells2, anyOv, moved2⟩
    dsimp only
    have hstep := resolveScan_rel margin grid cells moved
    rw [hs] at hstep
    dsimp only at hstep
    cases anyOv with
    | false => exact hstep
    | true => exact snapRel_trans grid hstep (ih cells2 moved2)

theorem resolve_overlaps_rel (d : Diagram) (margin : ℚ) (maxIter : Nat) :
    SnapRel d.grid_size d.cells (resolve_overlaps d margin maxIter).1.cells := by
  unfold resolve_overlaps
  rcases hit : resolveIter margin d.grid_size maxIter d.cells 0 with ⟨cells2, mv, fl⟩
  dsimp only
  have h := resolveIter_rel margin d.grid_size maxIter d.cells 0
  rw [hit] at h
  exact h

theorem optCellPass_ptsEmpty (bounds : List (String × CellBounds))
    (margin threshold : ℚ) (grid : ℤ) (c : MxCell) (h : ptsOf c = []) :
    (optCellPass bounds margin threshold grid c).1 = c := by
  unfold optCellPass
  cases getBound bounds c.source with
  | none => rfl
  | some sb =>
    cases getBound bounds c.target with
    | none => rfl
    | some tb =>
      dsimp only
      rw [if_pos h]

theorem optCellPass_proc (bounds : List (String × CellBounds)) (margin threshold : ℚ)
    (grid : ℤ) (c : MxCell)
    (hp : ¬ptsOf c = []) (hs : ¬getBound bounds c.source = none)
    (ht : ¬getBound bounds c.target = none) :
    ∀ p ∈ ptsOf (optCellPass bounds margin threshold grid c).1,
      IsGridMultiple p.x grid ∧ IsGridMultiple p.y grid := by
  unfold optCellPass
  rcases hsb : getBound bounds c.source with _ | sb
  · exact absurd hsb hs
  · rcases htb : getBound bounds c.target with _ | tb
    · exact absurd htb ht
    · dsimp only
      rw [if_neg hp]
      split
      · rename_i hnw
        intro p hp2
        have hmem : (p.x, p.y) ∈ (ptsOf c).map (fun p => (p.x, p.y)) :=
          List.mem_map.mpr ⟨p, hp2, rfl⟩
        rw [← hnw] at hmem
        rcases List.mem_map.mp hmem with ⟨r, hr, hreq⟩
        rw [Prod.mk.injEq] at hreq
        rcases hreq with ⟨h1, h2⟩
        rw [← h1, ← h2]
        exact ⟨snap_mult _ grid, snap_mult _ grid⟩
      · intro p hp2
        have hsub := ptsOf_setPts_sub c _ p hp2
        rcases List.mem_map.mp hsub with ⟨q, hq, hpq⟩
        rcases List.mem_map.mp hq with ⟨r, hr, hqr⟩
        subst hpq
        subst hqr
        exact ⟨snap_mult _ grid, snap_mult _ grid⟩

theorem optCellPass_snap (bounds : List (String × CellBounds)) (margin threshold : ℚ)
    (grid : ℤ) (c : MxCell) :
    (optCellPass bounds margin threshold grid c).1 = c ∨
      AllSnapped (optCellPass bounds margin threshold grid c).1 grid := by
  unfold optCellPass
  cases getBound bounds c.source with
  | none => exact Or.inl rfl
  | some sb =>
    cases getBound bounds c.target with
    | none => exact Or.inl rfl
    | some tb =>
      dsimp only
      by_cases hp : ptsOf c = []
      · rw [if_pos hp]
        exact Or.inl rfl
      · rw [if_neg hp]
        split
        · exact Or.inl rfl
        · right
          intro p hp2
          have hsub := ptsOf_setPts_sub c _ p hp2
          rcases List.mem_map.mp hsub with ⟨q, hq, hpq⟩
          rcases List.mem_map.mp hq with ⟨r, hr, hqr⟩
          subst hpq
          subst hqr
          exact ⟨snap_mult _ grid, snap_mult _ grid⟩

theorem flankWrite_snap (pts : List Pt) (i : Nat) (nc : ℚ) (horiz : Bool) (grid : ℤ)
    (hnc : IsGridMultiple nc grid)
    (hpts : ∀ p ∈ pts, IsGridMultiple p.x grid ∧ IsGridMultiple p.y grid) :
    ∀ p ∈ pts.set i (if horiz then (⟨(pts.getD i ⟨0, 0⟩).x, nc⟩ : Pt)
        else (⟨nc, (pts.getD i ⟨0, 0⟩).y⟩ : Pt)),
      IsGridMultiple p.x grid ∧ IsGridMultiple p.y grid := by
  intro p hp
  rcases List.mem_or_eq_of_mem_set hp with h | h
  · exact hpts p h
  · have hm : IsGridMultiple (pts.getD i ⟨0, 0⟩).x grid ∧
        IsGridMultiple (pts.getD i ⟨0, 0⟩).y grid := by
      by_cases hlen : i < pts.length
      · exact hpts _ (getD_mem_of_lt pts i ⟨0, 0⟩ hlen)
      · rw [getD_of_ge pts i ⟨0, 0⟩ (by omega)]
        exact ⟨zero_mult grid, zero_mult grid⟩
    subst h
    cases horiz with
    | false => exact ⟨hnc, hm.2⟩
    | true => exact ⟨hm.1, hnc⟩

theorem condFlank_snap (l : List Pt) (i : Nat) (nc : ℚ) (horiz : Bool) (grid : ℤ)
    (C : Prop) [Decidable C]
    (hnc : IsGridMultiple nc grid)
    (hl : ∀ p ∈ l, IsGridMultiple p.x grid ∧ IsGridMultiple p.y grid) :
    ∀ p ∈ (if C then l.set i (if horiz then (⟨(l.getD i ⟨0, 0⟩).x, nc⟩ : Pt)
        else (⟨nc, (l.getD i ⟨0, 0⟩).y⟩ : Pt)) else l),
      IsGridMultiple p.x grid ∧ IsGridMultiple p.y grid := by
  split
  · exact flankWrite_snap l i nc horiz grid hnc hl
  · exact hl

theorem sepWrite_snap (pts : List Pt) (seg : OptSegment) (nc : ℚ) (grid : ℤ)
    (hnc : IsGridMultiple nc grid)
    (hpts : ∀ p ∈ pts, IsGridMultiple p.x grid ∧ IsGridMultiple p.y grid) :
    ∀ p ∈ sepWrite pts seg nc, IsGridMultiple p.x grid ∧ IsGridMultiple p.y grid := by
  unfold sepWrite
  exact condFlank_snap _ seg.point_idx nc seg.horiz grid _ hnc
    (condFlank_snap pts ((seg.point_idx : ℤ) - 1).toNat nc seg.horiz grid _ hnc hpts)

theorem collectSegs_proc (bounds : List (String × CellBounds)) :
    ∀ (cells : List MxCell) (ei : Nat), ∀ seg ∈ collectSegs bounds ei cells,
      ∃ j, seg.edge_idx = ei + j ∧ j < cells.length ∧
        ¬ptsOf (cells.getD j dfltCell) = [] ∧
        ¬getBound bounds (cells.getD j dfltCell).source = none ∧
        ¬getBound bounds (cells.getD j dfltCell).target = none := by
  intro cells
  induction cells with
  | nil =>
    intro ei seg h
    have hnil : collectSegs bounds ei [] = [] := rfl
    rw [hnil] at h
    exact absurd h (List.not_mem_nil seg)
  | cons c rest ih =>
    intro ei seg h
    rcases List.mem_append.mp h with h1 | h1
    · have hp : ¬ptsOf c = [] := by
        intro h0
        rw [if_pos h0] at h1
        exact absurd h1 (List.not_mem_nil seg)
      have hsrc : ¬getBound bounds c.source = none := by
        intro h0
        rw [collectSegs_head_none bounds c ei (Or.inl h0)] at h1
        exact absurd h1 (List.not_mem_nil seg)
      have htgt : ¬getBound bounds c.target = none := by
        intro h0
        rw [collectSegs_head_none bounds c ei (Or.inr h0)] at h1
        exact absurd h1 (List.not_mem_nil seg)
      exact ⟨0, by rw [collectSegs_head bounds c ei seg h1]; omega, by simp,
        by rw [List.getD_cons_zero]; exact hp,
        by rw [List.getD_cons_zero]; exact hsrc,
        by rw [List.getD_cons_zero]; exact htgt⟩
    · rcases ih (ei + 1) seg h1 with ⟨j, hj, hjl, hp2, hs2, ht2⟩
      refine ⟨j + 1, by omega, by simp only [List.length_cons]; omega,
        by rw [List.getD_cons_succ]; exact hp2,
        by rw [List.getD_cons_succ]; exact hs2,
        by rw [List.getD_cons_succ]; exact ht2⟩

theorem sepSpread_inv (bounds : List (String × CellBounds)) (ec : List MxCell)
    (spacing : ℚ) (grid : ℤ) (so : ℚ) :
    ∀ (ss : List OptSegment) (idx : Nat) (cells : List MxCell) (modified : Nat),
      (∀ s ∈ ss, ProcIdx bounds ec s.edge_idx) →
      SepInv bounds grid ec cells →
      SepInv bounds grid ec (sepSpread spacing grid so idx ss cells modified).1 := by
  intro ss
  induction ss with
  | nil => intro idx cells modified hss hinv; exact hinv
  | cons seg rest ih =>
    intro idx cells modified hss hinv
    unfold sepSpread
    split
    · exact ih (idx + 1) cells modified
        (fun s hs => hss s (List.mem_cons_of_mem seg hs)) hinv
    · rcases hpp : ptsOf (cells.getD seg.edge_idx dfltCell) with _ | ⟨p0, prest⟩
      · exact ih (idx + 1) cells modified
          (fun s hs => hss s (List.mem_cons_of_mem seg hs)) hinv
      · apply ih (idx + 1) _ _ (fun s hs => hss s (List.mem_cons_of_mem seg hs))
        have hproc := hss seg (List.mem_cons_self seg rest)
        rcases hinv with ⟨hlen, hsnap, hfix⟩
        have helen : seg.edge_idx < cells.length := by
          rw [hlen]
          exact hproc.1
        refine ⟨?_, ?_, ?_⟩
        · rw [List.length_set]
          exact hlen
        · intro j hj
          by_cases hje : seg.edge_idx = j
          · rw [← hje, getD_set_eq _ _ _ _ helen]
            intro p hp
            have hsub := ptsOf_setPts_sub _ _ p hp
            refine sepWrite_snap (p0 :: prest) seg _ grid (snap_mult _ grid) ?_ p hsub
            intro q hq
            apply hsnap seg.edge_idx hproc q
            rw [hpp]
            exact hq
          · rw [getD_set_ne _ _ _ _ _ hje]
            exact hsnap j hj
        · intro j hj
          by_cases hje : seg.edge_idx = j
          · rw [← hje] at hj
            exact absurd hproc hj
          · rw [getD_set_ne _ _ _ _ _ hje]
            exact hfix j hj

theorem sepOuter_inv (bounds : List (String × CellBounds)) (ec : List MxCell)
    (segments : List OptSegment) (spacing : ℚ) (grid : ℤ)
    (hprov : ∀ s ∈ segments, ProcIdx bounds ec s.edge_idx) :
    ∀ (fuel i : Nat) (processed : List Nat) (cells : List MxCell) (modified : Nat),
      fuel + i ≤ segments.length →
      SepInv bounds grid ec cells →
      SepInv bounds grid ec
        (sepOuter segments spacing grid fuel i processed cells modified).1 := by
  intro fuel
  induction fuel with
  | zero => intro i processed cells modified hfi hinv; exact hinv
  | succ k ih =>
    intro i processed cells modified hfi hinv
    unfold sepOuter
    simp only []
    split
    · exact ih (i + 1) processed cells modified (by omega) hinv
    · split
      · exact ih (i + 1) _ cells modified (by omega) hinv
      · apply ih (i + 1) _ _ _ (by omega)
        apply sepSpread_inv bounds ec spacing grid _ _ 0 cells modified ?_ hinv
        intro s hs
        rcases List.mem_map.mp hs with ⟨k2, hk2, hsk⟩
        rcases List.mem_cons.mp hk2 with h2 | h2
        · rw [← hsk, h2]
          exact hprov (segments.getD i dfltSeg)
            (getD_mem_of_lt segments i dfltSeg (by omega))
        · have h3 := clusterCollect_lt segments (segments.getD i dfltSeg) spacing
            (segments.length - (i + 1)) (i + 1) processed k2 h2
          rw [← hsk]
          exact hprov (segments.getD k2 dfltSeg)
            (getD_mem_of_lt segments k2 dfltSeg (by omega))

theorem sep_snap (ec : List MxCell) (bounds : List (String × CellBounds))
    (spacing : ℚ) (grid : ℤ)
    (hsnap : ∀ j, ProcIdx bounds ec j → AllSnapped (ec.getD j dfltCell) grid) :
    ∀ j, AllSnapped ((opt_separate_parallel_edges ec bounds spacing grid).1.getD j
          dfltCell) grid ∨
      (opt_separate_parallel_edges ec bounds spacing grid).1.getD j dfltCell =
        ec.getD j dfltCell := by
  intro j
  unfold opt_separate_parallel_edges
  split
  · exact Or.inr rfl
  · have hprov : ∀ s ∈ collectSegs bounds 0 ec, ProcIdx bounds ec s.edge_idx := by
      intro s hs
      rcases collectSegs_proc bounds ec 0 s hs with ⟨j2, hj2, hjl, hp, hsrc, htgt⟩
      have hj3 : s.edge_idx = j2 := by omega
      rw [hj3]
      exact ⟨hjl, hp, hsrc, htgt⟩
    have hinv := sepOuter_inv bounds ec (collectSegs bounds 0 ec) spacing grid hprov
      (collectSegs bounds 0 ec).length 0 [] ec 0 (by omega)
      ⟨rfl, hsnap, fun _ _ => rfl⟩
    rcases hinv with ⟨hlen, hsnapF, hfixF⟩
    by_cases hp : ProcIdx bounds ec j
    · exact Or.inl (hsnapF j hp)
    · exact Or.inr (hfixF j hp)

theorem optimize_snap (d : Diagram) (margin threshold spacing : ℚ) (k : Nat) :
    (optimize_edge_paths d margin threshold spacing).1.cells.getD k dfltCell =
        d.cells.getD k dfltCell ∨
      AllSnapped ((optimize_edge_paths d margin threshold spacing).1.cells.getD k
        dfltCell) (if d.grid_size = 0 then 10 else d.grid_size) := by
  unfold optimize_edge_paths
  by_cases hb : get_all_vertex_bounds d.cells = []
  · rw [if_pos hb]
    exact Or.inl rfl
  · rw [if_neg hb]
    rcases h14 : optPass14 (get_all_vertex_bounds d.cells) margin threshold
        (if d.grid_size = 0 then 10 else d.grid_size) (d.cells.filter isEdgeCell)
      with ⟨ec2, m14⟩
    dsimp only
    rcases h5 : opt_separate_parallel_edges ec2 (get_all_vertex_bounds d.cells) spacing
        (if d.grid_size = 0 then 10 else d.grid_size) with ⟨ec3, m5⟩
    dsimp only
    have hlen2 : ec2.length = (d.cells.filter isEdgeCell).length := by
      have h := optPass14_length (get_all_vertex_bounds d.cells) margin threshold
        (if d.grid_size = 0 then 10 else d.grid_size) (d.cells.filter isEdgeCell)
      rw [h14] at h
      exact h
    have hlen3 : ec3.length = (d.cells.filter isEdgeCell).length := by
      have h := sep_length ec2 (get_all_vertex_bounds d.cells) spacing
        (if d.grid_size = 0 then 10 else d.grid_size)
      rw [h5] at h
      dsimp only at h
      omega
    by_cases he : isEdgeCell (d.cells.getD k dfltCell) = true
    · have hk : k < d.cells.length := edge_lt_length d.cells k he
      rw [mergeEdges_getD d.cells ec3 k hlen3, if_pos he]
      have horig : (d.cells.filter isEdgeCell).getD
          (((d.cells.take k).filter isEdgeCell).length) dfltCell =
          d.cells.getD k dfltCell := filter_getD_edgeRank d.cells k hk he
      have hec2 : ∀ r : Nat, ec2.getD r dfltCell =
          (optCellPass (get_all_vertex_bounds d.cells) margin threshold
            (if d.grid_size = 0 then 10 else d.grid_size)
            ((d.cells.filter isEdgeCell).getD r dfltCell)).1 := by
        intro r
        have h := optPass14_getD (get_all_vertex_bounds d.cells) margin threshold
          (if d.grid_size = 0 then 10 else d.grid_size) (d.cells.filter isEdgeCell) r
        rw [h14] at h
        exact h
      have hsnap : ∀ j, ProcIdx (get_all_vertex_bounds d.cells) ec2 j →
          AllSnapped (ec2.getD j dfltCell)
            (if d.grid_size = 0 then 10 else d.grid_size) := by
        intro j hj
        rcases hj with ⟨hjl, hjp, hjs, hjt⟩
        rw [hec2 j] at hjp hjs hjt ⊢
        rw [(optCellPass_source _ _ _ _ _).1] at hjs
        rw [(optCellPass_source _ _ _ _ _).2] at hjt
        have hop : ¬ptsOf ((d.cells.filter isEdgeCell).getD j dfltCell) = [] := by
          intro h0
          rw [optCellPass_ptsEmpty _ _ _ _ _ h0] at hjp
          exact hjp h0
        intro p hp
        exact optCellPass_proc _ _ _ _ _ hop hjs hjt p hp
      have hsep := sep_snap ec2 (get_all_vertex_bounds d.cells) spacing
        (if d.grid_size = 0 then 10 else d.grid_size) hsnap
        (((d.cells.take k).filter isEdgeCell).length)
      rw [h5] at hsep
      dsimp only at hsep
      rcases hsep with h | h
      · exact Or.inr h
      · rw [h, hec2]
        rcases optCellPass_snap (get_all_vertex_bounds d.cells) margin threshold
            (if d.grid_size = 0 then 10 else d.grid_size)
            ((d.cells.filter isEdgeCell).getD
              (((d.cells.take k).filter isEdgeCell).length) dfltCell) with h2 | h2
        · rw [h2, horig]
          exact Or.inl rfl
        · exact Or.inr h2
    · rw [mergeEdges_getD d.cells ec3 k hlen3, if_neg he]
      exact Or.inl rfl

/-- C7: every coordinate the engine writes to output is an exact integer
multiple of the grid size in effect: the snapping primitive always
produces a multiple; every node position the in-layout overlap remover
returns and every node position the driver persists is a multiple; every
waypoint the orthogonal router returns is a multiple; the routing pass,
the standalone overlap resolver, and the edge-path optimizer leave every
cell either untouched or with only grid-multiple coordinates written. -/
theorem C7_snapped :
    (∀ (v : ℚ) (g : ℤ), IsGridMultiple (snap_to_grid v g) g) ∧
    (∀ (nodes : List LayoutNode) (padding : ℚ) (mi : Nat) (g : ℤ),
      ∀ nd ∈ (remove_overlaps nodes padding mi g).1,
        IsGridMultiple nd.x g ∧ IsGridMultiple nd.y g) ∧
    (∀ (nodes : List (ℚ × ℚ)) (g : ℤ),
      ∀ q ∈ persistedPositions nodes g,
        IsGridMultiple q.1 g ∧ IsGridMultiple q.2 g) ∧
    (∀ (fuel : Nat) (src tgt : CellBounds) (obstacles : List CellBounds)
        (margin : ℚ) (g : ℤ),
      ∀ p ∈ route_orthogonal_astar fuel src tgt obstacles margin g,
        IsGridMultiple p.x g ∧ IsGridMultiple p.y g) ∧
    (∀ (d : Diagram) (margin : ℚ) (fuel k : Nat),
      (route_edges_around_obstacles d margin fuel).1.cells.getD k dfltCell =
          d.cells.getD k dfltCell ∨
        AllSnapped ((route_edges_around_obstacles d margin fuel).1.cells.getD k
          dfltCell) d.grid_size) ∧
    (∀ (d : Diagram) (margin : ℚ) (maxIter : Nat),
      SnapRel d.grid_size d.cells (resolve_overlaps d margin maxIter).1.cells) ∧
    (∀ (d : Diagram) (margin threshold spacing : ℚ) (k : Nat),
      (optimize_edge_paths d margin threshold spacing).1.cells.getD k dfltCell =
          d.cells.getD k dfltCell ∨
        AllSnapped ((optimize_edge_paths d margin threshold spacing).1.cells.getD k
          dfltCell) (if d.grid_size = 0 then 10 else d.grid_size)) := by
  refine ⟨snap_mult, ?_, ?_, router_snapped, routePass_snap, resolve_overlaps_rel,
    optimize_snap⟩
  · intro nodes padding mi g nd hnd
    rcases List.mem_map.mp hnd with ⟨n0, hn0, heq⟩
    subst heq
    exact ⟨snap_mult _ g, snap_mult _ g⟩
  · intro nodes g q hq
    rcases List.mem_map.mp hq with ⟨p0, hp0, heq⟩
    subst heq
    exact ⟨snap_mult _ g, snap_mult _ g⟩

end DrawioMcp
